import Mathlib

/-!
ideep execution plans: binding, reorder insertion, execution and the caching facades

A shallow embedding of the plan machinery of `include/ideep/computations.hpp`
(`descriptor_group`, `primitive_group`, `computation`), of the static `compute` facades
built on it and of the plan cache they share, and theorems about them.

Conventions of the embedding

* A `param` wraps a shared mkldnn memory primitive.  Copying a `param` copies the
  pointer, so two copies denote the same memory primitive; `operator!=` of the
  wrapper compares that pointer.  A `param` is therefore an identity `id` together
  with the (immutable) descriptor of the memory primitive; the one mutable part,
  the data handle, lives in the plan's store `handle`, addressed by `id`.
* An `int index` is represented by the value of `(unsigned)index`, a natural number.
* `assert` is read as in a build with assertions enabled: a failed assertion stops
  the call with `error.assertion` before the statement that follows it.
* `std::vector::at` out of range stops the call with `error.out_of_range`; an
  out-of-bounds `operator[]` is undefined behaviour, reported as `error.undefined`.
* A call returns the plan as the call left it together with the failure, if any,
  so that what a failing call did to the plan stays visible.
* The native engine is an input: the primitive descriptor it returned is the record
  of the layouts it chose (`primitive_desc`); `mkldnn_primitive_create` on a
  non-null primitive descriptor is taken to succeed.
* A `float` is carried exactly, as the number of millionths it denotes; rounding is
  outside the embedding.
* A fingerprint is the sequence of the values `create_key` is given; a plan cache is
  the list of its idle plans by fingerprint together with the fingerprints leased out
  and a counter of plan constructions; the scope guard releases on every exit path.
* Numeric kernels are outside the embedding: a call of one is kept by its arguments.
-/

namespace ideep

/-- Modelled from the spec: tensor::descriptor (tensor.hpp is not under src/), a value of
logical shape, element type and layout tag whose equality is structural. -/
structure tensor.descriptor where
  dims : List Nat
  data_type : Nat
  format : Nat
deriving DecidableEq, Repr

/-- Modelled from the spec: the data handle of a tensor (tensor.hpp is not under src/).
`null` is the unmaterialized handle (`invalid_buffer`), `buffer` a caller-supplied
address, `scratch` the buffer a param allocated for itself in `materialize`. -/
inductive data_handle where
  | null
  | buffer (addr : Nat)
  | scratch (owner : Nat)
deriving DecidableEq, Repr

/-- Modelled from the spec: invalid_buffer (abstract_types.hpp is not under src/), the
null handle of a tensor that is not materialized. -/
def invalid_buffer : data_handle := data_handle.null

/-- A plan-owned `param`: the identity of the memory primitive it shares and that
primitive's descriptor (`get_descriptor()`). -/
structure param where
  id : Nat
  desc : tensor.descriptor
deriving DecidableEq, Repr

/-- A tensor handed in by the caller, as `connect_handle_for` reads it: through
`get_descriptor()` and `get_data_handle()` only. -/
structure tensor where
  desc : tensor.descriptor
  handle : data_handle
deriving DecidableEq, Repr

/-- The failures a call can end with. -/
inductive error where
  | mkldnn_runtime_error (message : String)
  | mkldnn_unimplemented (message : String)
  | c_api (message : String)
  | out_of_range
  | assertion
  | undefined
deriving DecidableEq, Repr

/-- The error thrown by `connect_handle_for` for an operand it cannot accept. -/
def incompatible_operand : error :=
  error.mkldnn_runtime_error "Cannot accept incompatible input"

/-- The result of `mkldnn_reorder_primitive_desc_create(provided, expected)`. -/
structure reorder_pd where
  src : tensor.descriptor
  dst : tensor.descriptor
deriving DecidableEq, Repr

/-- The primitive descriptor the engine returned for an operator: the descriptor it
expects for every input (`input_pd`) and output (`output_pd`), in slot order. -/
structure primitive_desc where
  inputs : List tensor.descriptor
  outputs : List tensor.descriptor
deriving DecidableEq, Repr

/-- A reorder primitive, `mkldnn_primitive_create(pd, {in}, {out})` of
`create_reorder_for`. -/
structure reorder_primitive where
  pd : reorder_pd
  input : param
  output : param
deriving DecidableEq, Repr

/-- The primary operator primitive, `mkldnn_primitive_create(adesc.get(), inputs,
outputs)` of `init_internal`. -/
structure operator_primitive where
  pd : primitive_desc
  inputs : List param
  outputs : List param
deriving DecidableEq, Repr

/-- An element of an execution sequence: `auxiliaries_[index].get()` or the plan's own
`get()`. -/
inductive primitive where
  | reorder (index : Nat) (r : reorder_primitive)
  | op (p : operator_primitive)
deriving DecidableEq, Repr

/-- Store update at one key (a wrapper slot or a memory primitive). -/
def store_set {α : Type} (s : Nat → α) (k : Nat) (v : α) : Nat → α :=
  fun j => if j = k then v else s j

/-- The state of a `computation` (with its bases `primitive_group` and
`c_wrapper_complex`). -/
structure computation where
  prim : operator_primitive
  auxiliaries_ : Nat → Option reorder_primitive
  inouts_ : List param
  primitive_inputs_ : List param
  handle : Nat → data_handle
  next_id : Nat

/-- What a call on a plan leaves behind: the plan and the failure it ended with. -/
structure outcome where
  plan : computation
  failure : Option error

namespace computation

/-- Modelled from the spec: c_wrapper_complex::need_reorder_input (abstract_types.hpp is
not under src/): the sparse map slot-index to reorder holds a reorder at `pos`. -/
def need_reorder_input (c : computation) (pos : Nat) : Bool :=
  (c.auxiliaries_ pos).isSome

/-- The call `p.get_data_handle()`. -/
def get_data_handle (c : computation) (p : param) : data_handle :=
  c.handle p.id

/-- The call `p.set_data_handle(h)`. -/
def set_data_handle (c : computation) (p : param) (h : data_handle) : computation :=
  { c with handle := store_set c.handle p.id h }

/-- Modelled from the spec: param::materialized (tensor.hpp is not under src/): a handle is
attached. -/
def materialized (c : computation) (p : param) : Bool :=
  decide (c.handle p.id ≠ data_handle.null)

/-- Modelled from the spec: param::materialize (tensor.hpp is not under src/): attach an
own buffer unless a handle is attached already. -/
def materialize (c : computation) (p : param) : computation :=
  if c.materialized p then c
  else { c with handle := store_set c.handle p.id (data_handle.scratch p.id) }

/-- Modelled from the spec: param::dematerialize (tensor.hpp is not under src/): detach the
handle. -/
def dematerialize (c : computation) (p : param) : computation :=
  { c with handle := store_set c.handle p.id data_handle.null }

/-- The statement `auxiliaries_[index].reset(nullptr)`. -/
def reset_auxiliary (c : computation) (index : Nat) : computation :=
  { c with auxiliaries_ := store_set c.auxiliaries_ index none }

/-- The member `num_of_inputs()`. -/
def num_of_inputs (c : computation) : Nat :=
  c.primitive_inputs_.length

/-- The member `num_of_outputs()`. -/
def num_of_outputs (c : computation) : Nat :=
  c.inouts_.length - c.primitive_inputs_.length

/-- The else branch of `connect_handle_for(int, const param&)` ("Connect outputs"). -/
def connect_output (c : computation) (index : Nat) (atensor : tensor) : outcome :=
  match c.inouts_[index]? with
  | none => ⟨c, some error.out_of_range⟩
  | some io =>
    if io.desc = atensor.desc then
      ⟨c.set_data_handle io atensor.handle, none⟩
    else
      ⟨c, some error.assertion⟩

/-- The member `connect_handle_for(int index, const param& atensor)`. -/
def connect_handle_for (c : computation) (index : Nat) (atensor : tensor) : outcome :=
  if index < c.primitive_inputs_.length then
    match c.inouts_[index]?, c.primitive_inputs_[index]? with
    | some io, some pin =>
      if io.id ≠ pin.id then
        if io.desc = atensor.desc then
          ⟨(c.set_data_handle io atensor.handle).materialize pin, none⟩
        else if pin.desc = atensor.desc then
          ⟨(((c.dematerialize pin).set_data_handle pin atensor.handle).reset_auxiliary index),
            none⟩
        else
          ⟨c, some incompatible_operand⟩
      else
        c.connect_output index atensor
    | _, _ => ⟨c, some error.undefined⟩
  else
    c.connect_output index atensor

/-- The variadic `connect_handle_for(int index, const param& first, const Params&... rest)`;
an exception of one bind ends the call. -/
def connect_handle_for_pack (c : computation) (index : Nat) : List tensor → outcome
  | [] => ⟨c, none⟩
  | first :: rest =>
    match c.connect_handle_for index first with
    | ⟨c1, none⟩ => connect_handle_for_pack c1 (index + 1) rest
    | ⟨c1, some e⟩ => ⟨c1, some e⟩

/-- The overload `connect_handle_for(const std::vector<tensor>& inputs, const param& output)`. -/
def connect_handle_for_vector (c : computation) (inputs : List tensor) (output : tensor) :
    outcome :=
  match c.connect_handle_for_pack 0 inputs with
  | ⟨c1, none⟩ => c1.connect_handle_for inputs.length output
  | ⟨c1, some e⟩ => ⟨c1, some e⟩

end computation

namespace primitive_group

/-- One `if (need_reorder_input(pos)) execution_sequence.push_back(auxiliaries_[pos].get());`. -/
def push_auxiliary (c : computation) (pos : Nat) (execution_sequence : List primitive) :
    List primitive :=
  if c.need_reorder_input pos then
    match c.auxiliaries_ pos with
    | some r => execution_sequence ++ [primitive.reorder pos r]
    | none => execution_sequence
  else execution_sequence

/-- The vector `execution_sequence` that `primitive_group::execute(stream&)` builds and
hands to `mkldnn_stream_submit`. -/
def execution_sequence (c : computation) : List primitive :=
  let execution_sequence : List primitive := []
  let execution_sequence := push_auxiliary c 0 execution_sequence
  let execution_sequence := push_auxiliary c 1 execution_sequence
  execution_sequence ++ [primitive.op c.prim]

end primitive_group

/-- The native engine, as far as this file consults it: whether `mkldnn_stream_submit`
succeeds on an execution sequence, whether
`mkldnn_reorder_primitive_desc_create` accepts a pair of descriptors, the check
`mkldnn::memory::validate_dims`, and the primitive descriptor that
`mkldnn_convolution_forward_desc_init` followed by `mkldnn_primitive_desc_create`
yields for a convolution request (or the error the wrapper throws). -/
structure engine where
  stream_submit : List primitive → Bool
  reorder_primitive_desc_create : tensor.descriptor → tensor.descriptor → Bool
  validate_dims : List Int → Bool
  convolution_forward : List tensor.descriptor → List (List Int) → List Nat →
    Except error primitive_desc

/-- Modelled from the spec: tensor::descriptor::format_any (tensor.hpp is not under src/):
the same logical shape and element type with the layout left to the engine
(`mkldnn_any`). -/
def tensor.descriptor.format_any (d : tensor.descriptor) : tensor.descriptor :=
  { d with format := 1 }

/-- The state of a `descriptor_group`: the wrapped primitive descriptor and the reorder
primitive descriptors of `c_wrapper_complex`. -/
structure descriptor_group where
  pd : primitive_desc
  auxiliaries_ : Nat → Option reorder_pd

namespace descriptor_group

/-- Modelled from the spec: c_wrapper_complex::need_reorder_input (abstract_types.hpp is
not under src/), on a descriptor group. -/
def need_reorder_input (g : descriptor_group) (pos : Nat) : Bool :=
  (g.auxiliaries_ pos).isSome

/-- The member `expected_input_descriptor(index)`: the engine's `input_pd` query, cloned. -/
def expected_input_descriptor (g : descriptor_group) (index : Nat) :
    Except error tensor.descriptor :=
  match g.pd.inputs[index]? with
  | some d => Except.ok d
  | none => Except.error (error.c_api "could not clone a src primititve descriptor")

/-- The member `expected_output_descriptor(index)`: the engine's `output_pd` query, cloned. -/
def expected_output_descriptor (g : descriptor_group) (index : Nat) :
    Except error tensor.descriptor :=
  match g.pd.outputs[index]? with
  | some d => Except.ok d
  | none => Except.error (error.c_api "could not clone a src primititve descriptor")

/-- The member `num_of_inputs()`. -/
def num_of_inputs (g : descriptor_group) : Nat :=
  g.pd.inputs.length

/-- The member `num_of_outputs()`. -/
def num_of_outputs (g : descriptor_group) : Nat :=
  g.pd.outputs.length

/-- The loop of `create_reorder_pds`, from index `i` over the descriptors not yet visited. -/
def create_reorder_pds_loop (E : engine) (g : descriptor_group) (i : Nat) :
    List tensor.descriptor → Except error descriptor_group
  | [] => Except.ok g
  | provided :: rest =>
    if i < g.num_of_inputs then
      match g.expected_input_descriptor i with
      | Except.error e => Except.error e
      | Except.ok expected =>
        if expected ≠ provided then
          if E.reorder_primitive_desc_create provided expected then
            create_reorder_pds_loop E
              { g with auxiliaries_ := store_set g.auxiliaries_ i (some ⟨provided, expected⟩) }
              (i + 1) rest
          else
            Except.error (error.c_api "could not create reorder primitive descriptor")
        else
          create_reorder_pds_loop E g (i + 1) rest
    else
      Except.error error.assertion

/-- The member `create_reorder_pds(descriptors)`. -/
def create_reorder_pds (E : engine) (g : descriptor_group)
    (descriptors : List tensor.descriptor) : Except error descriptor_group :=
  create_reorder_pds_loop E g 0 descriptors

/-- A descriptor group right after `reset(result)`: the engine's primitive descriptor and
no reorder primitive descriptor yet. -/
def reset (pd : primitive_desc) : descriptor_group :=
  { pd := pd, auxiliaries_ := fun _ => none }

end descriptor_group

namespace primitive_group

/-- The member `create_reorder_for(index, g, in, out)`. -/
def create_reorder_for (c : computation) (index : Nat) (g : descriptor_group)
    (input output : param) : Except error computation :=
  match g.auxiliaries_ index with
  | none => Except.error (error.c_api "could not create a reorder")
  | some pd =>
    Except.ok { c with auxiliaries_ := store_set c.auxiliaries_ index (some ⟨pd, input, output⟩) }

end primitive_group

namespace computation

/-- The member `connect_reorder_for(int index, adesc, desc)`. -/
def connect_reorder_for (c : computation) (index : Nat) (adesc : descriptor_group)
    (desc : tensor.descriptor) : Except error computation :=
  if adesc.need_reorder_input index then
    match c.primitive_inputs_[index]? with
    | none => Except.error error.undefined
    | some pin =>
      if index < c.inouts_.length then
        let io : param := ⟨c.next_id, desc⟩
        primitive_group.create_reorder_for
          { c with inouts_ := c.inouts_.set index io,
                   handle := store_set c.handle io.id invalid_buffer,
                   next_id := c.next_id + 1 }
          index adesc io pin
      else Except.error error.undefined
  else Except.ok c

/-- The variadic `connect_reorder_for(int index, adesc, first, rest...)` and the loop of
the vector overload, both of which visit the descriptors in order from `index`. -/
def connect_reorder_for_pack (c : computation) (index : Nat) (adesc : descriptor_group) :
    List tensor.descriptor → Except error computation
  | [] => Except.ok c
  | first :: rest =>
    match c.connect_reorder_for index adesc first with
    | Except.error e => Except.error e
    | Except.ok c1 => connect_reorder_for_pack c1 (index + 1) adesc rest

/-- The first loop of `init_internal`: the params `{expected_input_descriptor(i),
invalid_buffer}` for `i`, `i + 1`, ..., `k` of them, the memory primitive of slot `j`
getting identity `j`. -/
def init_inputs (adesc : descriptor_group) : Nat → Nat → Except error (List param)
  | 0, _ => Except.ok []
  | k + 1, i =>
    match adesc.expected_input_descriptor i with
    | Except.error e => Except.error e
    | Except.ok d =>
      match init_inputs adesc k (i + 1) with
      | Except.error e => Except.error e
      | Except.ok ps => Except.ok (⟨i, d⟩ :: ps)

/-- The second loop of `init_internal`: the params `{expected_output_descriptor(i),
invalid_buffer}` stored at `inouts_[i + n_inputs]`. -/
def init_outputs (adesc : descriptor_group) (n_inputs : Nat) : Nat → Nat →
    Except error (List param)
  | 0, _ => Except.ok []
  | k + 1, i =>
    match adesc.expected_output_descriptor i with
    | Except.error e => Except.error e
    | Except.ok d =>
      match init_outputs adesc n_inputs k (i + 1) with
      | Except.error e => Except.error e
      | Except.ok ps => Except.ok (⟨i + n_inputs, d⟩ :: ps)

/-- The member `init_internal(adesc, n_inputs, n_outputs)`. -/
def init_internal (adesc : descriptor_group) (n_inputs n_outputs : Nat) :
    Except error computation :=
  match init_inputs adesc n_inputs 0 with
  | Except.error e => Except.error e
  | Except.ok primitive_inputs =>
    match init_outputs adesc n_inputs n_outputs 0 with
    | Except.error e => Except.error e
    | Except.ok outputs =>
      Except.ok
        { prim := ⟨adesc.pd, primitive_inputs, outputs⟩,
          auxiliaries_ := fun _ => none,
          inouts_ := primitive_inputs ++ outputs,
          primitive_inputs_ := primitive_inputs,
          handle := fun _ => invalid_buffer,
          next_id := n_inputs + n_outputs }

/-- The variadic `init(adesc, args...)`. -/
def init (adesc : descriptor_group) (args : List tensor.descriptor) :
    Except error computation :=
  let n_inputs := adesc.num_of_inputs
  let n_outputs := adesc.num_of_outputs
  match init_internal adesc n_inputs n_outputs with
  | Except.error e => Except.error e
  | Except.ok c => c.connect_reorder_for_pack 0 adesc args

/-- The overload `init(adesc, const std::vector<tensor::descriptor>& args)`. -/
def init_vector (adesc : descriptor_group) (args : List tensor.descriptor) :
    Except error computation :=
  if adesc.num_of_inputs = args.length then
    let n_inputs := args.length
    let n_outputs := adesc.num_of_outputs
    match init_internal adesc n_inputs n_outputs with
    | Except.error e => Except.error e
    | Except.ok c => c.connect_reorder_for_pack 0 adesc args
  else Except.error error.assertion

end computation

/-- What a call of `execute` leaves behind: the plan, the failure it ended with, and the
execution sequence that reached `mkldnn_stream_submit` (none when the call failed before). -/
structure execution where
  plan : computation
  failure : Option error
  submitted : Option (List primitive)

namespace primitive_group

/-- The member `primitive_group::execute(stream&)`. -/
def execute (E : engine) (c : computation) : execution :=
  if E.stream_submit (execution_sequence c) then
    ⟨c, none, some (execution_sequence c)⟩
  else
    ⟨c, some (error.c_api "could not execute the computation"), some (execution_sequence c)⟩

end primitive_group

namespace computation

/-- The variadic `execute(const param& arg0, const Params&... args)`. -/
def execute (E : engine) (c : computation) (args : List tensor) : execution :=
  match c.connect_handle_for_pack 0 args with
  | ⟨c1, none⟩ => primitive_group.execute E c1
  | ⟨c1, some e⟩ => ⟨c1, some e, none⟩

/-- The overload `execute(const std::vector<tensor>& inputs, const tensor& outputs)`. -/
def execute_vector (E : engine) (c : computation) (inputs : List tensor) (outputs : tensor) :
    execution :=
  match c.connect_handle_for_vector inputs outputs with
  | ⟨c1, none⟩ => primitive_group.execute E c1
  | ⟨c1, some e⟩ => ⟨c1, some e, none⟩

end computation

/-- A call a holder of a constructed plan can make on it. -/
inductive call where
  | connect_handle_for (index : Nat) (atensor : tensor)
  | connect_handle_for_pack (index : Nat) (tensors : List tensor)
  | connect_handle_for_vector (inputs : List tensor) (output : tensor)
  | execute (args : List tensor)
  | execute_vector (inputs : List tensor) (outputs : tensor)
  | primitive_group_execute

/-- The plan one call leaves behind, whether the call failed or not. -/
def call.apply (E : engine) (c : computation) : call → computation
  | call.connect_handle_for index atensor => (c.connect_handle_for index atensor).plan
  | call.connect_handle_for_pack index tensors => (c.connect_handle_for_pack index tensors).plan
  | call.connect_handle_for_vector inputs output =>
    (c.connect_handle_for_vector inputs output).plan
  | call.execute args => (c.execute E args).plan
  | call.execute_vector inputs outputs => (c.execute_vector E inputs outputs).plan
  | call.primitive_group_execute => (primitive_group.execute E c).plan

/-- The plan a sequence of calls leaves behind. -/
def computation.run (E : engine) (c : computation) : List call → computation
  | [] => c
  | k :: rest => computation.run E (k.apply E c) rest

/-- The invariant of a constructed plan that ties its reorders to its slots: the two
vectors are `inputs ++ outputs` against `inputs`, every memory primitive of the primary
operator is older than `next_id`, and a reorder kept for slot `i` reads a param of its own
held in `inouts_[i]` and writes `primitive_inputs_[i]`. -/
structure computation.well_formed (c : computation) : Prop where
  sizes : c.primitive_inputs_.length ≤ c.inouts_.length
  fresh : ∀ (i : Nat) (pin : param), c.primitive_inputs_[i]? = some pin → pin.id < c.next_id
  reorders : ∀ (i : Nat) (r : reorder_primitive), c.auxiliaries_ i = some r →
    ∃ (io pin : param), c.inouts_[i]? = some io ∧ c.primitive_inputs_[i]? = some pin ∧
      io.id ≠ pin.id ∧ r.input = io ∧ r.output = pin

namespace convolution_forward

/-- The constructor `descriptor(src_desc, weights_desc, bias_desc, dst_desc, strides,
padding_l, padding_r, aalgorithm, aprop_kind, apadding_kind)`. -/
def descriptor (E : engine) (src_desc weights_desc bias_desc dst_desc : tensor.descriptor)
    (strides padding_l padding_r : List Int) (aalgorithm aprop_kind apadding_kind : Nat) :
    Except error descriptor_group :=
  if E.validate_dims strides && E.validate_dims padding_l && E.validate_dims padding_r then
    match E.convolution_forward
        [src_desc.format_any, weights_desc.format_any, bias_desc.format_any,
          dst_desc.format_any]
        [strides, padding_l, padding_r] [aprop_kind, aalgorithm, apadding_kind] with
    | Except.error e => Except.error e
    | Except.ok result =>
      (descriptor_group.reset result).create_reorder_pds E [src_desc, weights_desc]
  else Except.error (error.c_api "invalid dimensions")

/-- The constructor `descriptor(src_desc, weights_desc, dst_desc, strides, padding_l,
padding_r, aalgorithm, aprop_kind, apadding_kind)`, without bias. -/
def descriptor_no_bias (E : engine) (src_desc weights_desc dst_desc : tensor.descriptor)
    (strides padding_l padding_r : List Int) (aalgorithm aprop_kind apadding_kind : Nat) :
    Except error descriptor_group :=
  if E.validate_dims strides && E.validate_dims padding_l && E.validate_dims padding_r then
    match E.convolution_forward
        [src_desc.format_any, weights_desc.format_any, dst_desc.format_any]
        [strides, padding_l, padding_r] [aprop_kind, aalgorithm, apadding_kind] with
    | Except.error e => Except.error e
    | Except.ok result =>
      (descriptor_group.reset result).create_reorder_pds E [src_desc, weights_desc]
  else Except.error (error.c_api "invalid dimensions")

/-- The member `init(src_desc, weights_desc, bias, dst, args...)`. -/
def init (E : engine) (src_desc weights_desc bias dst : tensor.descriptor)
    (strides padding_l padding_r : List Int) (aalgorithm aprop_kind apadding_kind : Nat) :
    Except error computation :=
  match descriptor E src_desc weights_desc bias dst strides padding_l padding_r
      aalgorithm aprop_kind apadding_kind with
  | Except.error e => Except.error e
  | Except.ok forward_descriptor =>
    computation.init forward_descriptor [src_desc, weights_desc, bias]

/-- The member `init(src_desc, weights_desc, dst, something, args...)`, without bias. -/
def init_no_bias (E : engine) (src_desc weights_desc dst : tensor.descriptor)
    (strides padding_l padding_r : List Int) (aalgorithm aprop_kind apadding_kind : Nat) :
    Except error computation :=
  match descriptor_no_bias E src_desc weights_desc dst strides padding_l padding_r
      aalgorithm aprop_kind apadding_kind with
  | Except.error e => Except.error e
  | Except.ok forward_descriptor =>
    computation.init forward_descriptor [src_desc, weights_desc]

end convolution_forward

/-! ## Concrete plans used to exercise the statements -/

/-- A source descriptor in the caller's plain layout. -/
def src_plain : tensor.descriptor := ⟨[1, 3, 8, 8], 1, 5⟩

/-- The same source in the layout the engine prefers. -/
def src_blocked : tensor.descriptor := ⟨[1, 3, 8, 8], 1, 8⟩

/-- A weights descriptor in the caller's plain layout. -/
def weights_plain : tensor.descriptor := ⟨[4, 3, 3, 3], 1, 12⟩

/-- The same weights in the layout the engine prefers. -/
def weights_blocked : tensor.descriptor := ⟨[4, 3, 3, 3], 1, 20⟩

/-- A bias descriptor. -/
def bias_x : tensor.descriptor := ⟨[4], 1, 2⟩

/-- The result descriptor the caller asks for. -/
def dst_plain : tensor.descriptor := ⟨[1, 4, 6, 6], 1, 5⟩

/-- The result descriptor in the layout the engine prefers. -/
def dst_blocked : tensor.descriptor := ⟨[1, 4, 6, 6], 1, 8⟩

/-- An engine that accepts every request and answers a convolution request with blocked
layouts for source, weights and result and with the bias layout `bias_x`. -/
def sample_engine : engine :=
  { stream_submit := fun _ => true,
    reorder_primitive_desc_create := fun _ _ => true,
    validate_dims := fun _ => true,
    convolution_forward := fun _ _ _ =>
      Except.ok ⟨[src_blocked, weights_blocked, bias_x], [dst_blocked]⟩ }

/-- The plan `convolution_forward::init` builds on `sample_engine` for a caller holding
plain source and weights: slots 0 and 1 carry a reorder, slot 2 is the bias, slot 3 the
result. -/
def conv_plan : computation :=
  { prim := ⟨⟨[src_blocked, weights_blocked, bias_x], [dst_blocked]⟩,
      [⟨0, src_blocked⟩, ⟨1, weights_blocked⟩, ⟨2, bias_x⟩], [⟨3, dst_blocked⟩]⟩,
    auxiliaries_ :=
      store_set
        (store_set (fun _ => none) 0
          (some ⟨⟨src_plain, src_blocked⟩, ⟨4, src_plain⟩, ⟨0, src_blocked⟩⟩))
        1 (some ⟨⟨weights_plain, weights_blocked⟩, ⟨5, weights_plain⟩, ⟨1, weights_blocked⟩⟩),
    inouts_ := [⟨4, src_plain⟩, ⟨5, weights_plain⟩, ⟨2, bias_x⟩, ⟨3, dst_blocked⟩],
    primitive_inputs_ := [⟨0, src_blocked⟩, ⟨1, weights_blocked⟩, ⟨2, bias_x⟩],
    handle := store_set (store_set (fun _ => invalid_buffer) 4 invalid_buffer) 5 invalid_buffer,
    next_id := 6 }

/-- The primitive descriptor the sample engine answers a convolution request with. -/
def conv_pd : primitive_desc :=
  ⟨[src_blocked, weights_blocked, bias_x], [dst_blocked]⟩

/-- The descriptor group `convolution_forward::descriptor` builds on `sample_engine` for a
caller holding plain source and weights: a reorder descriptor for slots 0 and 1. -/
def conv_group : descriptor_group :=
  { pd := conv_pd,
    auxiliaries_ :=
      store_set (store_set (fun _ => none) 0 (some ⟨src_plain, src_blocked⟩))
        1 (some ⟨weights_plain, weights_blocked⟩) }

/-- A bias descriptor with another layout tag than the one the sample engine answers. -/
def bias_other : tensor.descriptor := ⟨[4], 1, 3⟩

/-! ## The binds a call makes -/

/-- The tensors of a pack or vector with the slot each one is bound to, counted from
`index`. -/
def indexed_tensors (index : Nat) : List tensor → List (Nat × tensor)
  | [] => []
  | first :: rest => (index, first) :: indexed_tensors (index + 1) rest

/-- The binds a call attempts, in order, each as the slot index and the tensor offered to
it; a failing bind ends the call, so the call makes a leading part of them. -/
def call.binds : call → List (Nat × tensor)
  | call.connect_handle_for index atensor => [(index, atensor)]
  | call.connect_handle_for_pack index tensors => indexed_tensors index tensors
  | call.connect_handle_for_vector inputs output =>
    indexed_tensors 0 inputs ++ [(inputs.length, output)]
  | call.execute args => indexed_tensors 0 args
  | call.execute_vector inputs outputs =>
    indexed_tensors 0 inputs ++ [(inputs.length, outputs)]
  | call.primitive_group_execute => []

/-- The four tensors of a caller holding plain source and weights, as `execute` of the
sample convolution plan takes them. -/
def plain_operands : List tensor :=
  [⟨src_plain, data_handle.buffer 200⟩, ⟨weights_plain, data_handle.buffer 201⟩,
   ⟨bias_x, data_handle.buffer 202⟩, ⟨dst_blocked, data_handle.buffer 203⟩]

/-- The tensors of a caller whose source is already in the engine's blocked layout. -/
def blocked_source_operands : List tensor :=
  [⟨src_blocked, data_handle.buffer 100⟩, ⟨weights_plain, data_handle.buffer 101⟩,
   ⟨bias_x, data_handle.buffer 102⟩, ⟨dst_blocked, data_handle.buffer 103⟩]

/-! ## Fingerprints, the plan cache and the scope guard -/

/-- A `float` parameter (epsilon, momentum, alpha, beta, a scale).  Rounding is outside
the model: a value is carried exactly, as the number of millionths it denotes. -/
abbrev float := Int

/-- The value `1.f`. -/
def float_one : float := 1000000

/-- Modelled from the spec: one of the values a fingerprint is derived from
(utils::create_key is not under src/): an integral or enumeration value (element type,
layout tag, algorithm, kind, count), a `dims` vector, or a `float`. -/
inductive key_part where
  | value (n : Int)
  | dims (d : List Int)
  | real (x : float)
deriving DecidableEq, Repr

/-- The fingerprint type `key_t`. -/
abbrev key_t := List key_part

/-- Modelled from the spec: utils::create_key (not under src/): the fingerprint is the
sequence of the values it is derived from, so two fingerprints are equal exactly when they
are derived from the same values in the same order. -/
def utils.create_key (parts : List key_part) : key_t := parts

/-- The `dims` of a descriptor as a fingerprint component. -/
def key_part.of_dims (d : List Nat) : key_part := key_part.dims (d.map Int.ofNat)

/-- An enumeration or count as a fingerprint component. -/
def key_part.of_nat (n : Nat) : key_part := key_part.value (Int.ofNat n)

/-- Modelled from the spec: utils::computation_cache (lru_cache.hpp is not under src/), the
plan cache of one operator class: the idle plans by fingerprint, most recently released
first; the fingerprints of the plans leased out; the configured capacity; and the
instrumentation counter of plan constructions. -/
structure utils.computation_cache (α : Type) where
  idle : List (key_t × α)
  leased : List key_t
  capacity : Nat
  constructions : Nat

namespace utils

/-- The empty cache of a given capacity. -/
def computation_cache.empty (α : Type) (capacity : Nat) : computation_cache α :=
  { idle := [], leased := [], capacity := capacity, constructions := 0 }

/-- Take the most recently released idle plan stored under `key` out of the idle list. -/
def take_idle {α : Type} : List (key_t × α) → key_t → Option (α × List (key_t × α))
  | [], _ => none
  | (k, p) :: rest, key =>
    if k = key then some (p, rest)
    else
      match take_idle rest key with
      | none => none
      | some (q, others) => some (q, (k, p) :: others)

/-- A plan constructor run outside `fetch_or_create`: the counter of constructions counts
it when it returns a plan. -/
def computation_cache.construct {α : Type} (cache : computation_cache α)
    (constructor : Except error α) : computation_cache α × Except error α :=
  match constructor with
  | Except.ok plan => ({ cache with constructions := cache.constructions + 1 }, Except.ok plan)
  | Except.error e => (cache, Except.error e)

/-- Modelled from the spec: fetch_or_create (lru_cache.hpp is not under src/): if an idle
plan exists under the fingerprint, lease it (it leaves the idle set); else construct a new
plan with the operator's constructor and lease it; a throwing constructor leaves the cache
as it was. -/
def computation_cache.fetch_or_create {α : Type} (cache : computation_cache α) (key : key_t)
    (constructor : Except error α) : computation_cache α × Except error α :=
  match take_idle cache.idle key with
  | some (plan, others) =>
    ({ cache with idle := others, leased := key :: cache.leased }, Except.ok plan)
  | none =>
    match cache.construct constructor with
    | (cache1, Except.ok plan) =>
      ({ cache1 with leased := key :: cache1.leased }, Except.ok plan)
    | (cache1, Except.error e) => (cache1, Except.error e)

/-- Modelled from the spec: release (lru_cache.hpp is not under src/): the plan returns to
the idle set under the fingerprint as the most recently released one; when that exceeds the
capacity the least recently released idle plans are evicted. -/
def computation_cache.release {α : Type} (cache : computation_cache α) (key : key_t)
    (plan : α) : computation_cache α :=
  { cache with idle := ((key, plan) :: cache.idle).take cache.capacity,
               leased := cache.leased.erase key }

/-- Modelled from the spec: utils::make_guard (scope_guard.hpp is not under src/) holding
the action `release(key, std::move(comp))`: the rest of the scope runs on the leased plan,
and on every exit path, normal or by exception, the action releases the plan as the scope
left it.  `scope` returns that plan and what the scope ended with. -/
def guarded_release {α β : Type} (cache : computation_cache α) (key : key_t) (comp : α)
    (scope : α → α × β) : computation_cache α × β :=
  ((cache.release key (scope comp).1), (scope comp).2)

end utils

/-! ## Queries on a primitive descriptor and the other operator descriptors -/

/-- The named queries of `mkldnn::query` that `expected_descriptor_of` is called with. -/
inductive query where
  | src_pd
  | weights_pd
  | dst_pd
  | workspace_pd
  | diff_src_pd
  | diff_dst_pd
  | diff_weights_pd
deriving DecidableEq, Repr

/-- The operation descriptors, other than convolution, that the descriptor constructors of
this file hand to `mkldnn_primitive_desc_create`. -/
inductive operator_desc where
  | pooling_forward (aprop_kind aalgorithm : Nat) (src dst : tensor.descriptor)
      (strides kernel padding_l padding_r : List Int) (apadding_kind : Nat)
  | batch_normalization_forward (aprop_kind : Nat) (src : tensor.descriptor)
      (epsilon : float) (flags : Nat)
  | batch_normalization_backward (aprop_kind : Nat) (diff_src src : tensor.descriptor)
      (epsilon : float) (flags : Nat) (hint : primitive_desc)
  | sum (output : Option tensor.descriptor) (scales : List float)
      (inputs : List tensor.descriptor)
deriving DecidableEq, Repr

/-- The native engine's C API beyond what `engine` holds: the primitive descriptor it
creates for an operation descriptor (or the error the wrapper throws), and its answer to a
named query on a primitive descriptor (none when it has no such descriptor). -/
structure mkldnn_api where
  primitive_desc_create : operator_desc → Except error primitive_desc
  primitive_desc_query_pd : primitive_desc → query → Nat → Option tensor.descriptor

/-- The member `descriptor_group::expected_descriptor_of(q, index)`. -/
def descriptor_group.expected_descriptor_of (M : mkldnn_api) (g : descriptor_group)
    (q : query) (index : Nat) : Except error tensor.descriptor :=
  match M.primitive_desc_query_pd g.pd q index with
  | some d => Except.ok d
  | none => Except.error (error.c_api "could not clone a src primititve descriptor")

namespace primitive_group

/-- The member `primitive_group::expected_descriptor_of(q, index)`, a query on the
primitive descriptor of the plan's primary primitive. -/
def expected_descriptor_of (M : mkldnn_api) (c : computation) (q : query) (index : Nat) :
    Except error tensor.descriptor :=
  match M.primitive_desc_query_pd c.prim.pd q index with
  | some d => Except.ok d
  | none => Except.error (error.c_api "could not clone a src primititve descriptor")

/-- The member `expected_src_descriptor()`. -/
def expected_src_descriptor (M : mkldnn_api) (c : computation) :
    Except error tensor.descriptor :=
  expected_descriptor_of M c query.src_pd 0

/-- The member `expected_weights_descriptor()`. -/
def expected_weights_descriptor (M : mkldnn_api) (c : computation) :
    Except error tensor.descriptor :=
  expected_descriptor_of M c query.weights_pd 0

/-- The member `expected_dst_descriptor()`. -/
def expected_dst_descriptor (M : mkldnn_api) (c : computation) :
    Except error tensor.descriptor :=
  expected_descriptor_of M c query.dst_pd 0

/-- The member `expected_workspace_descriptor()`. -/
def expected_workspace_descriptor (M : mkldnn_api) (c : computation) :
    Except error tensor.descriptor :=
  expected_descriptor_of M c query.workspace_pd 0

/-- The member `expected_gradx_descriptor()`. -/
def expected_gradx_descriptor (M : mkldnn_api) (c : computation) :
    Except error tensor.descriptor :=
  expected_descriptor_of M c query.diff_src_pd 0

end primitive_group

/-! ## The standalone reorder -/

/-- The state of a `reorder`: its two params `in` and `out`, each a descriptor fixed by
`init` and the data handle last bound. -/
structure reorder where
  in_ : tensor
  out : tensor
deriving DecidableEq, Repr

namespace reorder

/-- The member `init(src_desc, dst_desc)`. -/
def init (E : engine) (src_desc dst_desc : tensor.descriptor) : Except error reorder :=
  if E.reorder_primitive_desc_create src_desc dst_desc then
    Except.ok ⟨⟨src_desc, invalid_buffer⟩, ⟨dst_desc, invalid_buffer⟩⟩
  else Except.error (error.c_api "could not create a reorder primitive descriptor")

/-- The primitive `get()` of a reorder, as it stands in an execution sequence. -/
def get (r : reorder) : primitive :=
  primitive.reorder 0 ⟨⟨r.in_.desc, r.out.desc⟩, ⟨0, r.in_.desc⟩, ⟨1, r.out.desc⟩⟩

/-- What a call of `operator()` leaves behind: the reorder, the failure it ended with and
the execution sequence that reached `mkldnn_stream_submit`. -/
structure execution where
  plan : reorder
  failure : Option error
  submitted : Option (List primitive)

/-- The member `operator()(input, output)`. -/
def call (E : engine) (r : reorder) (input output : tensor) : execution :=
  if input.desc = r.in_.desc ∧ output.desc = r.out.desc then
    let r1 : reorder := ⟨⟨r.in_.desc, input.handle⟩, ⟨r.out.desc, output.handle⟩⟩
    if E.stream_submit [r1.get] then ⟨r1, none, some [r1.get]⟩
    else ⟨r1, some (error.c_api "could not execute reorder"), some [r1.get]⟩
  else ⟨r, some error.assertion, none⟩

/-- The fingerprint `reorder::compute` derives from its two tensors. -/
def key (input output : tensor) : key_t :=
  utils.create_key
    [key_part.of_dims input.desc.dims, key_part.of_nat input.desc.data_type,
     key_part.of_nat input.desc.format, key_part.of_dims output.desc.dims,
     key_part.of_nat output.desc.data_type, key_part.of_nat output.desc.format]

/-- The static member `reorder::compute(input, output)`. -/
def compute (E : engine) (cache : utils.computation_cache reorder) (input output : tensor) :
    utils.computation_cache reorder × Except error tensor.descriptor :=
  match cache.fetch_or_create (key input output) (init E input.desc output.desc) with
  | (cache1, Except.error e) => (cache1, Except.error e)
  | (cache1, Except.ok op) =>
    utils.guarded_release cache1 (key input output) op (fun op =>
      match (call E op input output).failure with
      | some e => ((call E op input output).plan, Except.error e)
      | none => ((call E op input output).plan, Except.ok output.desc))

end reorder

/-! ## The convolution forward facade -/

/-- Modelled from the spec: the layout tag the two-argument constructor
`tensor::descriptor(dims, data_type)` picks for a rank (tensor.hpp is not under src/); the
descriptor constructors erase it again with `format_any`. -/
def default_format (ndims : Nat) : Nat :=
  match ndims with
  | 1 => 2
  | 2 => 3
  | 4 => 5
  | _ => 0

/-- The constructor `tensor::descriptor(dims, data_type)`. -/
def tensor.descriptor.of_dims (dims : List Nat) (data_type : Nat) : tensor.descriptor :=
  ⟨dims, data_type, default_format dims.length⟩

namespace convolution_forward

/-- The constructor `descriptor(src_desc, weights_desc, bias_desc, dst_desc, strides,
dilates, padding_l, padding_r, aalgorithm, aprop_kind, apadding_kind)`. -/
def descriptor_dilated (E : engine)
    (src_desc weights_desc bias_desc dst_desc : tensor.descriptor)
    (strides dilates padding_l padding_r : List Int)
    (aalgorithm aprop_kind apadding_kind : Nat) : Except error descriptor_group :=
  if E.validate_dims strides && E.validate_dims dilates && E.validate_dims padding_l
      && E.validate_dims padding_r then
    match E.convolution_forward
        [src_desc.format_any, weights_desc.format_any, bias_desc.format_any,
          dst_desc.format_any]
        [strides, dilates, padding_l, padding_r] [aprop_kind, aalgorithm, apadding_kind] with
    | Except.error e => Except.error e
    | Except.ok result =>
      (descriptor_group.reset result).create_reorder_pds E [src_desc, weights_desc]
  else Except.error (error.c_api "invalid dimensions")

/-- The constructor `descriptor(src_desc, weights_desc, dst_desc, strides, dilates,
padding_l, padding_r, aalgorithm, aprop_kind, apadding_kind)`, without bias. -/
def descriptor_dilated_no_bias (E : engine)
    (src_desc weights_desc dst_desc : tensor.descriptor)
    (strides dilates padding_l padding_r : List Int)
    (aalgorithm aprop_kind apadding_kind : Nat) : Except error descriptor_group :=
  if E.validate_dims strides && E.validate_dims dilates && E.validate_dims padding_l
      && E.validate_dims padding_r then
    match E.convolution_forward
        [src_desc.format_any, weights_desc.format_any, dst_desc.format_any]
        [strides, dilates, padding_l, padding_r] [aprop_kind, aalgorithm, apadding_kind] with
    | Except.error e => Except.error e
    | Except.ok result =>
      (descriptor_group.reset result).create_reorder_pds E [src_desc, weights_desc]
  else Except.error (error.c_api "invalid dimensions")

/-- The parameter pack `args...` that a `compute` overload forwards to `compute_impl` and
on to the plan constructor: strides, dilates in the dilated overloads, the two paddings,
algorithm, propagation kind and padding kind. -/
structure arguments where
  strides : List Int
  dilates : Option (List Int)
  padding_l : List Int
  padding_r : List Int
  aalgorithm : Nat
  aprop_kind : Nat
  apadding_kind : Nat
deriving DecidableEq, Repr

/-- The pack `args...` as the trailing components of a fingerprint. -/
def arguments.key_parts (a : arguments) : List key_part :=
  [key_part.dims a.strides] ++
    (match a.dilates with
      | some d => [key_part.dims d]
      | none => []) ++
    [key_part.dims a.padding_l, key_part.dims a.padding_r, key_part.of_nat a.aalgorithm,
     key_part.of_nat a.aprop_kind, key_part.of_nat a.apadding_kind]

/-- The descriptor constructor the pack selects, with bias. -/
def arguments.descriptor (E : engine) (a : arguments)
    (src_desc weights_desc bias_desc dst_desc : tensor.descriptor) :
    Except error descriptor_group :=
  match a.dilates with
  | none =>
    convolution_forward.descriptor E src_desc weights_desc bias_desc dst_desc a.strides
      a.padding_l a.padding_r a.aalgorithm a.aprop_kind a.apadding_kind
  | some dilates =>
    convolution_forward.descriptor_dilated E src_desc weights_desc bias_desc dst_desc
      a.strides dilates
      a.padding_l a.padding_r a.aalgorithm a.aprop_kind a.apadding_kind

/-- The descriptor constructor the pack selects, without bias. -/
def arguments.descriptor_no_bias (E : engine) (a : arguments)
    (src_desc weights_desc dst_desc : tensor.descriptor) : Except error descriptor_group :=
  match a.dilates with
  | none =>
    convolution_forward.descriptor_no_bias E src_desc weights_desc dst_desc a.strides
      a.padding_l a.padding_r a.aalgorithm a.aprop_kind a.apadding_kind
  | some dilates =>
    convolution_forward.descriptor_dilated_no_bias E src_desc weights_desc dst_desc
      a.strides dilates
      a.padding_l a.padding_r a.aalgorithm a.aprop_kind a.apadding_kind

/-- The plan constructor `convolution_forward(src_desc, weights_desc, bias, dst, args...)`,
which is `init(src_desc, weights_desc, bias, dst, args...)`. -/
def construct (E : engine) (src_desc weights_desc bias dst : tensor.descriptor)
    (a : arguments) : Except error computation :=
  match a.descriptor E src_desc weights_desc bias dst with
  | Except.error e => Except.error e
  | Except.ok forward_descriptor =>
    computation.init forward_descriptor [src_desc, weights_desc, bias]

/-- The plan constructor `convolution_forward(src_desc, weights_desc, dst, args...)`, which
is `init(src_desc, weights_desc, dst, something, args...)`. -/
def construct_no_bias (E : engine) (src_desc weights_desc dst : tensor.descriptor)
    (a : arguments) : Except error computation :=
  match a.descriptor_no_bias E src_desc weights_desc dst with
  | Except.error e => Except.error e
  | Except.ok forward_descriptor =>
    computation.init forward_descriptor [src_desc, weights_desc]

/-- The fingerprint of `compute_impl` with bias. -/
def key (src weights bias : tensor) (result_dims : List Nat) (a : arguments) : key_t :=
  utils.create_key
    ([key_part.of_nat src.desc.data_type, key_part.of_dims src.desc.dims,
      key_part.of_dims weights.desc.dims, key_part.of_dims bias.desc.dims,
      key_part.of_dims result_dims] ++ a.key_parts)

/-- The fingerprint of `compute_impl` without bias. -/
def key_no_bias (src weights : tensor) (result_dims : List Nat) (a : arguments) : key_t :=
  utils.create_key
    ([key_part.of_nat src.desc.data_type, key_part.of_dims src.desc.dims,
      key_part.of_dims weights.desc.dims, key_part.of_dims result_dims] ++ a.key_parts)

/-- The static caches a call of the facade touches: the class's own and, through
`reorder::compute`, that of `reorder`. -/
structure caches where
  convolution_forward : utils.computation_cache computation
  reorder : utils.computation_cache reorder

/-- What the guarded scope of `compute_impl` ends with: the cache of `reorder`, the calls
of `reorder::compute` the facade made (operand position, input, output), the tensors it
handed to `execute` (none when it did not get there), the execution sequence the plan
submitted, and the returned descriptor or the exception. -/
structure scope_end where
  reorder_cache : utils.computation_cache reorder
  reorder_calls : List (Nat × tensor × tensor)
  bound : Option (List tensor)
  submitted : Option (List primitive)
  result : Except error tensor.descriptor

/-- What a call of the facade leaves behind. -/
structure outcome where
  caches : caches
  reorder_calls : List (Nat × tensor × tensor)
  bound : Option (List tensor)
  submitted : Option (List primitive)
  result : Except error tensor.descriptor

/-- The statement `auto x_in = x;` and, when `x.get_descriptor() != expected`, the
statements `x_in.init(expected); reorder::compute(x, x_in);`, for the operand at position
`owner` (0 for src, 1 for weights); `x_in.init` gives the tensor a buffer of its own. -/
def reconcile (E : engine) (rc : utils.computation_cache reorder)
    (calls : List (Nat × tensor × tensor)) (x : tensor) (expected : tensor.descriptor)
    (owner : Nat) :
    utils.computation_cache reorder × List (Nat × tensor × tensor) × Except error tensor :=
  if x.desc ≠ expected then
    match reorder.compute E rc x ⟨expected, data_handle.scratch owner⟩ with
    | (rc1, Except.ok _) =>
      (rc1, calls ++ [(owner, x, ⟨expected, data_handle.scratch owner⟩)],
        Except.ok ⟨expected, data_handle.scratch owner⟩)
    | (rc1, Except.error e) =>
      (rc1, calls ++ [(owner, x, ⟨expected, data_handle.scratch owner⟩)], Except.error e)
  else (rc, calls, Except.ok x)

/-- The scope of `compute_impl` with bias after the guard is in place. -/
def compute_impl_scope (E : engine) (M : mkldnn_api) (rc : utils.computation_cache reorder)
    (src weights bias : tensor) (result : data_handle) (comp : computation) :
    computation × scope_end :=
  match primitive_group.expected_src_descriptor M comp with
  | Except.error e => (comp, ⟨rc, [], none, none, Except.error e⟩)
  | Except.ok expected_src =>
    match reconcile E rc [] src expected_src 0 with
    | (rc1, calls1, Except.error e) => (comp, ⟨rc1, calls1, none, none, Except.error e⟩)
    | (rc1, calls1, Except.ok src_in) =>
      match primitive_group.expected_weights_descriptor M comp with
      | Except.error e => (comp, ⟨rc1, calls1, none, none, Except.error e⟩)
      | Except.ok expected_weights =>
        match reconcile E rc1 calls1 weights expected_weights 1 with
        | (rc2, calls2, Except.error e) => (comp, ⟨rc2, calls2, none, none, Except.error e⟩)
        | (rc2, calls2, Except.ok weights_in) =>
          match primitive_group.expected_dst_descriptor M comp with
          | Except.error e => (comp, ⟨rc2, calls2, none, none, Except.error e⟩)
          | Except.ok expected_dst =>
            match comp.execute E [src_in, weights_in, bias, ⟨expected_dst, result⟩] with
            | ⟨comp1, some e, submitted⟩ =>
              (comp1, ⟨rc2, calls2, some [src_in, weights_in, bias, ⟨expected_dst, result⟩],
                submitted, Except.error e⟩)
            | ⟨comp1, none, submitted⟩ =>
              (comp1, ⟨rc2, calls2, some [src_in, weights_in, bias, ⟨expected_dst, result⟩],
                submitted, primitive_group.expected_dst_descriptor M comp1⟩)

/-- The scope of `compute_impl` without bias after the guard is in place. -/
def compute_impl_no_bias_scope (E : engine) (M : mkldnn_api)
    (rc : utils.computation_cache reorder) (src weights : tensor) (result : data_handle)
    (comp : computation) : computation × scope_end :=
  match primitive_group.expected_src_descriptor M comp with
  | Except.error e => (comp, ⟨rc, [], none, none, Except.error e⟩)
  | Except.ok expected_src =>
    match reconcile E rc [] src expected_src 0 with
    | (rc1, calls1, Except.error e) => (comp, ⟨rc1, calls1, none, none, Except.error e⟩)
    | (rc1, calls1, Except.ok src_in) =>
      match primitive_group.expected_weights_descriptor M comp with
      | Except.error e => (comp, ⟨rc1, calls1, none, none, Except.error e⟩)
      | Except.ok expected_weights =>
        match reconcile E rc1 calls1 weights expected_weights 1 with
        | (rc2, calls2, Except.error e) => (comp, ⟨rc2, calls2, none, none, Except.error e⟩)
        | (rc2, calls2, Except.ok weights_in) =>
          match primitive_group.expected_dst_descriptor M comp with
          | Except.error e => (comp, ⟨rc2, calls2, none, none, Except.error e⟩)
          | Except.ok expected_dst =>
            match comp.execute E [src_in, weights_in, ⟨expected_dst, result⟩] with
            | ⟨comp1, some e, submitted⟩ =>
              (comp1, ⟨rc2, calls2, some [src_in, weights_in, ⟨expected_dst, result⟩],
                submitted, Except.error e⟩)
            | ⟨comp1, none, submitted⟩ =>
              (comp1, ⟨rc2, calls2, some [src_in, weights_in, ⟨expected_dst, result⟩],
                submitted, primitive_group.expected_dst_descriptor M comp1⟩)

/-- The static member `compute_impl(src, weights, bias, result_dims, result, args...)`. -/
def compute_impl (E : engine) (M : mkldnn_api) (W : caches) (src weights bias : tensor)
    (result_dims : List Nat) (result : data_handle) (a : arguments) : outcome :=
  match W.convolution_forward.fetch_or_create (key src weights bias result_dims a)
      (construct E src.desc weights.desc bias.desc
        (tensor.descriptor.of_dims result_dims src.desc.data_type) a) with
  | (cache1, Except.error e) => ⟨⟨cache1, W.reorder⟩, [], none, none, Except.error e⟩
  | (cache1, Except.ok comp) =>
    match utils.guarded_release cache1 (key src weights bias result_dims a) comp
        (compute_impl_scope E M W.reorder src weights bias result) with
    | (cache2, ending) =>
      ⟨⟨cache2, ending.reorder_cache⟩, ending.reorder_calls, ending.bound, ending.submitted,
        ending.result⟩

/-- The static member `compute_impl(src, weights, result_dims, result, args...)`, without
bias. -/
def compute_impl_no_bias (E : engine) (M : mkldnn_api) (W : caches) (src weights : tensor)
    (result_dims : List Nat) (result : data_handle) (a : arguments) : outcome :=
  match W.convolution_forward.fetch_or_create (key_no_bias src weights result_dims a)
      (construct_no_bias E src.desc weights.desc
        (tensor.descriptor.of_dims result_dims src.desc.data_type) a) with
  | (cache1, Except.error e) => ⟨⟨cache1, W.reorder⟩, [], none, none, Except.error e⟩
  | (cache1, Except.ok comp) =>
    match utils.guarded_release cache1 (key_no_bias src weights result_dims a) comp
        (compute_impl_no_bias_scope E M W.reorder src weights result) with
    | (cache2, ending) =>
      ⟨⟨cache2, ending.reorder_cache⟩, ending.reorder_calls, ending.bound, ending.submitted,
        ending.result⟩

/-- One call of `compute_impl` without bias: the operands, the result dims and buffer and
the argument pack. -/
structure request where
  src : tensor
  weights : tensor
  result_dims : List Nat
  result : data_handle
  args : arguments

/-- The call a request stands for. -/
def request.apply (E : engine) (M : mkldnn_api) (W : caches) (r : request) : outcome :=
  compute_impl_no_bias E M W r.src r.weights r.result_dims r.result r.args

/-- The caches that successive calls of `compute_impl` without bias leave behind. -/
def compute_all (E : engine) (M : mkldnn_api) (W : caches) : List request → caches
  | [] => W
  | r :: rest => compute_all E M (r.apply E M W).caches rest

end convolution_forward

/-! ## Pooling, weighted sum and batch normalization facades -/

/-- The value of `prop_kind::forward_training` (and of `prop_kind::forward`). -/
def prop_kind.forward_training : Nat := 64

/-- The value of `prop_kind::forward_scoring` (and of `prop_kind::forward_inference`). -/
def prop_kind.forward_scoring : Nat := 96

/-- The value of `prop_kind::backward`. -/
def prop_kind.backward : Nat := 128

/-- The value of `mkldnn::pooling_max`. -/
def algorithm.pooling_max : Nat := 34

/-- The value of `mkldnn::pooling_avg`. -/
def algorithm.pooling_avg : Nat := 40

/-- The value of `batch_normalization_flag::use_scale_shift`. -/
def batch_normalization_flag.use_scale_shift : Nat := 2

/-- A caller's `tensor` with the auxiliary tensor it may carry (`has_extra()`,
`get_extra()`), such as a workspace; `connect_handle_for` sees the `param` part only. -/
structure tensor_with_extra where
  self : tensor
  extra : Option tensor
deriving DecidableEq, Repr

/-- The member `has_extra()`. -/
def tensor_with_extra.has_extra (t : tensor_with_extra) : Bool := t.extra.isSome

namespace pooling_forward

/-- The constructor `descriptor(x_desc, y_desc, strides, kernel, padding_l, padding_r,
aalgorithm, aprop_kind, apadding_kind)`. -/
def descriptor (E : engine) (M : mkldnn_api) (x_desc y_desc : tensor.descriptor)
    (strides kernel padding_l padding_r : List Int)
    (aalgorithm aprop_kind apadding_kind : Nat) : Except error descriptor_group :=
  if E.validate_dims strides && E.validate_dims kernel && E.validate_dims padding_l
      && E.validate_dims padding_r then
    match M.primitive_desc_create
        (operator_desc.pooling_forward aprop_kind aalgorithm x_desc y_desc.format_any
          strides kernel padding_l padding_r apadding_kind) with
    | Except.error e => Except.error e
    | Except.ok result => Except.ok (descriptor_group.reset result)
  else Except.error (error.c_api "invalid dimensions")

/-- The member `init(x_desc, args...)`, which is also the plan constructor. -/
def init (E : engine) (M : mkldnn_api) (x_desc y_desc : tensor.descriptor)
    (strides kernel padding_l padding_r : List Int)
    (aalgorithm aprop_kind apadding_kind : Nat) : Except error computation :=
  match descriptor E M x_desc y_desc strides kernel padding_l padding_r aalgorithm
      aprop_kind apadding_kind with
  | Except.error e => Except.error e
  | Except.ok forward_descriptor => computation.init forward_descriptor [x_desc]

/-- The tensors the member `execute(src, dst)` hands to `computation::execute`: the
workspace after `dst` when `dst` carries one. -/
def execute_operands (src : tensor) (dst : tensor_with_extra) : List tensor :=
  match dst.extra with
  | some workspace => [src, dst.self, workspace]
  | none => [src, dst.self]

/-- The member `execute(const tensor& src, tensor& dst)`. -/
def execute (E : engine) (c : computation) (src : tensor) (dst : tensor_with_extra) :
    execution :=
  c.execute E (execute_operands src dst)

/-- The fingerprint of `pooling_forward::compute`. -/
def key (src : tensor) (dst_dims : List Nat) (strides kernel padding_l padding_r : List Int)
    (aalgorithm aprop_kind apadding_kind : Nat) : key_t :=
  utils.create_key
    [key_part.of_nat src.desc.data_type, key_part.of_dims src.desc.dims,
     key_part.of_nat src.desc.format, key_part.of_dims dst_dims, key_part.dims strides,
     key_part.dims kernel, key_part.dims padding_l, key_part.dims padding_r,
     key_part.of_nat aalgorithm, key_part.of_nat aprop_kind, key_part.of_nat apadding_kind]

/-- What the guarded scope of `compute` ends with: the execution sequence submitted, and
the returned tensor or the exception. -/
structure scope_end where
  submitted : Option (List primitive)
  result : Except error tensor_with_extra

/-- What a call of `compute` leaves behind: the cache, with the leased plan released as
the scope left it, and what the scope ended with. -/
structure outcome where
  cache : utils.computation_cache computation
  submitted : Option (List primitive)
  result : Except error tensor_with_extra

/-- The local `with_workspace` of `compute`. -/
def with_workspace (aalgorithm aprop_kind : Nat) : Bool :=
  true && decide (aprop_kind = prop_kind.forward_training)
    && decide (aalgorithm = algorithm.pooling_max)

/-- The tensor `dst` that `compute` builds: with a workspace tensor of its own when
`with_workspace`, without one otherwise. -/
def make_dst (M : mkldnn_api) (comp : computation) (dst_r : data_handle)
    (aalgorithm aprop_kind : Nat) : Except error tensor_with_extra :=
  if with_workspace aalgorithm aprop_kind then
    match primitive_group.expected_dst_descriptor M comp with
    | Except.error e => Except.error e
    | Except.ok d =>
      match primitive_group.expected_workspace_descriptor M comp with
      | Except.error e => Except.error e
      | Except.ok w => Except.ok ⟨⟨d, dst_r⟩, some ⟨w, data_handle.scratch 0⟩⟩
  else
    match primitive_group.expected_dst_descriptor M comp with
    | Except.error e => Except.error e
    | Except.ok d => Except.ok ⟨⟨d, dst_r⟩, none⟩

/-- The scope of `compute` after the guard is in place. -/
def compute_scope (E : engine) (M : mkldnn_api) (src : tensor) (dst_r : data_handle)
    (aalgorithm aprop_kind : Nat) (comp : computation) : computation × scope_end :=
  match make_dst M comp dst_r aalgorithm aprop_kind with
  | Except.error e => (comp, ⟨none, Except.error e⟩)
  | Except.ok dst =>
    match execute E comp src dst with
    | ⟨comp1, some e, submitted⟩ => (comp1, ⟨submitted, Except.error e⟩)
    | ⟨comp1, none, submitted⟩ => (comp1, ⟨submitted, Except.ok dst⟩)

/-- The static member `pooling_forward::compute`. -/
def compute (E : engine) (M : mkldnn_api) (cache : utils.computation_cache computation)
    (src : tensor) (dst_dims : List Nat) (dst_r : data_handle)
    (strides kernel padding_l padding_r : List Int)
    (aalgorithm aprop_kind apadding_kind : Nat) : outcome :=
  match cache.fetch_or_create
      (key src dst_dims strides kernel padding_l padding_r aalgorithm aprop_kind
        apadding_kind)
      (init E M src.desc (tensor.descriptor.of_dims dst_dims src.desc.data_type) strides
        kernel padding_l padding_r aalgorithm aprop_kind apadding_kind) with
  | (cache1, Except.error e) => ⟨cache1, none, Except.error e⟩
  | (cache1, Except.ok comp) =>
    match utils.guarded_release cache1
        (key src dst_dims strides kernel padding_l padding_r aalgorithm aprop_kind
          apadding_kind) comp
        (compute_scope E M src dst_r aalgorithm aprop_kind) with
    | (cache2, ending) => ⟨cache2, ending.submitted, ending.result⟩

end pooling_forward

/-- The state of a `sum`: the plan, and the scales its primitive descriptor was created
with (they live inside the native primitive). -/
structure sum where
  comp : computation
  scales : List float

namespace sum

/-- The constructor `descriptor(scales, inputs, output)`. -/
def descriptor (M : mkldnn_api) (scales : List float) (inputs : List tensor.descriptor)
    (output : Option tensor.descriptor) : Except error descriptor_group :=
  match M.primitive_desc_create (operator_desc.sum output scales inputs) with
  | Except.error e => Except.error e
  | Except.ok result => Except.ok (descriptor_group.reset result)

/-- The member `init(scales, inputs, output)`, which is also the constructor. -/
def init (M : mkldnn_api) (scales : List float) (inputs : List tensor.descriptor)
    (output : Option tensor.descriptor) : Except error sum :=
  match descriptor M scales inputs output with
  | Except.error e => Except.error e
  | Except.ok forward_descriptor =>
    match computation.init_vector forward_descriptor inputs with
    | Except.error e => Except.error e
    | Except.ok c => Except.ok ⟨c, scales⟩

/-- What a call of `execute` leaves behind. -/
structure execution where
  plan : sum
  failure : Option error
  submitted : Option (List primitive)

/-- The member `execute(inputs, output)`. -/
def execute (E : engine) (s : sum) (inputs : List tensor) (output : tensor) : execution :=
  ⟨⟨(s.comp.execute_vector E inputs output).plan, s.scales⟩,
    (s.comp.execute_vector E inputs output).failure,
    (s.comp.execute_vector E inputs output).submitted⟩

/-- What a call of `compute` leaves behind: the class's cache and counter, the execution
sequence submitted, and the returned descriptor or the exception. -/
structure outcome where
  cache : utils.computation_cache sum
  submitted : Option (List primitive)
  result : Except error tensor.descriptor

/-- The static member `compute_impl(scales, inputs, raw_out, out_desc)`. -/
def compute_impl (E : engine) (M : mkldnn_api) (cache : utils.computation_cache sum)
    (scales : List float) (inputs : List tensor) (raw_out : data_handle)
    (out_desc : Option tensor.descriptor) : outcome :=
  match cache.construct (init M scales (inputs.map tensor.desc) out_desc) with
  | (cache1, Except.error e) => ⟨cache1, none, Except.error e⟩
  | (cache1, Except.ok comp) =>
    match (match out_desc with
        | some d => Except.ok d
        | none => primitive_group.expected_dst_descriptor M comp.comp) with
    | Except.error e => ⟨cache1, none, Except.error e⟩
    | Except.ok _out_desc =>
      match execute E comp inputs ⟨_out_desc, raw_out⟩ with
      | ⟨_, some e, submitted⟩ => ⟨cache1, submitted, Except.error e⟩
      | ⟨_, none, submitted⟩ => ⟨cache1, submitted, Except.ok _out_desc⟩

/-- The static member `compute(scales, inputs, raw_out, out_desc)`. -/
def compute (E : engine) (M : mkldnn_api) (cache : utils.computation_cache sum)
    (scales : List float) (inputs : List tensor) (raw_out : data_handle)
    (out_desc : Option tensor.descriptor) : outcome :=
  compute_impl E M cache scales inputs raw_out out_desc

end sum

/-- The constructor `batch_norm_forward_base::descriptor(src_desc, epsilon, flags,
aprop_kind)`. -/
def batch_norm_forward_base.descriptor (M : mkldnn_api) (src_desc : tensor.descriptor)
    (epsilon : float) (flags : Nat) (aprop_kind : Nat) : Except error descriptor_group :=
  match M.primitive_desc_create
      (operator_desc.batch_normalization_forward aprop_kind src_desc epsilon flags) with
  | Except.error e => Except.error e
  | Except.ok result => Except.ok (descriptor_group.reset result)

/-- The state of a `batch_normalization_forward_training`: the plan and the members
`weights_` and `sum_`. -/
structure batch_normalization_forward_training where
  comp : computation
  weights_ : tensor
  sum_ : sum

namespace batch_normalization_forward_training

/-- The member `init(src_desc, scale, shift, momentum, epsilon, flags)`, which is also the
plan constructor. -/
def init (M : mkldnn_api) (src_desc scale shift : tensor.descriptor)
    (momentum epsilon : float) (flags : Nat) :
    Except error batch_normalization_forward_training :=
  if scale.dims.length = 1 ∧ shift.dims.length = 1 then
    match batch_norm_forward_base.descriptor M src_desc epsilon flags
        prop_kind.forward_training with
    | Except.error e => Except.error e
    | Except.ok batch_norm_forward =>
      match batch_norm_forward.expected_descriptor_of M query.weights_pd 0 with
      | Except.error e => Except.error e
      | Except.ok weights_desc =>
        match computation.init batch_norm_forward [src_desc, weights_desc] with
        | Except.error e => Except.error e
        | Except.ok c =>
          match sum.init M [momentum, float_one - momentum] [scale, shift] none with
          | Except.error e => Except.error e
          | Except.ok s => Except.ok ⟨c, ⟨weights_desc, data_handle.scratch 0⟩, s⟩
  else Except.error error.assertion

/-- What a call on the plan leaves behind. -/
structure execution where
  plan : batch_normalization_forward_training
  failure : Option error
  submitted : List (List primitive)

/-- The member `execute(src, scale, shift, dst, mean, variance)`; the two `memcpy` into
the buffer of `weights_` change no handle. -/
def execute (E : engine) (p : batch_normalization_forward_training)
    (src dst mean variance : tensor) : execution :=
  ⟨{ p with comp := (p.comp.execute E [src, p.weights_, dst, mean, variance]).plan },
    (p.comp.execute E [src, p.weights_, dst, mean, variance]).failure,
    ((p.comp.execute E [src, p.weights_, dst, mean, variance]).submitted).toList⟩

/-- The member `running_statistic(mean, variance, running_mean, running_var)`. -/
def running_statistic (E : engine) (p : batch_normalization_forward_training)
    (mean variance running_mean running_var : tensor) : execution :=
  match sum.execute E p.sum_ [running_mean, mean] running_mean with
  | ⟨s1, some e, submitted⟩ => ⟨{ p with sum_ := s1 }, some e, submitted.toList⟩
  | ⟨s1, none, submitted⟩ =>
    ⟨{ p with sum_ := (sum.execute E s1 [running_var, variance] running_var).plan },
      (sum.execute E s1 [running_var, variance] running_var).failure,
      submitted.toList ++ (sum.execute E s1 [running_var, variance] running_var).submitted.toList⟩

/-- The member `expected_statistic_descriptor()`. -/
def expected_statistic_descriptor (M : mkldnn_api)
    (p : batch_normalization_forward_training) : Except error tensor.descriptor :=
  primitive_group.expected_descriptor_of M p.comp query.dst_pd 1

/-- The fingerprint of `batch_normalization_forward_training::compute`. -/
def key (src : tensor) (epsilon : float) : key_t :=
  utils.create_key
    [key_part.of_nat src.desc.data_type, key_part.of_dims src.desc.dims,
     key_part.of_nat src.desc.format, key_part.real epsilon]

/-- What a call of `compute` leaves behind. -/
structure outcome where
  cache : utils.computation_cache batch_normalization_forward_training
  result : Except error tensor

/-- The scope of the static `compute` with running statistics after the guard is in
place. -/
def compute_scope (E : engine) (M : mkldnn_api) (src : tensor)
    (dst_r mean_r variance_r running_mean_r running_var_r : data_handle)
    (comp : batch_normalization_forward_training) :
    batch_normalization_forward_training × Except error tensor :=
  match primitive_group.expected_dst_descriptor M comp.comp with
  | Except.error e => (comp, Except.error e)
  | Except.ok d =>
    match expected_statistic_descriptor M comp with
    | Except.error e => (comp, Except.error e)
    | Except.ok st =>
      match execute E comp src ⟨d, dst_r⟩ ⟨st, mean_r⟩ ⟨st, variance_r⟩ with
      | ⟨comp1, some e, _⟩ => (comp1, Except.error e)
      | ⟨comp1, none, _⟩ =>
        match running_statistic E comp1 ⟨st, mean_r⟩ ⟨st, variance_r⟩
            ⟨st, running_mean_r⟩ ⟨st, running_var_r⟩ with
        | ⟨comp2, some e, _⟩ => (comp2, Except.error e)
        | ⟨comp2, none, _⟩ => (comp2, Except.ok ⟨d, dst_r⟩)

/-- The static member `compute(src, scale, shift, dst_r, mean_r, variance_r,
running_mean_r, running_var_r, momentum, epsilon)`. -/
def compute (E : engine) (M : mkldnn_api)
    (cache : utils.computation_cache batch_normalization_forward_training)
    (src scale shift : tensor)
    (dst_r mean_r variance_r running_mean_r running_var_r : data_handle)
    (momentum epsilon : float) : outcome :=
  match cache.fetch_or_create (key src epsilon)
      (init M src.desc scale.desc shift.desc momentum epsilon
        batch_normalization_flag.use_scale_shift) with
  | (cache1, Except.error e) => ⟨cache1, Except.error e⟩
  | (cache1, Except.ok comp) =>
    match utils.guarded_release cache1 (key src epsilon) comp
        (compute_scope E M src dst_r mean_r variance_r running_mean_r running_var_r) with
    | (cache2, result) => ⟨cache2, result⟩

end batch_normalization_forward_training

/-- The state of a `batch_normalization_backward`: the plan, the members `weights_` and
`gradw_`, and the propagation kind its descriptor was created with (`get_prop_kind()`). -/
structure batch_normalization_backward where
  comp : computation
  weights_ : tensor
  gradw_ : tensor
  aprop_kind : Nat

namespace batch_normalization_backward

/-- The constructor `descriptor(gradx_desc, x_desc, epsilon, flags, aprop_kind)` with its
member `hint_`. -/
def descriptor (M : mkldnn_api) (gradx_desc x_desc : tensor.descriptor) (epsilon : float)
    (flags aprop_kind : Nat) : Except error descriptor_group :=
  match batch_norm_forward_base.descriptor M x_desc epsilon flags
      prop_kind.forward_training with
  | Except.error e => Except.error e
  | Except.ok hint_ =>
    match M.primitive_desc_create
        (operator_desc.batch_normalization_backward aprop_kind gradx_desc x_desc epsilon
          flags hint_.pd) with
    | Except.error e => Except.error e
    | Except.ok result => Except.ok (descriptor_group.reset result)

/-- The member `init(gradx_desc, src_desc, epsilon, flags, aprop_kind)`, the overload the
plan constructor of `compute` selects, with its default arguments. -/
def init (M : mkldnn_api) (gradx_desc src_desc : tensor.descriptor) (epsilon : float)
    (flags aprop_kind : Nat) : Except error batch_normalization_backward :=
  match descriptor M gradx_desc src_desc epsilon flags aprop_kind with
  | Except.error e => Except.error e
  | Except.ok batch_norm_backward =>
    match batch_norm_backward.expected_descriptor_of M query.weights_pd 0 with
    | Except.error e => Except.error e
    | Except.ok weights_desc =>
      match batch_norm_backward.expected_descriptor_of M query.diff_weights_pd 0 with
      | Except.error e => Except.error e
      | Except.ok gradw_desc =>
        match computation.init batch_norm_backward [gradx_desc, src_desc] with
        | Except.error e => Except.error e
        | Except.ok c =>
          Except.ok ⟨c, ⟨weights_desc, data_handle.scratch 0⟩,
            ⟨gradw_desc, data_handle.scratch 1⟩, aprop_kind⟩

/-- The member `execute(src, mean, variance, grady, scale, gradx, grad_scale, grad_shift)`;
the `memcpy` calls change no handle. -/
def execute (E : engine) (p : batch_normalization_backward)
    (src mean variance grady gradx : tensor) :
    batch_normalization_backward × Option error :=
  if p.aprop_kind = prop_kind.backward then
    ({ p with comp :=
        (p.comp.execute E [src, mean, variance, grady, p.weights_, gradx, p.gradw_]).plan },
      (p.comp.execute E [src, mean, variance, grady, p.weights_, gradx, p.gradw_]).failure)
  else (p, some error.assertion)

/-- The fingerprint of `batch_normalization_backward::compute`. -/
def key (src : tensor) (epsilon : float) : key_t :=
  utils.create_key
    [key_part.of_nat src.desc.data_type, key_part.of_dims src.desc.dims,
     key_part.of_nat src.desc.format, key_part.real epsilon]

/-- What a call of `compute` leaves behind. -/
structure outcome where
  cache : utils.computation_cache batch_normalization_backward
  result : Except error tensor

/-- The static member `compute(src, mean, variance, grady, scale, gradx_r, grad_scale_r,
grad_shift_r, epsilon)`: the plan is leased with `fetch_or_create`; no guard is made and
`release` is not called; the local `comp` ends with the function. -/
def compute (E : engine) (M : mkldnn_api)
    (cache : utils.computation_cache batch_normalization_backward)
    (src mean variance grady : tensor) (gradx_r : data_handle) (epsilon : float) : outcome :=
  match cache.fetch_or_create (key src epsilon)
      (init M src.desc src.desc epsilon batch_normalization_flag.use_scale_shift
        prop_kind.backward) with
  | (cache1, Except.error e) => ⟨cache1, Except.error e⟩
  | (cache1, Except.ok comp) =>
    match primitive_group.expected_gradx_descriptor M comp.comp with
    | Except.error e => ⟨cache1, Except.error e⟩
    | Except.ok d =>
      match execute E comp src mean variance grady ⟨d, gradx_r⟩ with
      | (_, some e) => ⟨cache1, Except.error e⟩
      | (_, none) => ⟨cache1, Except.ok ⟨d, gradx_r⟩⟩

end batch_normalization_backward

/-! ## Concrete engines and operands for the facades -/

/-- An engine API for the convolution, pooling and sum examples: pooling answers the
source as given and a blocked result, followed by a workspace when the request is max
pooling in training mode; a sum answers its inputs and the requested output; `src_pd`
indexes the inputs, `weights_pd` the inputs after the first, `dst_pd` the outputs, and
`workspace_pd` is the second output. -/
def sample_api : mkldnn_api :=
  { primitive_desc_create := fun d =>
      match d with
      | operator_desc.pooling_forward aprop_kind aalgorithm src dst _ _ _ _ _ =>
        if pooling_forward.with_workspace aalgorithm aprop_kind then
          Except.ok ⟨[src], [⟨dst.dims, dst.data_type, 8⟩, ⟨dst.dims, 4, 8⟩]⟩
        else Except.ok ⟨[src], [⟨dst.dims, dst.data_type, 8⟩]⟩
      | operator_desc.sum output _ inputs =>
        Except.ok ⟨inputs, [output.getD (inputs.headD src_plain)]⟩
      | _ => Except.error (error.c_api "could not create a primitive descriptor"),
    primitive_desc_query_pd := fun pd q index =>
      match q with
      | query.src_pd => pd.inputs[index]?
      | query.weights_pd => pd.inputs[index + 1]?
      | query.dst_pd => pd.outputs[index]?
      | query.workspace_pd => pd.outputs[index + 1]?
      | _ => none }

/-- The descriptor of a per-channel statistic, scale or shift of the normalization
examples. -/
def stat_desc : tensor.descriptor := ⟨[3], 1, 2⟩

/-- The descriptor of the packed scale-and-shift weights of the normalization examples. -/
def bn_weights_desc : tensor.descriptor := ⟨[2, 3], 1, 3⟩

/-- An engine API for the batch normalization examples: forward takes source and weights
and yields result, mean and variance; backward takes source, mean, variance, grady and
weights and yields gradx and gradw; a sum answers its inputs and the requested output;
`weights_pd` is the last input, `dst_pd` and `diff_src_pd` index the outputs and
`diff_weights_pd` is the second output. -/
def sample_bn_api : mkldnn_api :=
  { primitive_desc_create := fun d =>
      match d with
      | operator_desc.batch_normalization_forward _ src _ _ =>
        Except.ok ⟨[src, bn_weights_desc], [src, stat_desc, stat_desc]⟩
      | operator_desc.batch_normalization_backward _ diff_src src _ _ _ =>
        Except.ok ⟨[src, stat_desc, stat_desc, src, bn_weights_desc],
          [diff_src, bn_weights_desc]⟩
      | operator_desc.sum output _ inputs =>
        Except.ok ⟨inputs, [output.getD (inputs.headD stat_desc)]⟩
      | _ => Except.error (error.c_api "could not create a primitive descriptor"),
    primitive_desc_query_pd := fun pd q index =>
      match q with
      | query.src_pd => pd.inputs[index]?
      | query.weights_pd => pd.inputs.getLast?
      | query.dst_pd => pd.outputs[index]?
      | query.diff_src_pd => pd.outputs[index]?
      | query.diff_weights_pd => pd.outputs[index + 1]?
      | _ => none }

/-- A source tensor of the normalization and pooling examples. -/
def sample_src : tensor := ⟨src_blocked, data_handle.buffer 10⟩

/-- A per-channel tensor (scale, shift, mean or variance) of the normalization examples. -/
def sample_stat (addr : Nat) : tensor := ⟨stat_desc, data_handle.buffer addr⟩

/-! ## The fingerprints of the other caching facades -/

/-- The fingerprint of `convolution_backward_data::compute_impl(grady, weights, gradx_dims,
gradx_r, args...)`; `args` is the pack as fingerprint components. -/
def convolution_backward_data.key (grady weights : tensor) (gradx_dims : List Nat)
    (args : List key_part) : key_t :=
  utils.create_key
    ([key_part.of_nat grady.desc.data_type, key_part.of_dims grady.desc.dims,
      key_part.of_dims weights.desc.dims, key_part.of_dims gradx_dims] ++ args)

/-- The fingerprint of `convolution_backward_weights::compute_impl(src, grady, gradw_dims,
gradw_r, gbias_r, args...)`; `grady.get_dim(1)` is the second entry of the dims. -/
def convolution_backward_weights.key_bias (src grady : tensor) (gradw_dims : List Nat)
    (args : List key_part) : key_t :=
  utils.create_key
    ([key_part.of_nat src.desc.data_type, key_part.of_dims src.desc.dims,
      key_part.of_dims grady.desc.dims, key_part.of_dims gradw_dims,
      key_part.of_nat (grady.desc.dims.getD 1 0)] ++ args)

/-- The fingerprint of `convolution_backward_weights::compute_impl(src, grady, gradw_dims,
gradw_r, args...)`. -/
def convolution_backward_weights.key (src grady : tensor) (gradw_dims : List Nat)
    (args : List key_part) : key_t :=
  utils.create_key
    ([key_part.of_nat src.desc.data_type, key_part.of_dims src.desc.dims,
      key_part.of_dims grady.desc.dims, key_part.of_dims gradw_dims] ++ args)

/-- The fingerprint of `lrn_forward::compute`. -/
def lrn_forward.key (src : tensor) (local_size : Int) (alpha beta k : float)
    (aalgorithm aprop_kind : Nat) : key_t :=
  utils.create_key
    [key_part.of_nat src.desc.data_type, key_part.of_dims src.desc.dims,
     key_part.of_nat src.desc.format, key_part.value local_size, key_part.real alpha,
     key_part.real beta, key_part.real k, key_part.of_nat aalgorithm,
     key_part.of_nat aprop_kind]

/-- The fingerprint of `lrn_backward::compute(x, grady, y, gradx_r, ...)`. -/
def lrn_backward.key (x : tensor) (local_size : Int) (alpha beta k : float)
    (aalgorithm : Nat) : key_t :=
  utils.create_key
    [key_part.of_nat x.desc.data_type, key_part.of_dims x.desc.dims,
     key_part.of_nat x.desc.format, key_part.value local_size, key_part.real alpha,
     key_part.real beta, key_part.real k, key_part.of_nat aalgorithm]

/-- The fingerprint of `eltwise_forward::compute_impl(src, result, args...)`. -/
def eltwise_forward.key (src : tensor) (args : List key_part) : key_t :=
  utils.create_key
    ([key_part.of_nat src.desc.data_type, key_part.of_dims src.desc.dims,
      key_part.of_nat src.desc.format] ++ args)

/-- The fingerprint of `eltwise_backward::compute_impl(src, grady, result, args...)`. -/
def eltwise_backward.key (src grady : tensor) (args : List key_part) : key_t :=
  utils.create_key
    ([key_part.of_nat src.desc.data_type, key_part.of_dims src.desc.dims,
      key_part.of_nat src.desc.format, key_part.of_nat grady.desc.format] ++ args)

/-- The fingerprint of `batch_normalization_forward_inference::compute(src, scale, shift,
dst_r, epsilon)`. -/
def batch_normalization_forward_inference.key (src : tensor) (epsilon : float) : key_t :=
  utils.create_key
    [key_part.of_nat src.desc.data_type, key_part.of_dims src.desc.dims,
     key_part.of_nat src.desc.format, key_part.value 3, key_part.real epsilon]

/-- The fingerprint of `batch_normalization_forward_inference::compute(src, mean, variance,
scale, shift, dst_r, epsilon)`. -/
def batch_normalization_forward_inference.key_statistics (src : tensor) (epsilon : float) :
    key_t :=
  utils.create_key
    [key_part.of_nat src.desc.data_type, key_part.of_dims src.desc.dims,
     key_part.of_nat src.desc.format, key_part.value 5, key_part.real epsilon]

/-! ## Operands and an engine that tell element types apart -/

/-- An engine that answers a convolution request with the blocked layout 8 for every
operand, keeping the dims and the element type of each descriptor it is given: the last
descriptor is the output, the others are inputs. -/
def typed_engine : engine :=
  { stream_submit := fun _ => true,
    reorder_primitive_desc_create := fun _ _ => true,
    validate_dims := fun _ => true,
    convolution_forward := fun descs _ _ =>
      Except.ok ⟨descs.dropLast.map (fun d => { d with format := 8 }),
        (descs.drop (descs.length - 1)).map (fun d => { d with format := 8 })⟩ }

/-- The argument pack of the convolution examples: stride 1x1, zero padding, no dilation. -/
def sample_arguments : convolution_forward.arguments :=
  { strides := [1, 1], dilates := none, padding_l := [0, 0], padding_r := [0, 0],
    aalgorithm := 1, aprop_kind := 64, apadding_kind := 0 }

/-! ## Binds in sequence and successive calls of `reorder::compute` -/

/-- Calls of `connect_handle_for(index, tensor)` made one after the other, each on the
plan the one before left; an exception ends the sequence. -/
def computation.bind_each (c : computation) : List (Nat × tensor) → outcome
  | [] => ⟨c, none⟩
  | p :: rest =>
    match c.connect_handle_for p.1 p.2 with
    | ⟨c1, none⟩ => computation.bind_each c1 rest
    | ⟨c1, some e⟩ => ⟨c1, some e⟩

/-- The cache of `reorder` that successive calls of `reorder::compute` leave behind, each
call given as (input, output). -/
def reorder.compute_all (E : engine) (cache : utils.computation_cache reorder) :
    List (tensor × tensor) → utils.computation_cache reorder
  | [] => cache
  | p :: rest => reorder.compute_all E (reorder.compute E cache p.1 p.2).1 rest

/-! ## The element-wise binary facade -/

/-- The enumeration `eltwise_binary::eltwise_binary_op`. -/
inductive eltwise_binary.eltwise_binary_op where
  | ELTWISE_ADD
  | ELTWISE_MUL
  | ELTWISE_DIV
deriving DecidableEq, Repr

/-- Modelled from the spec: tensor::get_nelems (tensor.hpp is not under src/): the number
of elements of the logical shape. -/
def tensor.get_nelems (t : tensor) : Nat := t.desc.dims.foldl (fun n d => n * d) 1

/-- A call of `utils::fast_math<avx2>::add<float>(dst, a, b, n)` (fast_math.hpp is not
under src/): the numeric kernel is outside the model, the call is kept by its arguments. -/
structure fast_math_add where
  dst : data_handle
  a : data_handle
  b : data_handle
  n : Nat
deriving DecidableEq, Repr

namespace eltwise_binary

/-- What a call of `compute` leaves behind: the cache of `reorder`, the calls of
`reorder::compute` it made (input, output), the call of the add kernel, the three tensors
it was given by reference as they are afterwards, and the exception if any. -/
structure outcome where
  reorder_cache : utils.computation_cache reorder
  reorder_calls : List (tensor × tensor)
  added : Option fast_math_add
  inputA : tensor
  inputB : tensor
  outputC : tensor
  failure : Option error

/-- The statements of `compute` from `auto* inputB_data = inputB.get_data_handle()` up to
the `switch`: the data of B, converted into a scratch tensor of A's descriptor when the
internal formats differ. -/
def inputB_data (E : engine) (rc : utils.computation_cache reorder) (inputA inputB : tensor) :
    utils.computation_cache reorder × List (tensor × tensor) × Except error data_handle :=
  if inputA.desc.format ≠ inputB.desc.format then
    match reorder.compute E rc inputB ⟨inputA.desc, data_handle.scratch 0⟩ with
    | (rc1, Except.ok _) =>
      (rc1, [(inputB, ⟨inputA.desc, data_handle.scratch 0⟩)],
        Except.ok (data_handle.scratch 0))
    | (rc1, Except.error e) =>
      (rc1, [(inputB, ⟨inputA.desc, data_handle.scratch 0⟩)], Except.error e)
  else (rc, [], Except.ok inputB.handle)

/-- The static member `eltwise_binary::compute(op, inputA, inputB, outputC)`. -/
def compute (E : engine) (rc : utils.computation_cache reorder) (op : eltwise_binary_op)
    (inputA inputB outputC : tensor) : outcome :=
  if inputA.desc.dims.length ≥ inputB.desc.dims.length then
    if inputA.desc = outputC.desc then
      if inputA.desc.dims = inputB.desc.dims then
        match inputB_data E rc inputA inputB with
        | (rc1, calls, Except.error e) => ⟨rc1, calls, none, inputA, inputB, outputC, some e⟩
        | (rc1, calls, Except.ok data) =>
          match op with
          | eltwise_binary_op.ELTWISE_ADD =>
            ⟨rc1, calls, some ⟨outputC.handle, inputA.handle, data, inputA.get_nelems⟩,
              inputA, inputB, outputC, none⟩
          | _ =>
            ⟨rc1, calls, none, inputA, inputB, outputC,
              some (error.mkldnn_unimplemented "Not implemented!")⟩
      else
        ⟨rc, [], none, inputA, inputB, outputC,
          some (error.mkldnn_runtime_error "Not implemented!")⟩
    else ⟨rc, [], none, inputA, inputB, outputC, some error.assertion⟩
  else ⟨rc, [], none, inputA, inputB, outputC, some error.assertion⟩

end eltwise_binary

/-! ## The batch normalization inference facade -/

/-- The implicit conversion of an unsigned or enumeration value to `float`. -/
def float.of_unsigned (n : Nat) : float := Int.ofNat n * float_one

/-- The implicit conversion of a `float` to `unsigned`: the fractional part is discarded
(the value is taken to be non-negative and in range; the conversion is undefined
otherwise). -/
def float.to_unsigned (x : float) : Nat := x.toNat / 1000000

/-- The state of a `batch_normalization_forward_inference`: the plan and the member
`weights_`. -/
structure batch_normalization_forward_inference where
  comp : computation
  weights_ : tensor

namespace batch_normalization_forward_inference

/-- The member `init(src_desc, float epsilon, unsigned flag)`, the one overload of `init`
that takes three arguments. -/
def init_flag (M : mkldnn_api) (src_desc : tensor.descriptor) (epsilon : float)
    (flag : Nat) : Except error batch_normalization_forward_inference :=
  match batch_norm_forward_base.descriptor M src_desc epsilon flag
      prop_kind.forward_scoring with
  | Except.error e => Except.error e
  | Except.ok batch_norm_forward =>
    match batch_norm_forward.expected_descriptor_of M query.weights_pd 0 with
    | Except.error e => Except.error e
    | Except.ok weights_desc =>
      match computation.init batch_norm_forward [src_desc] with
      | Except.error e => Except.error e
      | Except.ok c => Except.ok ⟨c, ⟨weights_desc, data_handle.scratch 0⟩⟩

/-- The plan constructor as `compute(src, scale, shift, dst_r, epsilon)` reaches it through
`fetch_or_create(key, src.get_descriptor(), batch_normalization_flag::use_scale_shift,
epsilon)`: the constructor forwards its three arguments to `init`, where only
`init(src_desc, float epsilon, unsigned flag)` takes three; the flag converts to its
`float` parameter and epsilon to its `unsigned` parameter. -/
def construct (M : mkldnn_api) (src_desc : tensor.descriptor) (flag : Nat)
    (epsilon : float) : Except error batch_normalization_forward_inference :=
  init_flag M src_desc (float.of_unsigned flag) (float.to_unsigned epsilon)

/-- The member `execute(src, scale, shift, dst)`; the two `memcpy` into the buffer of
`weights_` change no handle. -/
def execute (E : engine) (p : batch_normalization_forward_inference) (src dst : tensor) :
    batch_normalization_forward_inference × Option error :=
  ({ p with comp := (p.comp.execute E [src, p.weights_, dst]).plan },
    (p.comp.execute E [src, p.weights_, dst]).failure)

/-- What a call of `compute` leaves behind. -/
structure outcome where
  cache : utils.computation_cache batch_normalization_forward_inference
  result : Except error tensor

/-- The scope of `compute(src, scale, shift, dst_r, epsilon)` after the guard is in
place. -/
def compute_scope (E : engine) (M : mkldnn_api) (src : tensor) (dst_r : data_handle)
    (comp : batch_normalization_forward_inference) :
    batch_normalization_forward_inference × Except error tensor :=
  match primitive_group.expected_dst_descriptor M comp.comp with
  | Except.error e => (comp, Except.error e)
  | Except.ok d =>
    match execute E comp src ⟨d, dst_r⟩ with
    | (comp1, some e) => (comp1, Except.error e)
    | (comp1, none) => (comp1, Except.ok ⟨d, dst_r⟩)

/-- The static member `compute(src, scale, shift, dst_r, epsilon)`. -/
def compute (E : engine) (M : mkldnn_api)
    (cache : utils.computation_cache batch_normalization_forward_inference)
    (src : tensor) (dst_r : data_handle) (epsilon : float) : outcome :=
  match cache.fetch_or_create (key src epsilon)
      (construct M src.desc batch_normalization_flag.use_scale_shift epsilon) with
  | (cache1, Except.error e) => ⟨cache1, Except.error e⟩
  | (cache1, Except.ok comp) =>
    match utils.guarded_release cache1 (key src epsilon) comp
        (compute_scope E M src dst_r) with
    | (cache2, result) => ⟨cache2, result⟩

end batch_normalization_forward_inference

/-- An engine API for the batch normalization inference examples that creates a primitive
descriptor only for a batch normalization forward descriptor with the given epsilon and
flags, over the source alone when the flags are zero and over source and weights
otherwise. -/
def checking_bn_api (epsilon : float) (flags : Nat) : mkldnn_api :=
  { primitive_desc_create := fun d =>
      match d with
      | operator_desc.batch_normalization_forward _ src e f =>
        if e = epsilon ∧ f = flags then
          if f = 0 then Except.ok ⟨[src], [src]⟩
          else Except.ok ⟨[src, bn_weights_desc], [src]⟩
        else Except.error (error.c_api "could not create a primitive descriptor")
      | _ => Except.error (error.c_api "could not create a primitive descriptor"),
    primitive_desc_query_pd := fun pd q index =>
      match q with
      | query.src_pd => pd.inputs[index]?
      | query.weights_pd => some bn_weights_desc
      | query.dst_pd => pd.outputs[index]?
      | _ => none }

/-! ## Calls of either convolution overload on the one cache of the class -/

/-- One call of `compute_impl`, of either overload: with a bias tensor or without. -/
structure convolution_forward.compute_call where
  src : tensor
  weights : tensor
  bias : Option tensor
  result_dims : List Nat
  result : data_handle
  args : convolution_forward.arguments

/-- The call of `compute_impl` that a `compute_call` stands for. -/
def convolution_forward.compute_call.apply (E : engine) (M : mkldnn_api)
    (W : convolution_forward.caches) (k : convolution_forward.compute_call) :
    convolution_forward.outcome :=
  match k.bias with
  | some bias =>
    convolution_forward.compute_impl E M W k.src k.weights bias k.result_dims k.result k.args
  | none =>
    convolution_forward.compute_impl_no_bias E M W k.src k.weights k.result_dims k.result
      k.args

theorem store_set_same {α : Type} (s : Nat → α) (k : Nat) (v : α) : store_set s k v k = v := by
  simp [store_set]

theorem store_set_other {α : Type} (s : Nat → α) (k j : Nat) (v : α) (h : j ≠ k) :
    store_set s k v j = s j := by
  simp [store_set, h]

theorem connect_output_frame (c : computation) (index : Nat) (atensor : tensor) :
    (c.connect_output index atensor).plan.inouts_ = c.inouts_ ∧
    (c.connect_output index atensor).plan.primitive_inputs_ = c.primitive_inputs_ ∧
    (c.connect_output index atensor).plan.prim = c.prim ∧
    (c.connect_output index atensor).plan.next_id = c.next_id ∧
    (c.connect_output index atensor).plan.auxiliaries_ = c.auxiliaries_ := by
  unfold computation.connect_output
  split
  · simp
  · split <;> simp [computation.set_data_handle]

theorem materialize_frame (c : computation) (p : param) :
    (c.materialize p).inouts_ = c.inouts_ ∧
    (c.materialize p).primitive_inputs_ = c.primitive_inputs_ ∧
    (c.materialize p).prim = c.prim ∧
    (c.materialize p).next_id = c.next_id ∧
    (c.materialize p).auxiliaries_ = c.auxiliaries_ := by
  unfold computation.materialize
  split <;> simp

/-- One bind, failing or not, leaves both slot vectors, the primary primitive and the
identity counter as they were. -/
theorem connect_handle_for_frame (c : computation) (index : Nat) (atensor : tensor) :
    (c.connect_handle_for index atensor).plan.inouts_ = c.inouts_ ∧
    (c.connect_handle_for index atensor).plan.primitive_inputs_ = c.primitive_inputs_ ∧
    (c.connect_handle_for index atensor).plan.prim = c.prim ∧
    (c.connect_handle_for index atensor).plan.next_id = c.next_id := by
  unfold computation.connect_handle_for computation.connect_output computation.materialize
    computation.set_data_handle computation.dematerialize computation.reset_auxiliary
  (repeat' split) <;> simp

/-- One bind either keeps every reorder or discards the reorder of the slot it binds. -/
theorem connect_handle_for_auxiliaries_cases (c : computation) (index : Nat)
    (atensor : tensor) :
    (c.connect_handle_for index atensor).plan.auxiliaries_ = c.auxiliaries_ ∨
    (c.connect_handle_for index atensor).plan.auxiliaries_ =
      store_set c.auxiliaries_ index none := by
  unfold computation.connect_handle_for computation.connect_output computation.materialize
    computation.set_data_handle computation.dematerialize computation.reset_auxiliary
  (repeat' split) <;> simp

/-- One bind never adds a reorder: a reorder present afterwards was present before. -/
theorem connect_handle_for_auxiliaries (c : computation) (index : Nat) (atensor : tensor)
    (j : Nat) (r : reorder_primitive)
    (h : (c.connect_handle_for index atensor).plan.auxiliaries_ j = some r) :
    c.auxiliaries_ j = some r := by
  rcases connect_handle_for_auxiliaries_cases c index atensor with hc | hc
  · rw [hc] at h
    exact h
  · rw [hc] at h
    unfold store_set at h
    split at h
    · exact absurd h (by simp)
    · exact h

/-! ## The execution sequence -/

theorem push_auxiliary_eq (c : computation) (pos : Nat) (seq : List primitive) :
    primitive_group.push_auxiliary c pos seq =
      seq ++ (match c.auxiliaries_ pos with
        | some r => [primitive.reorder pos r]
        | none => []) := by
  unfold primitive_group.push_auxiliary computation.need_reorder_input
  cases h : c.auxiliaries_ pos <;> simp

/-- The execution sequence is the kept reorder of slot 0, then the kept reorder of slot 1,
then the primary operator. -/
theorem execution_sequence_eq (c : computation) :
    primitive_group.execution_sequence c =
      (c.auxiliaries_ 0).toList.map (primitive.reorder 0) ++
      (c.auxiliaries_ 1).toList.map (primitive.reorder 1) ++ [primitive.op c.prim] := by
  unfold primitive_group.execution_sequence
  simp only [push_auxiliary_eq]
  cases h0 : c.auxiliaries_ 0 <;> cases h1 : c.auxiliaries_ 1 <;> simp

/-- A reorder is in the execution sequence exactly when it is the reorder kept for slot 0
or for slot 1. -/
theorem mem_execution_sequence_reorder (c : computation) (i : Nat) (r : reorder_primitive) :
    primitive.reorder i r ∈ primitive_group.execution_sequence c ↔
      (i = 0 ∨ i = 1) ∧ c.auxiliaries_ i = some r := by
  rw [execution_sequence_eq]
  simp only [List.mem_append, List.mem_map, List.mem_singleton, Option.mem_toList,
    Option.mem_def, primitive.reorder.injEq, reduceCtorEq, or_false]
  constructor
  · rintro (⟨a, ha, rfl, rfl⟩ | ⟨a, ha, rfl, rfl⟩)
    · exact ⟨Or.inl rfl, ha⟩
    · exact ⟨Or.inr rfl, ha⟩
  · rintro ⟨rfl | rfl, h⟩
    · exact Or.inl ⟨r, h, rfl, rfl⟩
    · exact Or.inr ⟨r, h, rfl, rfl⟩

/-! ## The three branches of a bind on an input slot with a reorder -/

theorem lt_length_of_getElem? {α : Type} (l : List α) (i : Nat) (a : α)
    (h : l[i]? = some a) : i < l.length := by
  by_contra hlt
  rw [List.getElem?_eq_none (Nat.le_of_not_lt hlt)] at h
  exact absurd h (by simp)

theorem connect_handle_for_source (c : computation) (i : Nat) (t : tensor) (io pin : param)
    (hio : c.inouts_[i]? = some io) (hpin : c.primitive_inputs_[i]? = some pin)
    (hne : io.id ≠ pin.id) (hvis : io.desc = t.desc) :
    c.connect_handle_for i t =
      ⟨(c.set_data_handle io t.handle).materialize pin, none⟩ := by
  have hlt := lt_length_of_getElem? _ _ _ hpin
  simp [computation.connect_handle_for, hlt, hio, hpin, hne, hvis]

theorem connect_handle_for_expected (c : computation) (i : Nat) (t : tensor) (io pin : param)
    (hio : c.inouts_[i]? = some io) (hpin : c.primitive_inputs_[i]? = some pin)
    (hne : io.id ≠ pin.id) (hvis : io.desc ≠ t.desc) (hexp : pin.desc = t.desc) :
    c.connect_handle_for i t =
      ⟨((c.dematerialize pin).set_data_handle pin t.handle).reset_auxiliary i, none⟩ := by
  have hlt := lt_length_of_getElem? _ _ _ hpin
  simp [computation.connect_handle_for, hlt, hio, hpin, hne, hvis, hexp]

theorem connect_handle_for_neither (c : computation) (i : Nat) (t : tensor) (io pin : param)
    (hio : c.inouts_[i]? = some io) (hpin : c.primitive_inputs_[i]? = some pin)
    (hne : io.id ≠ pin.id) (hvis : io.desc ≠ t.desc) (hexp : pin.desc ≠ t.desc) :
    c.connect_handle_for i t = ⟨c, some incompatible_operand⟩ := by
  have hlt := lt_length_of_getElem? _ _ _ hpin
  simp [computation.connect_handle_for, hlt, hio, hpin, hne, hvis, hexp]

/-- A bind on an output slot, or on an input slot that shares its param with the primary
operator, is the "Connect outputs" branch. -/
theorem connect_handle_for_direct (c : computation) (i : Nat) (t : tensor) (io : param)
    (hio : c.inouts_[i]? = some io)
    (hslot : c.primitive_inputs_.length ≤ i ∨
      ∃ pin, c.primitive_inputs_[i]? = some pin ∧ io.id = pin.id) :
    c.connect_handle_for i t = c.connect_output i t := by
  rcases hslot with hge | ⟨pin, hpin, hid⟩
  · simp [computation.connect_handle_for, Nat.not_lt.mpr hge]
  · have hlt := lt_length_of_getElem? _ _ _ hpin
    simp [computation.connect_handle_for, hlt, hio, hpin, hid]

/-! ## Claims about binding and execution -/

/-- C1: on an input slot with a reorder (`inouts_[i]` is not `primitive_inputs_[i]`), binding
a tensor whose descriptor is the expected (post-reorder) one and not the plan-visible one
succeeds, makes the tensor's handle the handle of the primary operator's input
`primitive_inputs_[i]`, and discards the reorder of slot `i`, so that the execution
sequence built next holds no reorder of slot `i`. -/
theorem C1_bind_expected_layout_discards_reorder (c : computation) (i : Nat) (t : tensor)
    (io pin : param)
    (hio : c.inouts_[i]? = some io) (hpin : c.primitive_inputs_[i]? = some pin)
    (hne : io.id ≠ pin.id) (hexp : t.desc = pin.desc) (hvis : t.desc ≠ io.desc) :
    (c.connect_handle_for i t).failure = none ∧
    (c.connect_handle_for i t).plan.get_data_handle pin = t.handle ∧
    (c.connect_handle_for i t).plan.primitive_inputs_[i]? = some pin ∧
    (c.connect_handle_for i t).plan.auxiliaries_ i = none ∧
    (c.connect_handle_for i t).plan.need_reorder_input i = false ∧
    ∀ r, primitive.reorder i r ∉
      primitive_group.execution_sequence (c.connect_handle_for i t).plan := by
  have heq := connect_handle_for_expected c i t io pin hio hpin hne (Ne.symm hvis) hexp.symm
  have haux : (c.connect_handle_for i t).plan.auxiliaries_ i = none := by
    rw [heq]
    simp [computation.reset_auxiliary, store_set]
  refine ⟨by rw [heq], ?_, ?_, haux, ?_, ?_⟩
  · rw [heq]
    simp [computation.get_data_handle, computation.reset_auxiliary,
      computation.set_data_handle, store_set]
  · rw [(connect_handle_for_frame c i t).2.1]
    exact hpin
  · simp [computation.need_reorder_input, haux]
  · intro r hmem
    have h := ((mem_execution_sequence_reorder _ i r).mp hmem).2
    rw [haux] at h
    exact absurd h (by simp)

/-- C3: on an input slot with a reorder, binding a tensor whose descriptor is neither the
pre-reorder nor the expected (post-reorder) descriptor fails with the error "Cannot accept
incompatible input" and leaves the plan, hence every bound handle and every reorder, as it
was. -/
theorem C3_bind_neither_layout_fails (c : computation) (i : Nat) (t : tensor)
    (io pin : param)
    (hio : c.inouts_[i]? = some io) (hpin : c.primitive_inputs_[i]? = some pin)
    (hne : io.id ≠ pin.id) (hvis : t.desc ≠ io.desc) (hexp : t.desc ≠ pin.desc) :
    (c.connect_handle_for i t).failure =
      some (error.mkldnn_runtime_error "Cannot accept incompatible input") ∧
    (c.connect_handle_for i t).plan.handle = c.handle ∧
    (c.connect_handle_for i t).plan.auxiliaries_ = c.auxiliaries_ ∧
    (c.connect_handle_for i t).plan.inouts_ = c.inouts_ ∧
    (c.connect_handle_for i t).plan.primitive_inputs_ = c.primitive_inputs_ := by
  rw [connect_handle_for_neither c i t io pin hio hpin hne (Ne.symm hvis) (Ne.symm hexp)]
  exact ⟨rfl, rfl, rfl, rfl, rfl⟩

/-- C6: for every plan state the execution sequence is a list of reorders followed by the
primary operator primitive: the primary operator is its last element, occurs exactly once,
and everything before it is a reorder. -/
theorem C6_primary_operator_last_and_once (c : computation) :
    (primitive_group.execution_sequence c).getLast? = some (primitive.op c.prim) ∧
    (primitive_group.execution_sequence c).count (primitive.op c.prim) = 1 ∧
    ∃ reorders : List primitive,
      primitive_group.execution_sequence c = reorders ++ [primitive.op c.prim] ∧
      ∀ p ∈ reorders, ∃ i r, p = primitive.reorder i r := by
  rw [execution_sequence_eq]
  refine ⟨by simp, ?_, _, rfl, ?_⟩
  · cases h0 : c.auxiliaries_ 0 <;> cases h1 : c.auxiliaries_ 1 <;> simp [List.count_cons]
  · intro p hp
    simp only [List.mem_append, List.mem_map, Option.mem_toList, Option.mem_def] at hp
    rcases hp with ⟨a, _, rfl⟩ | ⟨a, _, rfl⟩
    · exact ⟨0, a, rfl⟩
    · exact ⟨1, a, rfl⟩

/-- The sample plan is what `convolution_forward::init` returns on the sample engine. -/
theorem conv_plan_built :
    convolution_forward.init sample_engine src_plain weights_plain bias_x dst_plain
      [1, 1] [0, 0] [0, 0] 0 0 0 = Except.ok conv_plan := rfl

/-- Witness of C1: slot 0 of the sample convolution plan, bound with a source tensor that is
already in the blocked layout. -/
theorem C1_witness :
    (conv_plan.inouts_[0]? = some ⟨4, src_plain⟩ ∧
      conv_plan.primitive_inputs_[0]? = some ⟨0, src_blocked⟩) ∧
    (conv_plan.connect_handle_for 0 ⟨src_blocked, data_handle.buffer 100⟩).failure = none ∧
    (conv_plan.connect_handle_for 0 ⟨src_blocked, data_handle.buffer 100⟩).plan.get_data_handle
      ⟨0, src_blocked⟩ = data_handle.buffer 100 ∧
    (conv_plan.connect_handle_for 0
      ⟨src_blocked, data_handle.buffer 100⟩).plan.need_reorder_input 0 = false :=
  have h := C1_bind_expected_layout_discards_reorder conv_plan 0
    ⟨src_blocked, data_handle.buffer 100⟩ ⟨4, src_plain⟩ ⟨0, src_blocked⟩ rfl rfl
    (by decide) rfl (by decide)
  ⟨⟨rfl, rfl⟩, h.1, h.2.1, h.2.2.2.2.1⟩

/-- Witness of C3: slot 1 of the sample convolution plan, bound with a tensor that carries
the source's descriptor instead of either weights descriptor. -/
theorem C3_witness :
    (conv_plan.inouts_[1]? = some ⟨5, weights_plain⟩ ∧
      conv_plan.primitive_inputs_[1]? = some ⟨1, weights_blocked⟩) ∧
    (conv_plan.connect_handle_for 1 ⟨src_plain, data_handle.buffer 7⟩).failure =
      some (error.mkldnn_runtime_error "Cannot accept incompatible input") ∧
    (conv_plan.connect_handle_for 1 ⟨src_plain, data_handle.buffer 7⟩).plan.handle =
      conv_plan.handle :=
  have h := C3_bind_neither_layout_fails conv_plan 1
    ⟨src_plain, data_handle.buffer 7⟩ ⟨5, weights_plain⟩ ⟨1, weights_blocked⟩ rfl rfl
    (by decide) (by decide) (by decide)
  ⟨⟨rfl, rfl⟩, h.1, h.2.1⟩

/-- A bind with the plan-visible (pre-reorder) descriptor on a slot that holds a reorder:
the handle goes to the reorder's source `inouts_[i]`, the post-reorder buffer
`primitive_inputs_[i]` is materialized, the reorder stays, and the execution sequence built
next holds it when `i` is 0 or 1. -/
theorem connect_handle_for_source_keeps_reorder (c : computation) (i : Nat) (t : tensor)
    (io pin : param) (r : reorder_primitive)
    (hio : c.inouts_[i]? = some io) (hpin : c.primitive_inputs_[i]? = some pin)
    (hne : io.id ≠ pin.id) (hr : c.auxiliaries_ i = some r) (hvis : t.desc = io.desc) :
    (c.connect_handle_for i t).failure = none ∧
    (c.connect_handle_for i t).plan.get_data_handle io = t.handle ∧
    (c.connect_handle_for i t).plan.materialized pin = true ∧
    (c.connect_handle_for i t).plan.auxiliaries_ i = some r ∧
    (i < 2 → primitive.reorder i r ∈
      primitive_group.execution_sequence (c.connect_handle_for i t).plan) := by
  have heq := connect_handle_for_source c i t io pin hio hpin hne hvis.symm
  have haux : (c.connect_handle_for i t).plan.auxiliaries_ i = some r := by
    rw [heq]
    simp only [(materialize_frame _ _).2.2.2.2]
    simpa [computation.set_data_handle] using hr
  refine ⟨by rw [heq], ?_, ?_, haux, ?_⟩
  · rw [heq]
    simp only [computation.get_data_handle, computation.materialize,
      computation.materialized, computation.set_data_handle]
    split
    · simp [store_set]
    · simp [store_set, hne]
  · rw [heq]
    simp only [computation.materialize, computation.materialized,
      computation.set_data_handle]
    split
    · assumption
    · simp [store_set]
  · intro hi
    refine (mem_execution_sequence_reorder _ i r).mpr ⟨?_, haux⟩
    omega

/-- For the slots `execute` does look at, 0 and 1, the execution sequence holds the slot's
reorder exactly once when the slot still needs one and not at all otherwise; for every
other slot it holds no reorder. -/
theorem execution_sequence_count_reorder (c : computation) (i : Nat) (r : reorder_primitive) :
    (primitive_group.execution_sequence c).count (primitive.reorder i r) =
      if i < 2 ∧ c.auxiliaries_ i = some r then 1 else 0 := by
  rw [execution_sequence_eq]
  rcases i with _ | _ | i
  · cases h0 : c.auxiliaries_ 0 <;> cases h1 : c.auxiliaries_ 1 <;>
      simp [List.count_cons]
  · cases h0 : c.auxiliaries_ 0 <;> cases h1 : c.auxiliaries_ 1 <;>
      simp [List.count_cons]
  · have hlt : ¬ (i + 1 + 1 < 2) := by omega
    cases h0 : c.auxiliaries_ 0 <;> cases h1 : c.auxiliaries_ 1 <;>
      simp [List.count_cons, hlt]

/-- C4, refuted as stated: binding the result slot of the sample convolution plan with a
tensor in another layout than the slot expects ends in the failed assertion of the "Connect
outputs" branch, which is not the error "Cannot accept incompatible input". -/
theorem C4_counterexample :
    conv_plan.num_of_inputs = 3 ∧
    conv_plan.inouts_[3]? = some ⟨3, dst_blocked⟩ ∧
    (conv_plan.connect_handle_for 3 ⟨dst_plain, data_handle.buffer 9⟩).failure =
      some error.assertion ∧
    (conv_plan.connect_handle_for 3 ⟨dst_plain, data_handle.buffer 9⟩).failure ≠
      some (error.mkldnn_runtime_error "Cannot accept incompatible input") := by
  refine ⟨rfl, rfl, rfl, ?_⟩
  have h : (conv_plan.connect_handle_for 3 ⟨dst_plain, data_handle.buffer 9⟩).failure =
      some error.assertion := rfl
  rw [h]
  simp

/-- C4, amended: on an output slot, or on an input slot without a reorder (`inouts_[i]` is
`primitive_inputs_[i]`), binding a tensor whose descriptor differs from the slot's
descriptor fails the assertion of the "Connect outputs" branch, before the handle is set:
the plan, and with it the slot's data handle, is as it was. -/
theorem C4_bind_mismatch_direct_slot_fails_assertion (c : computation) (i : Nat)
    (t : tensor) (io : param)
    (hio : c.inouts_[i]? = some io)
    (hslot : c.primitive_inputs_.length ≤ i ∨
      ∃ pin, c.primitive_inputs_[i]? = some pin ∧ io.id = pin.id)
    (hdesc : t.desc ≠ io.desc) :
    (c.connect_handle_for i t).failure = some error.assertion ∧
    (c.connect_handle_for i t).plan.handle = c.handle ∧
    (c.connect_handle_for i t).plan.get_data_handle io = c.get_data_handle io := by
  rw [connect_handle_for_direct c i t io hio hslot]
  simp [computation.connect_output, hio, Ne.symm hdesc]

/-- Witness of the amended C4: the bias slot of the sample convolution plan, an input slot
without a reorder, bound with a bias tensor in another layout. -/
theorem C4_witness :
    (conv_plan.inouts_[2]? = some ⟨2, bias_x⟩ ∧
      conv_plan.primitive_inputs_[2]? = some ⟨2, bias_x⟩ ∧ bias_other ≠ bias_x) ∧
    (conv_plan.connect_handle_for 2 ⟨bias_other, data_handle.buffer 5⟩).failure =
      some error.assertion ∧
    (conv_plan.connect_handle_for 2 ⟨bias_other, data_handle.buffer 5⟩).plan.handle =
      conv_plan.handle :=
  have h := C4_bind_mismatch_direct_slot_fails_assertion conv_plan 2
    ⟨bias_other, data_handle.buffer 5⟩ ⟨2, bias_x⟩ rfl
    (Or.inr ⟨⟨2, bias_x⟩, rfl, rfl⟩) (by decide)
  ⟨⟨rfl, rfl, by decide⟩, h.1, h.2.1⟩

/-! ## The invariant of constructed plans -/

/-- A bind, failing or not, keeps the invariant. -/
theorem connect_handle_for_well_formed (c : computation) (index : Nat) (atensor : tensor)
    (h : c.well_formed) : (c.connect_handle_for index atensor).plan.well_formed := by
  obtain ⟨hio, hpin, _, hnext⟩ := connect_handle_for_frame c index atensor
  refine ⟨?_, ?_, ?_⟩
  · rw [hio, hpin]
    exact h.sizes
  · intro i pin hi
    rw [hpin] at hi
    rw [hnext]
    exact h.fresh i pin hi
  · intro i r hr
    rw [hio, hpin]
    exact h.reorders i r (connect_handle_for_auxiliaries c index atensor i r hr)

/-- C5: on an input slot without a reorder (`inouts_[i]` is `primitive_inputs_[i]`) of a
constructed plan, binding a tensor whose descriptor equals the slot's expected descriptor
succeeds and sets the slot's data handle, which is the handle of the primary operator's
input, to the tensor's handle; the execution sequence built next holds no reorder of slot
`i`. -/
theorem C5_bind_direct_input_slot (c : computation) (i : Nat) (t : tensor) (io pin : param)
    (hwf : c.well_formed)
    (hio : c.inouts_[i]? = some io) (hpin : c.primitive_inputs_[i]? = some pin)
    (hid : io.id = pin.id) (hdesc : t.desc = io.desc) :
    (c.connect_handle_for i t).failure = none ∧
    (c.connect_handle_for i t).plan.get_data_handle io = t.handle ∧
    (c.connect_handle_for i t).plan.get_data_handle pin = t.handle ∧
    (c.connect_handle_for i t).plan.need_reorder_input i = false ∧
    ∀ r, primitive.reorder i r ∉
      primitive_group.execution_sequence (c.connect_handle_for i t).plan := by
  have hnone : ∀ r, (c.connect_handle_for i t).plan.auxiliaries_ i ≠ some r := by
    intro r hr
    obtain ⟨io2, pin2, h1, h2, h3, _⟩ :=
      hwf.reorders i r (connect_handle_for_auxiliaries c i t i r hr)
    rw [hio] at h1
    rw [hpin] at h2
    cases h1
    cases h2
    exact h3 hid
  have heq := connect_handle_for_direct c i t io hio (Or.inr ⟨pin, hpin, hid⟩)
  refine ⟨?_, ?_, ?_, ?_, ?_⟩
  · rw [heq]
    simp [computation.connect_output, hio, hdesc]
  · rw [heq]
    simp [computation.connect_output, hio, hdesc, computation.get_data_handle,
      computation.set_data_handle, store_set]
  · rw [heq]
    simp [computation.connect_output, hio, hdesc, computation.get_data_handle,
      computation.set_data_handle, store_set, hid]
  · cases hr : (c.connect_handle_for i t).plan.auxiliaries_ i with
    | none => simp [computation.need_reorder_input, hr]
    | some r => exact absurd hr (hnone r)
  · intro r hmem
    exact hnone r ((mem_execution_sequence_reorder _ i r).mp hmem).2

/-! ## Construction: `init_internal` -/

theorem init_inputs_spec (adesc : descriptor_group) :
    ∀ (k i : Nat) (ps : List param), computation.init_inputs adesc k i = Except.ok ps →
      ps.length = k ∧
      ∀ (j : Nat) (p : param), ps[j]? = some p →
        p.id = i + j ∧ adesc.expected_input_descriptor (i + j) = Except.ok p.desc := by
  intro k
  induction k with
  | zero =>
    intro i ps h
    simp only [computation.init_inputs, Except.ok.injEq] at h
    subst h
    simp
  | succ k ih =>
    intro i ps h
    unfold computation.init_inputs at h
    cases hd : adesc.expected_input_descriptor i with
    | error e => simp [hd] at h
    | ok d =>
      cases hrest : computation.init_inputs adesc k (i + 1) with
      | error e => simp [hd, hrest] at h
      | ok rest =>
        simp only [hd, hrest, Except.ok.injEq] at h
        subst h
        obtain ⟨hlen, hall⟩ := ih (i + 1) rest hrest
        refine ⟨by simp [hlen], ?_⟩
        intro j p hj
        cases j with
        | zero =>
          simp only [List.getElem?_cons_zero, Option.some.injEq] at hj
          subst hj
          exact ⟨rfl, hd⟩
        | succ j =>
          simp only [List.getElem?_cons_succ] at hj
          obtain ⟨h1, h2⟩ := hall j p hj
          have e : i + (j + 1) = i + 1 + j := by omega
          rw [e]
          exact ⟨h1, h2⟩

theorem init_outputs_spec (adesc : descriptor_group) (n_inputs : Nat) :
    ∀ (k i : Nat) (ps : List param),
      computation.init_outputs adesc n_inputs k i = Except.ok ps →
      ps.length = k ∧
      ∀ (j : Nat) (p : param), ps[j]? = some p →
        p.id = i + j + n_inputs ∧
        adesc.expected_output_descriptor (i + j) = Except.ok p.desc := by
  intro k
  induction k with
  | zero =>
    intro i ps h
    simp only [computation.init_outputs, Except.ok.injEq] at h
    subst h
    simp
  | succ k ih =>
    intro i ps h
    unfold computation.init_outputs at h
    cases hd : adesc.expected_output_descriptor i with
    | error e => simp [hd] at h
    | ok d =>
      cases hrest : computation.init_outputs adesc n_inputs k (i + 1) with
      | error e => simp [hd, hrest] at h
      | ok rest =>
        simp only [hd, hrest, Except.ok.injEq] at h
        subst h
        obtain ⟨hlen, hall⟩ := ih (i + 1) rest hrest
        refine ⟨by simp [hlen], ?_⟩
        intro j p hj
        cases j with
        | zero =>
          simp only [List.getElem?_cons_zero, Option.some.injEq] at hj
          subst hj
          exact ⟨rfl, hd⟩
        | succ j =>
          simp only [List.getElem?_cons_succ] at hj
          obtain ⟨h1, h2⟩ := hall j p hj
          have e : i + (j + 1) = i + 1 + j := by omega
          rw [e]
          exact ⟨h1, h2⟩

/-- What `init_internal` builds: the input params, the output params after them, the
primary primitive on exactly these, no reorder and no handle yet. -/
theorem init_internal_spec (adesc : descriptor_group) (n m : Nat) (c : computation)
    (h : computation.init_internal adesc n m = Except.ok c) :
    ∃ ins outs,
      computation.init_inputs adesc n 0 = Except.ok ins ∧
      computation.init_outputs adesc n m 0 = Except.ok outs ∧
      c.prim = ⟨adesc.pd, ins, outs⟩ ∧ c.inouts_ = ins ++ outs ∧
      c.primitive_inputs_ = ins ∧ c.auxiliaries_ = (fun _ => none) ∧
      c.handle = (fun _ => invalid_buffer) ∧ c.next_id = n + m := by
  unfold computation.init_internal at h
  cases hi : computation.init_inputs adesc n 0 with
  | error e => simp [hi] at h
  | ok ins =>
    cases ho : computation.init_outputs adesc n m 0 with
    | error e => simp [hi, ho] at h
    | ok outs =>
      simp only [hi, ho, Except.ok.injEq] at h
      subst h
      exact ⟨ins, outs, rfl, rfl, rfl, rfl, rfl, rfl, rfl, rfl⟩

/-- The plan `init_internal` returns satisfies the invariant. -/
theorem init_internal_well_formed (adesc : descriptor_group) (n m : Nat) (c : computation)
    (h : computation.init_internal adesc n m = Except.ok c) : c.well_formed := by
  obtain ⟨ins, outs, hins, _, _, hio, hpin, haux, _, hnext⟩ := init_internal_spec adesc n m c h
  obtain ⟨hlen, hall⟩ := init_inputs_spec adesc n 0 ins hins
  refine ⟨?_, ?_, ?_⟩
  · rw [hio, hpin]
    simp
  · intro i pin hi
    rw [hpin] at hi
    have hlt := lt_length_of_getElem? _ _ _ hi
    have := (hall i pin hi).1
    omega
  · intro i r hr
    rw [haux] at hr
    exact absurd hr (by simp)

/-! ## Construction: `connect_reorder_for` -/

/-- One `connect_reorder_for`: either the descriptor group has no reorder for the slot and
nothing happens, or the slot gets a fresh param with the caller's descriptor and a reorder
from it into `primitive_inputs_[index]`. -/
theorem connect_reorder_for_spec (c c1 : computation) (index : Nat) (adesc : descriptor_group)
    (desc : tensor.descriptor)
    (h : c.connect_reorder_for index adesc desc = Except.ok c1) :
    (adesc.auxiliaries_ index = none ∧ c1 = c) ∨
    (∃ pd pin, adesc.auxiliaries_ index = some pd ∧
      c.primitive_inputs_[index]? = some pin ∧ index < c.inouts_.length ∧
      c1.prim = c.prim ∧ c1.primitive_inputs_ = c.primitive_inputs_ ∧
      c1.inouts_ = c.inouts_.set index ⟨c.next_id, desc⟩ ∧
      c1.next_id = c.next_id + 1 ∧
      c1.auxiliaries_ =
        store_set c.auxiliaries_ index (some ⟨pd, ⟨c.next_id, desc⟩, pin⟩)) := by
  unfold computation.connect_reorder_for descriptor_group.need_reorder_input at h
  cases hg : adesc.auxiliaries_ index with
  | none =>
    simp only [hg, Option.isSome_none, Bool.false_eq_true, if_false, Except.ok.injEq] at h
    exact Or.inl ⟨rfl, h.symm⟩
  | some pd =>
    right
    simp only [hg, Option.isSome_some, if_true] at h
    cases hp : c.primitive_inputs_[index]? with
    | none => simp [hp] at h
    | some pin =>
      simp only [hp] at h
      by_cases hlt : index < c.inouts_.length
      · simp only [hlt, if_true, primitive_group.create_reorder_for, hg,
          Except.ok.injEq] at h
        subst h
        exact ⟨pd, pin, rfl, rfl, hlt, rfl, rfl, rfl, rfl, rfl⟩
      · simp [hlt] at h

/-- One `connect_reorder_for` keeps the invariant. -/
theorem connect_reorder_for_well_formed (c c1 : computation) (index : Nat)
    (adesc : descriptor_group) (desc : tensor.descriptor) (hwf : c.well_formed)
    (h : c.connect_reorder_for index adesc desc = Except.ok c1) : c1.well_formed := by
  rcases connect_reorder_for_spec c c1 index adesc desc h with
    ⟨_, rfl⟩ | ⟨pd, pin, _, hpin, hlt, _, hpi, hio, hnext, haux⟩
  · exact hwf
  · refine ⟨?_, ?_, ?_⟩
    · rw [hio, hpi, List.length_set]
      exact hwf.sizes
    · intro i p hi
      rw [hpi] at hi
      have := hwf.fresh i p hi
      omega
    · intro i r hr
      rw [haux] at hr
      rw [hio, hpi]
      by_cases hi : i = index
      · subst hi
        simp only [store_set, if_true, Option.some.injEq] at hr
        subst hr
        refine ⟨⟨c.next_id, desc⟩, pin, ?_, hpin, ?_, rfl, rfl⟩
        · simp [List.getElem?_set, hlt]
        · have := hwf.fresh i pin hpin
          simp only [ne_eq]
          omega
      · simp only [store_set, hi, if_false] at hr
        obtain ⟨io, pin2, h1, h2, h3, h4, h5⟩ := hwf.reorders i r hr
        refine ⟨io, pin2, ?_, h2, h3, h4, h5⟩
        rw [List.getElem?_set_ne (Ne.symm hi)]
        exact h1

/-- The pack of `connect_reorder_for` calls keeps the invariant. -/
theorem connect_reorder_for_pack_well_formed (adesc : descriptor_group) :
    ∀ (args : List tensor.descriptor) (c c1 : computation) (index : Nat),
      c.well_formed → c.connect_reorder_for_pack index adesc args = Except.ok c1 →
      c1.well_formed := by
  intro args
  induction args with
  | nil =>
    intro c c1 index hwf h
    simp only [computation.connect_reorder_for_pack, Except.ok.injEq] at h
    subst h
    exact hwf
  | cons first rest ih =>
    intro c c1 index hwf h
    unfold computation.connect_reorder_for_pack at h
    cases hs : c.connect_reorder_for index adesc first with
    | error e => simp [hs] at h
    | ok c2 =>
      simp only [hs] at h
      exact ih c2 c1 (index + 1) (connect_reorder_for_well_formed c c2 index adesc first hwf hs) h

/-- What the pack of `connect_reorder_for` calls over `args`, started at `index`, does:
the primary primitive and `primitive_inputs_` stay; a slot outside the visited range, or
one the descriptor group has no reorder for, keeps its param and its (absent) reorder; a
visited slot the descriptor group has a reorder for gets a fresh param carrying the
caller's descriptor and a reorder from it into `primitive_inputs_` of that slot. -/
theorem connect_reorder_for_pack_spec (adesc : descriptor_group) :
    ∀ (args : List tensor.descriptor) (c c1 : computation) (index : Nat),
      c.connect_reorder_for_pack index adesc args = Except.ok c1 →
      c1.prim = c.prim ∧ c1.primitive_inputs_ = c.primitive_inputs_ ∧
      c1.inouts_.length = c.inouts_.length ∧ c.next_id ≤ c1.next_id ∧
      (∀ j, (j < index ∨ index + args.length ≤ j ∨ adesc.auxiliaries_ j = none) →
        c1.auxiliaries_ j = c.auxiliaries_ j ∧ c1.inouts_[j]? = c.inouts_[j]?) ∧
      (∀ j pd, index ≤ j → j < index + args.length → adesc.auxiliaries_ j = some pd →
        ∃ pin id d, args[j - index]? = some d ∧ c.primitive_inputs_[j]? = some pin ∧
          c.next_id ≤ id ∧ id < c1.next_id ∧
          c1.auxiliaries_ j = some ⟨pd, ⟨id, d⟩, pin⟩ ∧ c1.inouts_[j]? = some ⟨id, d⟩) := by
  intro args
  induction args with
  | nil =>
    intro c c1 index h
    simp only [computation.connect_reorder_for_pack, Except.ok.injEq] at h
    subst h
    refine ⟨rfl, rfl, rfl, Nat.le_refl _, fun j _ => ⟨rfl, rfl⟩, ?_⟩
    intro j pd h1 h2
    simp only [List.length_nil, Nat.add_zero] at h2
    omega
  | cons first rest ih =>
    intro c c1 index h
    unfold computation.connect_reorder_for_pack at h
    cases hs : c.connect_reorder_for index adesc first with
    | error e => simp [hs] at h
    | ok c2 =>
      simp only [hs] at h
      obtain ⟨hprim, hpi, hlen, hnext, hsame, hnew⟩ := ih c2 c1 (index + 1) h
      have hstep := connect_reorder_for_spec c c2 index adesc first hs
      have hlen_args : (first :: rest).length = rest.length + 1 := rfl
      rcases hstep with ⟨hnone, rfl⟩ | ⟨pd0, pin0, hsome, hpin0, hlt0, hprim2, hpi2, hio2, hnext2, haux2⟩
      · refine ⟨hprim, hpi, hlen, hnext, ?_, ?_⟩
        · intro j hj
          apply hsame j
          rcases hj with hj | hj | hj
          · exact Or.inl (by omega)
          · exact Or.inr (Or.inl (by rw [hlen_args] at hj; omega))
          · exact Or.inr (Or.inr hj)
        · intro j pd h1 h2 h3
          rw [hlen_args] at h2
          have hj : j ≠ index := by
            rintro rfl
            rw [hnone] at h3
            exact absurd h3 (by simp)
          obtain ⟨pin, id, d, ha, hb, hc, hd, he, hf⟩ :=
            hnew j pd (by omega) (by omega) h3
          refine ⟨pin, id, d, ?_, hb, hc, hd, he, hf⟩
          have e : j - index = (j - (index + 1)) + 1 := by omega
          rw [e, List.getElem?_cons_succ]
          exact ha
      · refine ⟨hprim.trans hprim2, hpi.trans hpi2, ?_, by omega, ?_, ?_⟩
        · rw [hlen, hio2, List.length_set]
        · intro j hj
          have hj2 : j ≠ index := by
            rintro rfl
            rcases hj with hj | hj | hj
            · omega
            · rw [hlen_args] at hj; omega
            · rw [hsome] at hj
              exact absurd hj (by simp)
          have h1 := hsame j (by
            rcases hj with hj | hj | hj
            · exact Or.inl (by omega)
            · exact Or.inr (Or.inl (by rw [hlen_args] at hj; omega))
            · exact Or.inr (Or.inr hj))
          refine ⟨?_, ?_⟩
          · rw [h1.1, haux2]
            simp [store_set, hj2]
          · rw [h1.2, hio2, List.getElem?_set_ne (Ne.symm hj2)]
        · intro j pd h1 h2 h3
          rw [hlen_args] at h2
          by_cases hj : j = index
          · subst hj
            rw [hsome] at h3
            cases h3
            have hkeep := hsame j (Or.inl (by omega))
            refine ⟨pin0, c.next_id, first, by simp, hpin0, Nat.le_refl _, by omega, ?_, ?_⟩
            · rw [hkeep.1, haux2]
              simp [store_set]
            · rw [hkeep.2, hio2]
              simp [List.getElem?_set, hlt0]
          · obtain ⟨pin, id, d, ha, hb, hc, hd, he, hf⟩ :=
              hnew j pd (by omega) (by omega) h3
            rw [hpi2] at hb
            refine ⟨pin, id, d, ?_, hb, by omega, hd, he, hf⟩
            have e : j - index = (j - (index + 1)) + 1 := by omega
            rw [e, List.getElem?_cons_succ]
            exact ha

/-- Both `init` overloads run `init_internal` on the descriptor's operand counts and then
the pack of `connect_reorder_for` calls from slot 0. -/
theorem init_unfold (adesc : descriptor_group) (args : List tensor.descriptor)
    (c : computation)
    (h : computation.init adesc args = Except.ok c ∨
      computation.init_vector adesc args = Except.ok c) :
    ∃ c0, computation.init_internal adesc adesc.num_of_inputs adesc.num_of_outputs
        = Except.ok c0 ∧
      c0.connect_reorder_for_pack 0 adesc args = Except.ok c := by
  rcases h with h | h
  · unfold computation.init at h
    cases h0 : computation.init_internal adesc adesc.num_of_inputs adesc.num_of_outputs with
    | error e => simp [h0] at h
    | ok c0 =>
      simp only [h0] at h
      exact ⟨c0, rfl, h⟩
  · unfold computation.init_vector at h
    by_cases hn : adesc.num_of_inputs = args.length
    · simp only [hn, if_true] at h
      rw [hn]
      cases h0 : computation.init_internal adesc args.length adesc.num_of_outputs with
      | error e => simp [h0] at h
      | ok c0 =>
        simp only [h0] at h
        exact ⟨c0, rfl, h⟩
    · simp [hn] at h

/-- A plan returned by either `init` overload satisfies the invariant. -/
theorem init_well_formed (adesc : descriptor_group) (args : List tensor.descriptor)
    (c : computation)
    (h : computation.init adesc args = Except.ok c ∨
      computation.init_vector adesc args = Except.ok c) : c.well_formed := by
  obtain ⟨c0, h0, h1⟩ := init_unfold adesc args c h
  exact connect_reorder_for_pack_well_formed adesc args c0 c 0
    (init_internal_well_formed _ _ _ c0 h0) h1

/-! ## Claims about construction -/

/-- The sample descriptor group is what `convolution_forward::descriptor` returns on the
sample engine, whichever bias layout the caller holds, and the sample plan is what
`computation::init` builds from it. -/
theorem conv_group_built :
    convolution_forward.descriptor sample_engine src_plain weights_plain bias_x dst_plain
      [1, 1] [0, 0] [0, 0] 0 0 0 = Except.ok conv_group ∧
    convolution_forward.descriptor sample_engine src_plain weights_plain bias_other dst_plain
      [1, 1] [0, 0] [0, 0] 0 0 0 = Except.ok conv_group ∧
    computation.init conv_group [src_plain, weights_plain, bias_x] = Except.ok conv_plan ∧
    computation.init conv_group [src_plain, weights_plain, bias_other] = Except.ok conv_plan :=
  ⟨rfl, rfl, rfl, rfl⟩

/-- The sample convolution plan satisfies the invariant. -/
theorem conv_plan_well_formed : conv_plan.well_formed :=
  init_well_formed conv_group [src_plain, weights_plain, bias_x] conv_plan
    (Or.inl conv_group_built.2.2.1)

/-- Witness of C5: the bias slot of the sample convolution plan, bound with a bias tensor
in the expected layout. -/
theorem C5_witness :
    (conv_plan.inouts_[2]? = some ⟨2, bias_x⟩ ∧
      conv_plan.primitive_inputs_[2]? = some ⟨2, bias_x⟩) ∧
    (conv_plan.connect_handle_for 2 ⟨bias_x, data_handle.buffer 102⟩).failure = none ∧
    (conv_plan.connect_handle_for 2 ⟨bias_x, data_handle.buffer 102⟩).plan.get_data_handle
      ⟨2, bias_x⟩ = data_handle.buffer 102 ∧
    (conv_plan.connect_handle_for 2 ⟨bias_x, data_handle.buffer 102⟩).plan.need_reorder_input 2
      = false :=
  have h := C5_bind_direct_input_slot conv_plan 2 ⟨bias_x, data_handle.buffer 102⟩
    ⟨2, bias_x⟩ ⟨2, bias_x⟩ conv_plan_well_formed rfl rfl rfl rfl
  ⟨⟨rfl, rfl⟩, h.1, h.2.1, h.2.2.2.1⟩

/-- C8: a plan returned by `computation::init` (either overload) on a descriptor reporting
`n_in` inputs and `n_out` outputs has `n_in + n_out` slots, inputs then outputs
(`num_of_inputs() = n_in`, `num_of_outputs() = n_out`); its primary primitive is created
from the descriptor on `primitive_inputs_`, whose element `i` carries
`expected_input_descriptor(i)`, and on the output params, where output slot `n_in + j`
carries `expected_output_descriptor(j)`; the caller's descriptors `args` play no part. -/
theorem C8_init_builds_expected_slots (adesc : descriptor_group)
    (args : List tensor.descriptor) (c : computation)
    (h : computation.init adesc args = Except.ok c ∨
      computation.init_vector adesc args = Except.ok c) :
    c.num_of_inputs = adesc.num_of_inputs ∧
    c.num_of_outputs = adesc.num_of_outputs ∧
    c.inouts_.length = adesc.num_of_inputs + adesc.num_of_outputs ∧
    c.prim.pd = adesc.pd ∧ c.prim.inputs = c.primitive_inputs_ ∧
    (∀ i, i < adesc.num_of_inputs →
      ∃ pin, c.primitive_inputs_[i]? = some pin ∧
        adesc.expected_input_descriptor i = Except.ok pin.desc) ∧
    (∀ j, j < adesc.num_of_outputs →
      ∃ p, c.inouts_[adesc.num_of_inputs + j]? = some p ∧
        adesc.expected_output_descriptor j = Except.ok p.desc ∧
        c.prim.outputs[j]? = some p) := by
  obtain ⟨c0, h0, h1⟩ := init_unfold adesc args c h
  obtain ⟨ins, outs, hins, houts, hprim0, hio0, hpi0, _, _, _⟩ :=
    init_internal_spec adesc _ _ c0 h0
  obtain ⟨hlen_in, hall_in⟩ := init_inputs_spec adesc _ 0 ins hins
  obtain ⟨hlen_out, hall_out⟩ := init_outputs_spec adesc _ _ 0 outs houts
  obtain ⟨hprim, hpi, hlen, _, hsame, hnew⟩ := connect_reorder_for_pack_spec adesc args c0 c 0 h1
  have hni : c.primitive_inputs_.length = adesc.num_of_inputs := by
    rw [hpi, hpi0, hlen_in]
  have hnio : c.inouts_.length = adesc.num_of_inputs + adesc.num_of_outputs := by
    rw [hlen, hio0, List.length_append, hlen_in, hlen_out]
  refine ⟨hni, ?_, hnio, ?_, ?_, ?_, ?_⟩
  · unfold computation.num_of_outputs
    rw [hni, hnio]
    omega
  · rw [hprim, hprim0]
  · rw [hprim, hprim0, hpi, hpi0]
  · intro i hi
    have hlt : i < ins.length := by rw [hlen_in]; exact hi
    refine ⟨ins[i], ?_, ?_⟩
    · rw [hpi, hpi0]
      exact List.getElem?_eq_getElem hlt
    · have := (hall_in i ins[i] (List.getElem?_eq_getElem hlt)).2
      simpa using this
  · intro j hj
    have hlt : j < outs.length := by rw [hlen_out]; exact hj
    have hget : outs[j]? = some outs[j] := List.getElem?_eq_getElem hlt
    have hslot : c0.inouts_[adesc.num_of_inputs + j]? = some outs[j] := by
      rw [hio0, List.getElem?_append_right (by rw [hlen_in]; omega), hlen_in]
      simp
    refine ⟨outs[j], ?_, ?_, ?_⟩
    · have hkeep : c.inouts_[adesc.num_of_inputs + j]? =
          c0.inouts_[adesc.num_of_inputs + j]? := by
        cases hg : adesc.auxiliaries_ (adesc.num_of_inputs + j) with
        | none => exact (hsame _ (Or.inr (Or.inr hg))).2
        | some pd =>
          by_cases hargs : 0 + args.length ≤ adesc.num_of_inputs + j
          · exact (hsame _ (Or.inr (Or.inl hargs))).2
          · obtain ⟨pin, _, _, _, hb, _⟩ :=
              hnew (adesc.num_of_inputs + j) pd (Nat.zero_le _) (by omega) hg
            rw [hpi0] at hb
            have := lt_length_of_getElem? _ _ _ hb
            omega
      rw [hkeep]
      exact hslot
    · have := (hall_out j outs[j] hget).2
      simpa using this
    · rw [hprim, hprim0]
      exact hget

/-- Witness of C8: the sample convolution plan, built from the sample descriptor group. -/
theorem C8_witness :
    computation.init conv_group [src_plain, weights_plain, bias_x] = Except.ok conv_plan ∧
    conv_plan.num_of_inputs = 3 ∧ conv_plan.num_of_outputs = 1 ∧
    conv_plan.inouts_.length = conv_group.num_of_inputs + conv_group.num_of_outputs ∧
    conv_plan.prim.inputs = conv_plan.primitive_inputs_ :=
  have h := C8_init_builds_expected_slots conv_group [src_plain, weights_plain, bias_x]
    conv_plan (Or.inl conv_group_built.2.2.1)
  ⟨conv_group_built.2.2.1, h.1, h.2.1, h.2.2.1, h.2.2.2.2.1⟩

/-- What the loop of `create_reorder_pds` over `descriptors`, started at `i`, does to a
descriptor group: outside the visited range nothing; at a visited slot it records a reorder
descriptor from the provided to the expected descriptor exactly when the two differ. -/
theorem create_reorder_pds_loop_spec (E : engine) :
    ∀ (descriptors : List tensor.descriptor) (g g1 : descriptor_group) (i : Nat),
      descriptor_group.create_reorder_pds_loop E g i descriptors = Except.ok g1 →
      g1.pd = g.pd ∧
      (∀ j, (j < i ∨ i + descriptors.length ≤ j) → g1.auxiliaries_ j = g.auxiliaries_ j) ∧
      (∀ j, i ≤ j → j < i + descriptors.length →
        ∃ d e, descriptors[j - i]? = some d ∧ g.pd.inputs[j]? = some e ∧
          g1.auxiliaries_ j = if e ≠ d then some ⟨d, e⟩ else g.auxiliaries_ j) := by
  intro descriptors
  induction descriptors with
  | nil =>
    intro g g1 i h
    simp only [descriptor_group.create_reorder_pds_loop, Except.ok.injEq] at h
    subst h
    refine ⟨rfl, fun _ _ => rfl, ?_⟩
    intro j h1 h2
    simp only [List.length_nil, Nat.add_zero] at h2
    omega
  | cons provided rest ih =>
    intro g g1 i h
    have hlen_args : (provided :: rest).length = rest.length + 1 := rfl
    unfold descriptor_group.create_reorder_pds_loop at h
    by_cases hlt : i < g.num_of_inputs
    · simp only [hlt, if_true] at h
      cases he : g.pd.inputs[i]? with
      | none => simp [descriptor_group.expected_input_descriptor, he] at h
      | some expected =>
        simp only [descriptor_group.expected_input_descriptor, he] at h
        by_cases hne : expected ≠ provided
        · rw [if_pos hne] at h
          by_cases hE : E.reorder_primitive_desc_create provided expected = true
          · rw [if_pos hE] at h
            obtain ⟨hpd, hout, hin⟩ := ih _ g1 (i + 1) h
            refine ⟨hpd, ?_, ?_⟩
            · intro j hj
              rw [hout j (by rw [hlen_args] at hj; omega)]
              have hj2 : j ≠ i := by rw [hlen_args] at hj; omega
              simp [store_set, hj2]
            · intro j h1 h2
              rw [hlen_args] at h2
              by_cases hj : j = i
              · subst hj
                refine ⟨provided, expected, by simp, he, ?_⟩
                rw [hout j (Or.inl (by omega))]
                simp [store_set, hne]
              · obtain ⟨d, e, ha, hb, hc⟩ := hin j (by omega) (by omega)
                refine ⟨d, e, ?_, hb, ?_⟩
                · have e2 : j - i = (j - (i + 1)) + 1 := by omega
                  rw [e2, List.getElem?_cons_succ]
                  exact ha
                · rw [hc]
                  simp [store_set, hj]
          · rw [if_neg hE] at h
            exact absurd h (by simp)
        · rw [if_neg hne] at h
          obtain ⟨hpd, hout, hin⟩ := ih g g1 (i + 1) h
          refine ⟨hpd, ?_, ?_⟩
          · intro j hj
            exact hout j (by rw [hlen_args] at hj; omega)
          · intro j h1 h2
            rw [hlen_args] at h2
            by_cases hj : j = i
            · subst hj
              refine ⟨provided, expected, by simp, he, ?_⟩
              rw [hout j (Or.inl (by omega))]
              simp [hne]
            · obtain ⟨d, e, ha, hb, hc⟩ := hin j (by omega) (by omega)
              refine ⟨d, e, ?_, hb, hc⟩
              have e2 : j - i = (j - (i + 1)) + 1 := by omega
              rw [e2, List.getElem?_cons_succ]
              exact ha
    · simp [hlt] at h

/-- The reorder descriptors of a descriptor group built by `reset(result)` followed by
`create_reorder_pds(descriptors)`: slot `j` has one exactly when `descriptors` has an
element `j` and it differs from the descriptor the engine expects for input `j`. -/
theorem create_reorder_pds_spec (E : engine) (pd : primitive_desc)
    (descriptors : List tensor.descriptor) (g : descriptor_group)
    (h : (descriptor_group.reset pd).create_reorder_pds E descriptors = Except.ok g) :
    g.pd = pd ∧
    ∀ j, (g.auxiliaries_ j = none ∧
        (descriptors.length ≤ j ∨
          ∃ d, descriptors[j]? = some d ∧ pd.inputs[j]? = some d)) ∨
      (∃ d e, descriptors[j]? = some d ∧ pd.inputs[j]? = some e ∧ e ≠ d ∧
        g.auxiliaries_ j = some ⟨d, e⟩) := by
  obtain ⟨hpd, hout, hin⟩ := create_reorder_pds_loop_spec E descriptors _ g 0 h
  refine ⟨hpd, ?_⟩
  intro j
  by_cases hj : descriptors.length ≤ j
  · left
    refine ⟨?_, Or.inl hj⟩
    rw [hout j (Or.inr (by omega))]
    rfl
  · obtain ⟨d, e, ha, hb, hc⟩ := hin j (Nat.zero_le _) (by omega)
    simp only [Nat.sub_zero] at ha
    have hb2 : pd.inputs[j]? = some e := hb
    by_cases hde : e = d
    · left
      subst hde
      refine ⟨?_, Or.inr ⟨e, ha, hb2⟩⟩
      rw [hc]
      simp [descriptor_group.reset]
    · right
      refine ⟨d, e, ha, hb2, hde, ?_⟩
      rw [hc]
      simp [hde]

/-- C9, refuted as stated: on the sample engine the caller's bias descriptor differs from
`expected_input_descriptor(2)`, yet the plan `convolution_forward::init` builds has no
reorder for input slot 2: the constructor hands only source and weights to
`create_reorder_pds`. -/
theorem C9_counterexample :
    convolution_forward.init sample_engine src_plain weights_plain bias_other dst_plain
      [1, 1] [0, 0] [0, 0] 0 0 0 = Except.ok conv_plan ∧
    convolution_forward.descriptor sample_engine src_plain weights_plain bias_other dst_plain
      [1, 1] [0, 0] [0, 0] 0 0 0 = Except.ok conv_group ∧
    conv_group.expected_input_descriptor 2 = Except.ok bias_x ∧
    bias_other ≠ bias_x ∧
    2 < conv_plan.num_of_inputs ∧
    conv_plan.need_reorder_input 2 = false :=
  ⟨rfl, rfl, rfl, by decide, by decide, rfl⟩

/-- C9, amended: let an operator descriptor be built as in this file, by `reset(result)`
on the engine's primitive descriptor followed by `create_reorder_pds(descriptors)`, where
`descriptors` are the leading operands the caller's `args` start with (source and weights
for the convolution descriptors, none where the call is absent).  In the plan `init`
builds from it, slot `i` is marked needs-reorder if and only if `descriptors` has an element
`i` and that caller's descriptor differs from `expected_input_descriptor(i)`; the reorder of
a marked slot is created from the pair (caller's descriptor, expected descriptor), reads
the param in `inouts_[i]`, which carries the caller's descriptor, and writes
`primitive_inputs_[i]`, which carries the expected descriptor. -/
theorem C9_reorder_iff_passed_descriptor_differs (E : engine) (pd : primitive_desc)
    (descriptors args : List tensor.descriptor) (g : descriptor_group) (c : computation)
    (i : Nat)
    (hg : (descriptor_group.reset pd).create_reorder_pds E descriptors = Except.ok g)
    (hargs : ∀ (k : Nat) (d : tensor.descriptor), descriptors[k]? = some d → args[k]? = some d)
    (hc : computation.init g args = Except.ok c ∨
      computation.init_vector g args = Except.ok c) :
    (c.need_reorder_input i = true ↔
      ∃ d e, descriptors[i]? = some d ∧ g.expected_input_descriptor i = Except.ok e ∧
        d ≠ e) ∧
    (∀ r, c.auxiliaries_ i = some r →
      ∃ d e, descriptors[i]? = some d ∧ g.expected_input_descriptor i = Except.ok e ∧
        d ≠ e ∧ r.pd = ⟨d, e⟩ ∧ r.input.desc = d ∧ r.output.desc = e ∧
        c.inouts_[i]? = some r.input ∧ c.primitive_inputs_[i]? = some r.output) := by
  obtain ⟨hpd, hslots⟩ := create_reorder_pds_spec E pd descriptors g hg
  obtain ⟨c0, h0, h1⟩ := init_unfold g args c hc
  obtain ⟨ins, outs, hins, _, _, _, hpi0, haux0, _, _⟩ := init_internal_spec g _ _ c0 h0
  obtain ⟨_, hall_in⟩ := init_inputs_spec g _ 0 ins hins
  obtain ⟨_, hpi, _, _, hsame, hnew⟩ := connect_reorder_for_pack_spec g args c0 c 0 h1
  have hexp : ∀ e, pd.inputs[i]? = some e → g.expected_input_descriptor i = Except.ok e := by
    intro e he
    simp [descriptor_group.expected_input_descriptor, hpd, he]
  have hmain : ∀ r, c.auxiliaries_ i = some r →
      ∃ d e, descriptors[i]? = some d ∧ g.expected_input_descriptor i = Except.ok e ∧
        d ≠ e ∧ r.pd = ⟨d, e⟩ ∧ r.input.desc = d ∧ r.output.desc = e ∧
        c.inouts_[i]? = some r.input ∧ c.primitive_inputs_[i]? = some r.output := by
    intro r hr
    rcases hslots i with ⟨hnone, _⟩ | ⟨d, e, hd, he, hde, hsome⟩
    · have := (hsame i (Or.inr (Or.inr hnone))).1
      rw [this, haux0] at hr
      exact absurd hr (by simp)
    · have hlt : i < 0 + args.length := by
        have := lt_length_of_getElem? _ _ _ (hargs i d hd)
        omega
      obtain ⟨pin, id, d2, ha, hb, _, _, he2, hf⟩ := hnew i _ (Nat.zero_le _) hlt hsome
      simp only [Nat.sub_zero] at ha
      rw [hargs i d hd] at ha
      cases ha
      rw [he2] at hr
      cases hr
      rw [hpi0] at hb
      have hpin := (hall_in i pin hb).2
      simp only [Nat.zero_add] at hpin
      rw [hexp e he] at hpin
      cases hpin
      refine ⟨d, pin.desc, hd, hexp _ he, Ne.symm hde, rfl, rfl, rfl, hf, ?_⟩
      rw [hpi, hpi0]
      exact hb
  refine ⟨?_, hmain⟩
  constructor
  · intro hneed
    unfold computation.need_reorder_input at hneed
    cases hr : c.auxiliaries_ i with
    | none => simp [hr] at hneed
    | some r =>
      obtain ⟨d, e, h1, h2, h3, _⟩ := hmain r hr
      exact ⟨d, e, h1, h2, h3⟩
  · rintro ⟨d, e, hd, he, hde⟩
    rcases hslots i with ⟨_, hlen | ⟨d2, hd2, he2⟩⟩ | ⟨d2, e2, hd2, _, _, hsome⟩
    · have := lt_length_of_getElem? _ _ _ hd
      omega
    · rw [hd] at hd2
      cases hd2
      rw [hexp d he2] at he
      cases he
      exact absurd rfl hde
    · have hlt : i < 0 + args.length := by
        have := lt_length_of_getElem? _ _ _ (hargs i d hd)
        omega
      obtain ⟨pin, id, d3, _, _, _, _, he3, _⟩ := hnew i _ (Nat.zero_le _) hlt hsome
      simp [computation.need_reorder_input, he3]

/-- Witness of the amended C9: slot 0 of the sample convolution plan. -/
theorem C9_witness :
    ((descriptor_group.reset conv_pd).create_reorder_pds sample_engine
        [src_plain, weights_plain] = Except.ok conv_group ∧
      computation.init conv_group [src_plain, weights_plain, bias_other]
        = Except.ok conv_plan) ∧
    (conv_plan.need_reorder_input 0 = true ↔
      ∃ d e, [src_plain, weights_plain][0]? = some d ∧
        conv_group.expected_input_descriptor 0 = Except.ok e ∧ d ≠ e) :=
  have hargs : ∀ (k : Nat) (d : tensor.descriptor),
      [src_plain, weights_plain][k]? = some d →
      [src_plain, weights_plain, bias_other][k]? = some d := by
    intro k d h
    match k, h with
    | 0, h => exact h
    | 1, h => exact h
    | k + 2, h => simp at h
  ⟨⟨rfl, rfl⟩,
    (C9_reorder_iff_passed_descriptor_differs sample_engine conv_pd
      [src_plain, weights_plain] [src_plain, weights_plain, bias_other] conv_group conv_plan 0
      rfl hargs (Or.inl rfl)).1⟩

/-! ## The slots of a constructed plan never change -/

theorem connect_handle_for_pack_frame :
    ∀ (tensors : List tensor) (c : computation) (index : Nat),
      (c.connect_handle_for_pack index tensors).plan.inouts_ = c.inouts_ ∧
      (c.connect_handle_for_pack index tensors).plan.primitive_inputs_ = c.primitive_inputs_ := by
  intro tensors
  induction tensors with
  | nil => intro c index; exact ⟨rfl, rfl⟩
  | cons first rest ih =>
    intro c index
    obtain ⟨h1, h2, _, _⟩ := connect_handle_for_frame c index first
    unfold computation.connect_handle_for_pack
    cases hr : c.connect_handle_for index first with
    | mk c1 failure =>
      rw [hr] at h1 h2
      cases failure with
      | none =>
        obtain ⟨h3, h4⟩ := ih c1 (index + 1)
        exact ⟨h3.trans h1, h4.trans h2⟩
      | some e => exact ⟨h1, h2⟩

theorem connect_handle_for_vector_frame (c : computation) (inputs : List tensor)
    (output : tensor) :
    (c.connect_handle_for_vector inputs output).plan.inouts_ = c.inouts_ ∧
    (c.connect_handle_for_vector inputs output).plan.primitive_inputs_ =
      c.primitive_inputs_ := by
  obtain ⟨h1, h2⟩ := connect_handle_for_pack_frame inputs c 0
  unfold computation.connect_handle_for_vector
  cases hr : c.connect_handle_for_pack 0 inputs with
  | mk c1 failure =>
    rw [hr] at h1 h2
    cases failure with
    | none =>
      obtain ⟨h3, h4, _, _⟩ := connect_handle_for_frame c1 inputs.length output
      exact ⟨h3.trans h1, h4.trans h2⟩
    | some e => exact ⟨h1, h2⟩

theorem primitive_group_execute_plan (E : engine) (c : computation) :
    (primitive_group.execute E c).plan = c := by
  unfold primitive_group.execute
  split <;> rfl

theorem call_apply_frame (E : engine) (c : computation) (k : call) :
    (k.apply E c).inouts_ = c.inouts_ ∧
    (k.apply E c).primitive_inputs_ = c.primitive_inputs_ := by
  cases k with
  | connect_handle_for index atensor =>
    obtain ⟨h1, h2, _, _⟩ := connect_handle_for_frame c index atensor
    exact ⟨h1, h2⟩
  | connect_handle_for_pack index tensors => exact connect_handle_for_pack_frame tensors c index
  | connect_handle_for_vector inputs output => exact connect_handle_for_vector_frame c inputs output
  | execute args =>
    obtain ⟨h1, h2⟩ := connect_handle_for_pack_frame args c 0
    simp only [call.apply, computation.execute]
    cases hr : c.connect_handle_for_pack 0 args with
    | mk c1 failure =>
      rw [hr] at h1 h2
      cases failure with
      | none =>
        simp only [primitive_group_execute_plan]
        exact ⟨h1, h2⟩
      | some e => exact ⟨h1, h2⟩
  | execute_vector inputs outputs =>
    obtain ⟨h1, h2⟩ := connect_handle_for_vector_frame c inputs outputs
    simp only [call.apply, computation.execute_vector]
    cases hr : c.connect_handle_for_vector inputs outputs with
    | mk c1 failure =>
      rw [hr] at h1 h2
      cases failure with
      | none =>
        simp only [primitive_group_execute_plan]
        exact ⟨h1, h2⟩
      | some e => exact ⟨h1, h2⟩
  | primitive_group_execute =>
    simp [call.apply, primitive_group_execute_plan]

/-- C10: whatever sequence of binds and executes is made on a plan, failing calls included,
both slot vectors are afterwards what they were: `inouts_` and `primitive_inputs_` keep
their sizes, and every element keeps its memory primitive and with it its descriptor, so
the slot count and the per-slot descriptors are those `init` left; what the calls change
is the handle store (and the reorders they discard). -/
theorem C10_slots_and_descriptors_invariant (E : engine) (calls : List call)
    (c : computation) :
    (c.run E calls).inouts_ = c.inouts_ ∧
    (c.run E calls).primitive_inputs_ = c.primitive_inputs_ ∧
    (c.run E calls).inouts_.length = c.inouts_.length ∧
    (c.run E calls).primitive_inputs_.length = c.primitive_inputs_.length ∧
    (c.run E calls).num_of_inputs = c.num_of_inputs ∧
    (c.run E calls).num_of_outputs = c.num_of_outputs ∧
    (c.run E calls).inouts_.map param.desc = c.inouts_.map param.desc ∧
    (c.run E calls).primitive_inputs_.map param.desc = c.primitive_inputs_.map param.desc := by
  have key : ∀ (calls : List call) (c : computation),
      (c.run E calls).inouts_ = c.inouts_ ∧
      (c.run E calls).primitive_inputs_ = c.primitive_inputs_ := by
    intro calls
    induction calls with
    | nil => intro c; exact ⟨rfl, rfl⟩
    | cons k rest ih =>
      intro c
      obtain ⟨h1, h2⟩ := call_apply_frame E c k
      obtain ⟨h3, h4⟩ := ih (k.apply E c)
      exact ⟨h3.trans h1, h4.trans h2⟩
  obtain ⟨h1, h2⟩ := key calls c
  simp only [computation.num_of_inputs, computation.num_of_outputs, h1, h2]
  simp

/-! ## The invariant holds on every plan a caller can reach -/

theorem connect_handle_for_pack_well_formed :
    ∀ (tensors : List tensor) (c : computation) (index : Nat), c.well_formed →
      (c.connect_handle_for_pack index tensors).plan.well_formed := by
  intro tensors
  induction tensors with
  | nil => intro c index h; exact h
  | cons first rest ih =>
    intro c index h
    have h1 := connect_handle_for_well_formed c index first h
    unfold computation.connect_handle_for_pack
    cases hr : c.connect_handle_for index first with
    | mk c1 failure =>
      rw [hr] at h1
      cases failure with
      | none => exact ih c1 (index + 1) h1
      | some e => exact h1

theorem connect_handle_for_vector_well_formed (c : computation) (inputs : List tensor)
    (output : tensor) (h : c.well_formed) :
    (c.connect_handle_for_vector inputs output).plan.well_formed := by
  have h1 := connect_handle_for_pack_well_formed inputs c 0 h
  unfold computation.connect_handle_for_vector
  cases hr : c.connect_handle_for_pack 0 inputs with
  | mk c1 failure =>
    rw [hr] at h1
    cases failure with
    | none => exact connect_handle_for_well_formed c1 inputs.length output h1
    | some e => exact h1

theorem call_apply_well_formed (E : engine) (c : computation) (k : call)
    (h : c.well_formed) : (k.apply E c).well_formed := by
  cases k with
  | connect_handle_for index atensor => exact connect_handle_for_well_formed c index atensor h
  | connect_handle_for_pack index tensors =>
    exact connect_handle_for_pack_well_formed tensors c index h
  | connect_handle_for_vector inputs output =>
    exact connect_handle_for_vector_well_formed c inputs output h
  | execute args =>
    have h1 := connect_handle_for_pack_well_formed args c 0 h
    simp only [call.apply, computation.execute]
    cases hr : c.connect_handle_for_pack 0 args with
    | mk c1 failure =>
      rw [hr] at h1
      cases failure with
      | none =>
        simp only [primitive_group_execute_plan]
        exact h1
      | some e => exact h1
  | execute_vector inputs outputs =>
    have h1 := connect_handle_for_vector_well_formed c inputs outputs h
    simp only [call.apply, computation.execute_vector]
    cases hr : c.connect_handle_for_vector inputs outputs with
    | mk c1 failure =>
      rw [hr] at h1
      cases failure with
      | none =>
        simp only [primitive_group_execute_plan]
        exact h1
      | some e => exact h1
  | primitive_group_execute =>
    simp only [call.apply, primitive_group_execute_plan]
    exact h

/-- Every plan reached from a plan `init` returned, by any sequence of binds and executes,
satisfies the invariant. -/
theorem run_well_formed (E : engine) (adesc : descriptor_group)
    (args : List tensor.descriptor) (c : computation)
    (h : computation.init adesc args = Except.ok c ∨
      computation.init_vector adesc args = Except.ok c) (calls : List call) :
    (c.run E calls).well_formed := by
  have key : ∀ (calls : List call) (c : computation), c.well_formed →
      (c.run E calls).well_formed := by
    intro calls
    induction calls with
    | nil => intro c hc; exact hc
    | cons k rest ih =>
      intro c hc
      exact ih (k.apply E c) (call_apply_well_formed E c k hc)
  exact key calls c (init_well_formed adesc args c h)

/-! ## Construction succeeds on the descriptor groups `create_reorder_pds` returns -/

theorem init_inputs_total (adesc : descriptor_group) :
    ∀ (k i : Nat), i + k ≤ adesc.num_of_inputs →
      ∃ ps, computation.init_inputs adesc k i = Except.ok ps := by
  intro k
  induction k with
  | zero => intro i _; exact ⟨[], rfl⟩
  | succ k ih =>
    intro i h
    unfold descriptor_group.num_of_inputs at h
    have hlt : i < adesc.pd.inputs.length := by omega
    obtain ⟨ps, hps⟩ := ih (i + 1) (by unfold descriptor_group.num_of_inputs; omega)
    refine ⟨⟨i, adesc.pd.inputs[i]⟩ :: ps, ?_⟩
    simp [computation.init_inputs, descriptor_group.expected_input_descriptor,
      List.getElem?_eq_getElem hlt, hps]

theorem init_outputs_total (adesc : descriptor_group) (n_inputs : Nat) :
    ∀ (k i : Nat), i + k ≤ adesc.num_of_outputs →
      ∃ ps, computation.init_outputs adesc n_inputs k i = Except.ok ps := by
  intro k
  induction k with
  | zero => intro i _; exact ⟨[], rfl⟩
  | succ k ih =>
    intro i h
    unfold descriptor_group.num_of_outputs at h
    have hlt : i < adesc.pd.outputs.length := by omega
    obtain ⟨ps, hps⟩ := ih (i + 1) (by unfold descriptor_group.num_of_outputs; omega)
    refine ⟨⟨i + n_inputs, adesc.pd.outputs[i]⟩ :: ps, ?_⟩
    simp [computation.init_outputs, descriptor_group.expected_output_descriptor,
      List.getElem?_eq_getElem hlt, hps]

theorem connect_reorder_for_pack_total (adesc : descriptor_group) :
    ∀ (args : List tensor.descriptor) (c : computation) (index : Nat),
      (∀ j, adesc.need_reorder_input j = true → j < c.primitive_inputs_.length) →
      c.primitive_inputs_.length ≤ c.inouts_.length →
      ∃ c1, c.connect_reorder_for_pack index adesc args = Except.ok c1 := by
  intro args
  induction args with
  | nil => intro c index _ _; exact ⟨c, rfl⟩
  | cons first rest ih =>
    intro c index hb hs
    unfold computation.connect_reorder_for_pack
    by_cases hneed : adesc.need_reorder_input index = true
    · have hlt := hb index hneed
      have hsome : adesc.auxiliaries_ index ≠ none := by
        intro hn
        simp [descriptor_group.need_reorder_input, hn] at hneed
      obtain ⟨pd, hpd⟩ := Option.ne_none_iff_exists'.mp hsome
      have hstep : c.connect_reorder_for index adesc first =
          Except.ok
            { c with inouts_ := c.inouts_.set index ⟨c.next_id, first⟩,
                     handle := store_set c.handle c.next_id invalid_buffer,
                     next_id := c.next_id + 1,
                     auxiliaries_ := store_set c.auxiliaries_ index
                       (some ⟨pd, ⟨c.next_id, first⟩, c.primitive_inputs_[index]⟩) } := by
        have hlt2 : index < c.inouts_.length := by omega
        simp [computation.connect_reorder_for, hneed, List.getElem?_eq_getElem hlt, hlt2,
          primitive_group.create_reorder_for, hpd]
      rw [hstep]
      exact ih _ (index + 1) hb (by simpa using hs)
    · have hstep : c.connect_reorder_for index adesc first = Except.ok c := by
        simp [computation.connect_reorder_for, hneed]
      rw [hstep]
      exact ih c (index + 1) hb hs

/-- A descriptor group built by `reset(result)` and `create_reorder_pds` has reorder
descriptors on input slots only. -/
theorem create_reorder_pds_bound (E : engine) (pd : primitive_desc)
    (descriptors : List tensor.descriptor) (g : descriptor_group)
    (h : (descriptor_group.reset pd).create_reorder_pds E descriptors = Except.ok g) :
    ∀ j, g.need_reorder_input j = true → j < g.num_of_inputs := by
  obtain ⟨hpd, hslots⟩ := create_reorder_pds_spec E pd descriptors g h
  intro j hj
  rcases hslots j with ⟨hnone, _⟩ | ⟨d, e, _, he, _, _⟩
  · simp [descriptor_group.need_reorder_input, hnone] at hj
  · unfold descriptor_group.num_of_inputs
    rw [hpd]
    exact lt_length_of_getElem? _ _ _ he

/-- On a descriptor group whose reorder descriptors sit on input slots, as every group
built by `create_reorder_pds` has them, the variadic `init` returns a plan, whatever
descriptors the caller passes. -/
theorem init_total (adesc : descriptor_group) (args : List tensor.descriptor)
    (hb : ∀ j, adesc.need_reorder_input j = true → j < adesc.num_of_inputs) :
    ∃ c, computation.init adesc args = Except.ok c := by
  obtain ⟨ins, hins⟩ := init_inputs_total adesc adesc.num_of_inputs 0 (by omega)
  obtain ⟨outs, houts⟩ :=
    init_outputs_total adesc adesc.num_of_inputs adesc.num_of_outputs 0 (by omega)
  obtain ⟨hlen, _⟩ := init_inputs_spec adesc _ 0 ins hins
  have h0 : computation.init_internal adesc adesc.num_of_inputs adesc.num_of_outputs =
      Except.ok
        { prim := ⟨adesc.pd, ins, outs⟩,
          auxiliaries_ := fun _ => none,
          inouts_ := ins ++ outs,
          primitive_inputs_ := ins,
          handle := fun _ => invalid_buffer,
          next_id := adesc.num_of_inputs + adesc.num_of_outputs } := by
    simp [computation.init_internal, hins, houts]
  unfold computation.init
  simp only [h0]
  apply connect_reorder_for_pack_total adesc args _ 0
  · intro j hj
    simp only [hlen]
    exact hb j hj
  · simp

/-! ## A discarded reorder does not come back -/

/-- A bind leaves the reorder of slot `i` alone unless it offers slot `i` a tensor that
carries the expected (post-reorder) descriptor. -/
theorem connect_handle_for_keeps_reorder (c : computation) (j i : Nat) (t : tensor)
    (pin : param) (hpin : c.primitive_inputs_[i]? = some pin)
    (h : j = i → t.desc ≠ pin.desc) :
    (c.connect_handle_for j t).plan.auxiliaries_ i = c.auxiliaries_ i := by
  by_cases hj : j = i
  · subst hj
    have hd := h rfl
    unfold computation.connect_handle_for computation.connect_output computation.materialize
      computation.set_data_handle computation.dematerialize computation.reset_auxiliary
    split
    · split
      · rename_i io pin2 hio hpin2
        rw [hpin] at hpin2
        cases hpin2
        split
        · split
          · split <;> rfl
          · split
            · rename_i hexp
              exact absurd hexp.symm hd
            · rfl
        · split
          · rfl
          · split <;> rfl
      · rfl
    · split
      · rfl
      · split <;> rfl
  · rcases connect_handle_for_auxiliaries_cases c j t with hc | hc
    · rw [hc]
    · rw [hc]
      exact store_set_other _ _ _ _ (Ne.symm hj)

theorem connect_handle_for_pack_keeps_reorder (i : Nat) (pin : param) :
    ∀ (tensors : List tensor) (c : computation) (index : Nat),
      c.primitive_inputs_[i]? = some pin →
      (∀ p ∈ indexed_tensors index tensors, p.1 = i → p.2.desc ≠ pin.desc) →
      (c.connect_handle_for_pack index tensors).plan.auxiliaries_ i = c.auxiliaries_ i := by
  intro tensors
  induction tensors with
  | nil => intro c index _ _; rfl
  | cons first rest ih =>
    intro c index hpin hall
    have h1 := connect_handle_for_keeps_reorder c index i first pin hpin
      (hall (index, first) (by simp [indexed_tensors]))
    have hf := (connect_handle_for_frame c index first).2.1
    unfold computation.connect_handle_for_pack
    cases hr : c.connect_handle_for index first with
    | mk c1 failure =>
      rw [hr] at h1 hf
      cases failure with
      | none =>
        have h2 := ih c1 (index + 1) (by rw [hf]; exact hpin)
          (fun p hp => hall p (by simp [indexed_tensors, hp]))
        exact h2.trans h1
      | some e => exact h1

theorem connect_handle_for_vector_keeps_reorder (c : computation) (inputs : List tensor)
    (output : tensor) (i : Nat) (pin : param) (hpin : c.primitive_inputs_[i]? = some pin)
    (hall : ∀ p ∈ indexed_tensors 0 inputs ++ [(inputs.length, output)],
      p.1 = i → p.2.desc ≠ pin.desc) :
    (c.connect_handle_for_vector inputs output).plan.auxiliaries_ i = c.auxiliaries_ i := by
  have h1 := connect_handle_for_pack_keeps_reorder i pin inputs c 0 hpin
    (fun p hp => hall p (by simp [hp]))
  have hf := (connect_handle_for_pack_frame inputs c 0).2
  unfold computation.connect_handle_for_vector
  cases hr : c.connect_handle_for_pack 0 inputs with
  | mk c1 failure =>
    rw [hr] at h1 hf
    cases failure with
    | none =>
      have h2 := connect_handle_for_keeps_reorder c1 inputs.length i output pin
        (by rw [hf]; exact hpin) (hall (inputs.length, output) (by simp))
      exact h2.trans h1
    | some e => exact h1

theorem call_apply_keeps_reorder (E : engine) (c : computation) (k : call) (i : Nat)
    (pin : param) (hpin : c.primitive_inputs_[i]? = some pin)
    (hall : ∀ p ∈ k.binds, p.1 = i → p.2.desc ≠ pin.desc) :
    (k.apply E c).auxiliaries_ i = c.auxiliaries_ i := by
  cases k with
  | connect_handle_for index atensor =>
    exact connect_handle_for_keeps_reorder c index i atensor pin hpin
      (hall (index, atensor) (by simp [call.binds]))
  | connect_handle_for_pack index tensors =>
    exact connect_handle_for_pack_keeps_reorder i pin tensors c index hpin hall
  | connect_handle_for_vector inputs output =>
    exact connect_handle_for_vector_keeps_reorder c inputs output i pin hpin hall
  | execute args =>
    have h1 := connect_handle_for_pack_keeps_reorder i pin args c 0 hpin hall
    simp only [call.apply, computation.execute]
    cases hr : c.connect_handle_for_pack 0 args with
    | mk c1 failure =>
      rw [hr] at h1
      cases failure with
      | none =>
        simp only [primitive_group_execute_plan]
        exact h1
      | some e => exact h1
  | execute_vector inputs outputs =>
    have h1 := connect_handle_for_vector_keeps_reorder c inputs outputs i pin hpin hall
    simp only [call.apply, computation.execute_vector]
    cases hr : c.connect_handle_for_vector inputs outputs with
    | mk c1 failure =>
      rw [hr] at h1
      cases failure with
      | none =>
        simp only [primitive_group_execute_plan]
        exact h1
      | some e => exact h1
  | primitive_group_execute =>
    simp [call.apply, primitive_group_execute_plan]

/-- A sequence of calls none of which offers slot `i` a tensor with the expected
(post-reorder) descriptor leaves the reorder of slot `i` as it was. -/
theorem run_keeps_reorder (E : engine) (i : Nat) (pin : param) :
    ∀ (calls : List call) (c : computation), c.primitive_inputs_[i]? = some pin →
      (∀ k ∈ calls, ∀ p ∈ k.binds, p.1 = i → p.2.desc ≠ pin.desc) →
      (c.run E calls).auxiliaries_ i = c.auxiliaries_ i := by
  intro calls
  induction calls with
  | nil => intro c _ _; rfl
  | cons k rest ih =>
    intro c hpin hall
    have h1 := call_apply_keeps_reorder E c k i pin hpin (hall k (by simp))
    have hf := (call_apply_frame E c k).2
    have h2 := ih (k.apply E c) (by rw [hf]; exact hpin)
      (fun k2 hk2 => hall k2 (by simp [hk2]))
    exact h2.trans h1

/-- No call ever creates a reorder: a slot without one stays without one. -/
theorem run_auxiliaries_none (E : engine) (i : Nat) :
    ∀ (calls : List call) (c : computation), c.auxiliaries_ i = none →
      (c.run E calls).auxiliaries_ i = none := by
  have pack : ∀ (tensors : List tensor) (c : computation) (index : Nat),
      c.auxiliaries_ i = none →
      (c.connect_handle_for_pack index tensors).plan.auxiliaries_ i = none := by
    intro tensors
    induction tensors with
    | nil => intro c index h; exact h
    | cons first rest ih =>
      intro c index h
      have h1 : (c.connect_handle_for index first).plan.auxiliaries_ i = none := by
        cases hr : (c.connect_handle_for index first).plan.auxiliaries_ i with
        | none => rfl
        | some r =>
          have := connect_handle_for_auxiliaries c index first i r hr
          rw [h] at this
          exact absurd this (by simp)
      unfold computation.connect_handle_for_pack
      cases hr : c.connect_handle_for index first with
      | mk c1 failure =>
        rw [hr] at h1
        cases failure with
        | none => exact ih c1 (index + 1) h1
        | some e => exact h1
  have one : ∀ (c : computation) (index : Nat) (t : tensor), c.auxiliaries_ i = none →
      (c.connect_handle_for index t).plan.auxiliaries_ i = none := by
    intro c index t h
    have := pack [t] c index h
    simp only [computation.connect_handle_for_pack] at this
    cases hr : c.connect_handle_for index t with
    | mk c1 failure =>
      rw [hr] at this
      cases failure <;> simpa using this
  have vec : ∀ (c : computation) (inputs : List tensor) (output : tensor),
      c.auxiliaries_ i = none →
      (c.connect_handle_for_vector inputs output).plan.auxiliaries_ i = none := by
    intro c inputs output h
    have h1 := pack inputs c 0 h
    unfold computation.connect_handle_for_vector
    cases hr : c.connect_handle_for_pack 0 inputs with
    | mk c1 failure =>
      rw [hr] at h1
      cases failure with
      | none => exact one c1 inputs.length output h1
      | some e => exact h1
  have step : ∀ (k : call) (c : computation), c.auxiliaries_ i = none →
      (k.apply E c).auxiliaries_ i = none := by
    intro k c h
    cases k with
    | connect_handle_for index atensor => exact one c index atensor h
    | connect_handle_for_pack index tensors => exact pack tensors c index h
    | connect_handle_for_vector inputs output => exact vec c inputs output h
    | execute args =>
      have h1 := pack args c 0 h
      simp only [call.apply, computation.execute]
      cases hr : c.connect_handle_for_pack 0 args with
      | mk c1 failure =>
        rw [hr] at h1
        cases failure with
        | none =>
          simp only [primitive_group_execute_plan]
          exact h1
        | some e => exact h1
    | execute_vector inputs outputs =>
      have h1 := vec c inputs outputs h
      simp only [call.apply, computation.execute_vector]
      cases hr : c.connect_handle_for_vector inputs outputs with
      | mk c1 failure =>
        rw [hr] at h1
        cases failure with
        | none =>
          simp only [primitive_group_execute_plan]
          exact h1
        | some e => exact h1
    | primitive_group_execute =>
      simp only [call.apply, primitive_group_execute_plan]
      exact h
  intro calls
  induction calls with
  | nil => intro c h; exact h
  | cons k rest ih =>
    intro c h
    exact ih (k.apply E c) (step k c h)

/-- Both slot vectors after any sequence of calls are the vectors before it. -/
theorem run_frame (E : engine) (calls : List call) (c : computation) :
    (c.run E calls).inouts_ = c.inouts_ ∧
    (c.run E calls).primitive_inputs_ = c.primitive_inputs_ := by
  induction calls generalizing c with
  | nil => exact ⟨rfl, rfl⟩
  | cons k rest ih =>
    obtain ⟨h1, h2⟩ := call_apply_frame E c k
    obtain ⟨h3, h4⟩ := ih (k.apply E c)
    exact ⟨h3.trans h1, h4.trans h2⟩

/-- C11, refuted as stated: slot 0 of the sample convolution plan is built with a reorder,
and on the fresh plan an execute with plain operands submits it.  After one execute whose
source tensor was in the engine's layout, the same execute with plain operands succeeds
and submits the reorder of slot 1 and the operator only: the reorder of slot 0 stays
discarded. -/
theorem C11_counterexample :
    conv_plan.need_reorder_input 0 = true ∧
    (conv_plan.execute sample_engine plain_operands).submitted =
      some [primitive.reorder 0 ⟨⟨src_plain, src_blocked⟩, ⟨4, src_plain⟩, ⟨0, src_blocked⟩⟩,
        primitive.reorder 1
          ⟨⟨weights_plain, weights_blocked⟩, ⟨5, weights_plain⟩, ⟨1, weights_blocked⟩⟩,
        primitive.op conv_plan.prim] ∧
    (conv_plan.execute sample_engine blocked_source_operands).failure = none ∧
    ((conv_plan.execute sample_engine blocked_source_operands).plan.execute sample_engine
      plain_operands).failure = none ∧
    ((conv_plan.execute sample_engine blocked_source_operands).plan.execute sample_engine
      plain_operands).submitted =
      some [primitive.reorder 1
          ⟨⟨weights_plain, weights_blocked⟩, ⟨5, weights_plain⟩, ⟨1, weights_blocked⟩⟩,
        primitive.op conv_plan.prim] :=
  ⟨rfl, rfl, rfl, rfl, rfl⟩

/-- C11, amended: let slot `i` be one of the slots `execute` looks at (0 or 1), built with
a reorder `r`.  After any sequence of binds and executes in which no tensor carrying the
expected (post-reorder) descriptor was offered to slot `i`, binding slot `i` with a tensor
in the plan-visible layout succeeds and the execution sequence built next holds `r`
exactly once, as it does on the fresh plan.  Once the reorder of a slot is discarded it
stays discarded: whatever calls follow, a bind and execute submit no reorder for that
slot. -/
theorem C11_reorder_kept_until_discarded (E : engine) (c : computation) (i : Nat)
    (io pin : param) (r : reorder_primitive) (calls : List call) (t : tensor)
    (hio : c.inouts_[i]? = some io) (hpin : c.primitive_inputs_[i]? = some pin)
    (hne : io.id ≠ pin.id) (hr : c.auxiliaries_ i = some r) (hi : i < 2)
    (ht : t.desc = io.desc) :
    ((∀ k ∈ calls, ∀ p ∈ k.binds, p.1 = i → p.2.desc ≠ pin.desc) →
      ((c.run E calls).connect_handle_for i t).failure = none ∧
      (primitive_group.execution_sequence
        ((c.run E calls).connect_handle_for i t).plan).count (primitive.reorder i r) = 1 ∧
      (primitive_group.execution_sequence
        (c.connect_handle_for i t).plan).count (primitive.reorder i r) = 1) ∧
    ((c.run E calls).auxiliaries_ i = none →
      ∀ (more : List call) (u : tensor) (r2 : reorder_primitive),
        primitive.reorder i r2 ∉ primitive_group.execution_sequence
          ((((c.run E calls).run E more).connect_handle_for i u).plan)) := by
  constructor
  · intro hcalls
    have hkeep := run_keeps_reorder E i pin calls c hpin hcalls
    obtain ⟨hio2, hpin2⟩ := run_frame E calls c
    have h1 := connect_handle_for_source_keeps_reorder (c.run E calls) i t io pin r
      (by rw [hio2]; exact hio) (by rw [hpin2]; exact hpin) hne (by rw [hkeep]; exact hr) ht
    have h2 := connect_handle_for_source_keeps_reorder c i t io pin r hio hpin hne hr ht
    refine ⟨h1.1, ?_, ?_⟩
    · rw [execution_sequence_count_reorder]
      simp [hi, h1.2.2.2.1]
    · rw [execution_sequence_count_reorder]
      simp [hi, h2.2.2.2.1]
  · intro hnone more u r2 hmem
    have h1 := run_auxiliaries_none E i more (c.run E calls) hnone
    have h2 := ((mem_execution_sequence_reorder _ i r2).mp hmem).2
    have h3 := connect_handle_for_auxiliaries _ i u i r2 h2
    rw [h1] at h3
    exact absurd h3 (by simp)

/-- Witness of the amended C11: slot 0 of the sample convolution plan, after an execute
with plain operands, bound again with a plain source tensor. -/
theorem C11_witness :
    (conv_plan.inouts_[0]? = some ⟨4, src_plain⟩ ∧
      conv_plan.primitive_inputs_[0]? = some ⟨0, src_blocked⟩ ∧
      conv_plan.auxiliaries_ 0 =
        some ⟨⟨src_plain, src_blocked⟩, ⟨4, src_plain⟩, ⟨0, src_blocked⟩⟩) ∧
    (((conv_plan.run sample_engine [call.execute plain_operands]).connect_handle_for 0
      ⟨src_plain, data_handle.buffer 300⟩).failure = none ∧
    (primitive_group.execution_sequence
      ((conv_plan.run sample_engine [call.execute plain_operands]).connect_handle_for 0
        ⟨src_plain, data_handle.buffer 300⟩).plan).count
      (primitive.reorder 0 ⟨⟨src_plain, src_blocked⟩, ⟨4, src_plain⟩, ⟨0, src_blocked⟩⟩) = 1) :=
  have hcalls : ∀ k ∈ [call.execute plain_operands], ∀ p ∈ k.binds,
      p.1 = 0 → p.2.desc ≠ (⟨0, src_blocked⟩ : param).desc := by
    intro k hk p hp h0
    simp only [List.mem_singleton] at hk
    subst hk
    simp only [call.binds, plain_operands, indexed_tensors, List.mem_cons,
      List.mem_singleton, List.not_mem_nil, or_false] at hp
    rcases hp with rfl | rfl | rfl | rfl
    · decide
    · exact absurd h0 (by decide)
    · exact absurd h0 (by decide)
    · exact absurd h0 (by decide)
  have h := (C11_reorder_kept_until_discarded sample_engine conv_plan 0
    ⟨4, src_plain⟩ ⟨0, src_blocked⟩
    ⟨⟨src_plain, src_blocked⟩, ⟨4, src_plain⟩, ⟨0, src_blocked⟩⟩
    [call.execute plain_operands] ⟨src_plain, data_handle.buffer 300⟩
    rfl rfl (by decide) rfl (by decide) rfl).1 hcalls
  ⟨⟨rfl, rfl, rfl⟩, h.1, h.2.1⟩

/-! ## Claims about the facades: lease, release and reuse -/

/-- C12, evaluated where the code departs from it: `batch_normalization_backward::compute`
leaves the cache exactly as `fetch_or_create` left it, whatever its arguments: the plan it
leased is not released.  On the sample engine a call that returns normally leaves the
fingerprint leased and no plan idle, and the same call again constructs a second plan. -/
theorem C12_batch_normalization_backward_never_releases :
    (∀ (E : engine) (M : mkldnn_api)
        (cache : utils.computation_cache batch_normalization_backward)
        (src mean variance grady : tensor) (gradx_r : data_handle) (epsilon : float),
      (batch_normalization_backward.compute E M cache src mean variance grady gradx_r
        epsilon).cache =
      (cache.fetch_or_create (batch_normalization_backward.key src epsilon)
        (batch_normalization_backward.init M src.desc src.desc epsilon
          batch_normalization_flag.use_scale_shift prop_kind.backward)).1) ∧
    (batch_normalization_backward.compute sample_engine sample_bn_api
      (utils.computation_cache.empty batch_normalization_backward 1024)
      sample_src (sample_stat 11) (sample_stat 12) sample_src (data_handle.buffer 13)
      10).result = Except.ok ⟨src_blocked, data_handle.buffer 13⟩ ∧
    (batch_normalization_backward.compute sample_engine sample_bn_api
      (utils.computation_cache.empty batch_normalization_backward 1024)
      sample_src (sample_stat 11) (sample_stat 12) sample_src (data_handle.buffer 13)
      10).cache.idle.length = 0 ∧
    (batch_normalization_backward.compute sample_engine sample_bn_api
      (utils.computation_cache.empty batch_normalization_backward 1024)
      sample_src (sample_stat 11) (sample_stat 12) sample_src (data_handle.buffer 13)
      10).cache.leased = [batch_normalization_backward.key sample_src 10] ∧
    (batch_normalization_backward.compute sample_engine sample_bn_api
      (batch_normalization_backward.compute sample_engine sample_bn_api
        (utils.computation_cache.empty batch_normalization_backward 1024)
        sample_src (sample_stat 11) (sample_stat 12) sample_src (data_handle.buffer 13)
        10).cache
      sample_src (sample_stat 11) (sample_stat 12) sample_src (data_handle.buffer 13)
      10).cache.constructions = 2 := by
  refine ⟨?_, rfl, rfl, rfl, rfl⟩
  intro E M cache src mean variance grady gradx_r epsilon
  unfold batch_normalization_backward.compute
  split
  · rename_i h
    rw [h]
  · rename_i h
    rw [h]
    split
    · rfl
    · split <;> rfl

/-- C13, evaluated where the code departs from it: the fingerprint of
`batch_normalization_forward_training::compute` is derived from the source and epsilon
only.  On the sample engine a first call with momentum 0.9 constructs a plan whose
weighted sum has scales (0.9, 0.1); a second call with the same source and epsilon and
momentum 0.5 constructs nothing and runs on, and releases, that same plan, while a plan
constructed for it would have scales (0.5, 0.5). -/
theorem C13_momentum_not_in_fingerprint :
    (batch_normalization_forward_training.compute sample_engine sample_bn_api
      (utils.computation_cache.empty batch_normalization_forward_training 1024)
      sample_src (sample_stat 11) (sample_stat 12) (data_handle.buffer 13)
      (data_handle.buffer 14) (data_handle.buffer 15) (data_handle.buffer 16)
      (data_handle.buffer 17) 900000 10).result = Except.ok ⟨src_blocked, data_handle.buffer 13⟩ ∧
    (batch_normalization_forward_training.compute sample_engine sample_bn_api
      (utils.computation_cache.empty batch_normalization_forward_training 1024)
      sample_src (sample_stat 11) (sample_stat 12) (data_handle.buffer 13)
      (data_handle.buffer 14) (data_handle.buffer 15) (data_handle.buffer 16)
      (data_handle.buffer 17) 900000 10).cache.constructions = 1 ∧
    (batch_normalization_forward_training.compute sample_engine sample_bn_api
      (batch_normalization_forward_training.compute sample_engine sample_bn_api
        (utils.computation_cache.empty batch_normalization_forward_training 1024)
        sample_src (sample_stat 11) (sample_stat 12) (data_handle.buffer 13)
        (data_handle.buffer 14) (data_handle.buffer 15) (data_handle.buffer 16)
        (data_handle.buffer 17) 900000 10).cache
      sample_src (sample_stat 11) (sample_stat 12) (data_handle.buffer 23)
      (data_handle.buffer 24) (data_handle.buffer 25) (data_handle.buffer 26)
      (data_handle.buffer 27) 500000 10).result = Except.ok ⟨src_blocked, data_handle.buffer 23⟩ ∧
    (batch_normalization_forward_training.compute sample_engine sample_bn_api
      (batch_normalization_forward_training.compute sample_engine sample_bn_api
        (utils.computation_cache.empty batch_normalization_forward_training 1024)
        sample_src (sample_stat 11) (sample_stat 12) (data_handle.buffer 13)
        (data_handle.buffer 14) (data_handle.buffer 15) (data_handle.buffer 16)
        (data_handle.buffer 17) 900000 10).cache
      sample_src (sample_stat 11) (sample_stat 12) (data_handle.buffer 23)
      (data_handle.buffer 24) (data_handle.buffer 25) (data_handle.buffer 26)
      (data_handle.buffer 27) 500000 10).cache.constructions = 1 ∧
    (batch_normalization_forward_training.compute sample_engine sample_bn_api
      (batch_normalization_forward_training.compute sample_engine sample_bn_api
        (utils.computation_cache.empty batch_normalization_forward_training 1024)
        sample_src (sample_stat 11) (sample_stat 12) (data_handle.buffer 13)
        (data_handle.buffer 14) (data_handle.buffer 15) (data_handle.buffer 16)
        (data_handle.buffer 17) 900000 10).cache
      sample_src (sample_stat 11) (sample_stat 12) (data_handle.buffer 23)
      (data_handle.buffer 24) (data_handle.buffer 25) (data_handle.buffer 26)
      (data_handle.buffer 27) 500000 10).cache.idle.map (fun e => e.2.sum_.scales) =
      [[900000, 100000]] ∧
    (match batch_normalization_forward_training.init sample_bn_api sample_src.desc
        stat_desc stat_desc 500000 10 batch_normalization_flag.use_scale_shift with
      | Except.ok plan => plan.sum_.scales
      | Except.error _ => []) = [500000, 500000] :=
  ⟨rfl, rfl, rfl, rfl, rfl, rfl⟩

/-- C17, evaluated where the code departs from it: `sum::compute` never consults the cache
of its class: whatever its arguments, it leaves the idle plans and the leases as they were
and, when the constructor returns a plan, has constructed one more plan.  On the sample
engine two identical calls from an empty cache construct two plans and leave no plan
idle. -/
theorem C17_sum_constructs_on_every_call :
    (∀ (E : engine) (M : mkldnn_api) (cache : utils.computation_cache sum)
        (scales : List float) (inputs : List tensor) (raw_out : data_handle)
        (out_desc : Option tensor.descriptor),
      (sum.compute E M cache scales inputs raw_out out_desc).cache.idle = cache.idle ∧
      (sum.compute E M cache scales inputs raw_out out_desc).cache.leased = cache.leased ∧
      ∀ s, sum.init M scales (inputs.map tensor.desc) out_desc = Except.ok s →
        (sum.compute E M cache scales inputs raw_out out_desc).cache.constructions =
          cache.constructions + 1) ∧
    (sum.compute sample_engine sample_api (utils.computation_cache.empty sum 1024)
      [900000, 100000] [sample_stat 20, sample_stat 21] (data_handle.buffer 22) none).result =
      Except.ok stat_desc ∧
    (sum.compute sample_engine sample_api (utils.computation_cache.empty sum 1024)
      [900000, 100000] [sample_stat 20, sample_stat 21] (data_handle.buffer 22)
      none).cache.constructions = 1 ∧
    (sum.compute sample_engine sample_api
      (sum.compute sample_engine sample_api (utils.computation_cache.empty sum 1024)
        [900000, 100000] [sample_stat 20, sample_stat 21] (data_handle.buffer 22) none).cache
      [900000, 100000] [sample_stat 20, sample_stat 21] (data_handle.buffer 22)
      none).cache.constructions = 2 ∧
    (sum.compute sample_engine sample_api
      (sum.compute sample_engine sample_api (utils.computation_cache.empty sum 1024)
        [900000, 100000] [sample_stat 20, sample_stat 21] (data_handle.buffer 22) none).cache
      [900000, 100000] [sample_stat 20, sample_stat 21] (data_handle.buffer 22)
      none).cache.idle.length = 0 := by
  refine ⟨?_, rfl, rfl, rfl, rfl⟩
  intro E M cache scales inputs raw_out out_desc
  unfold sum.compute sum.compute_impl utils.computation_cache.construct
  cases hinit : sum.init M scales (inputs.map tensor.desc) out_desc with
  | error e => simp
  | ok s =>
    simp only []
    refine ⟨?_, ?_, ?_⟩
    · split
      · rfl
      · split <;> rfl
    · split
      · rfl
      · split <;> rfl
    · intro s2 _
      split
      · rfl
      · split <;> rfl

/-- C20, refuted as stated: on the sample engine `pooling_forward::compute` in training
mode with the average pooling algorithm returns normally a tensor that carries no
workspace. -/
theorem C20_counterexample :
    (pooling_forward.compute sample_engine sample_api
      (utils.computation_cache.empty computation 1024) sample_src [1, 3, 4, 4]
      (data_handle.buffer 30) [2, 2] [2, 2] [0, 0] [0, 0] algorithm.pooling_avg
      prop_kind.forward_training 0).result =
      Except.ok ⟨⟨⟨[1, 3, 4, 4], 1, 8⟩, data_handle.buffer 30⟩, none⟩ ∧
    (match (pooling_forward.compute sample_engine sample_api
        (utils.computation_cache.empty computation 1024) sample_src [1, 3, 4, 4]
        (data_handle.buffer 30) [2, 2] [2, 2] [0, 0] [0, 0] algorithm.pooling_avg
        prop_kind.forward_training 0).result with
      | Except.ok dst => dst.has_extra
      | Except.error _ => true) = false :=
  ⟨rfl, rfl⟩

theorem pooling_make_dst_has_extra (M : mkldnn_api) (comp : computation)
    (dst_r : data_handle) (aalgorithm aprop_kind : Nat) (dst : tensor_with_extra)
    (h : pooling_forward.make_dst M comp dst_r aalgorithm aprop_kind = Except.ok dst) :
    dst.has_extra = pooling_forward.with_workspace aalgorithm aprop_kind := by
  unfold pooling_forward.make_dst at h
  split at h
  · rename_i hw
    split at h
    · exact absurd h (by simp)
    · split at h
      · exact absurd h (by simp)
      · simp only [Except.ok.injEq] at h
        subst h
        simp [tensor_with_extra.has_extra, hw]
  · rename_i hw
    split at h
    · exact absurd h (by simp)
    · simp only [Except.ok.injEq] at h
      subst h
      simp [tensor_with_extra.has_extra, hw]

/-- C20, amended: whenever `pooling_forward::compute` returns a tensor, that tensor
carries a workspace exactly when the call was in training mode (`forward_training`) and
the algorithm was `pooling_max`; so in training mode with max pooling it carries one, for
every source tensor and all pooling parameters. -/
theorem C20_workspace_iff_training_max (E : engine) (M : mkldnn_api)
    (cache : utils.computation_cache computation) (src : tensor) (dst_dims : List Nat)
    (dst_r : data_handle) (strides kernel padding_l padding_r : List Int)
    (aalgorithm aprop_kind apadding_kind : Nat) (dst : tensor_with_extra)
    (h : (pooling_forward.compute E M cache src dst_dims dst_r strides kernel padding_l
      padding_r aalgorithm aprop_kind apadding_kind).result = Except.ok dst) :
    (dst.has_extra = true ↔
      (aprop_kind = prop_kind.forward_training ∧ aalgorithm = algorithm.pooling_max)) := by
  have hw : dst.has_extra = pooling_forward.with_workspace aalgorithm aprop_kind := by
    unfold pooling_forward.compute at h
    split at h
    · exact absurd h (by simp)
    · simp only [utils.guarded_release, pooling_forward.compute_scope] at h
      split at h
      · exact absurd h (by simp)
      · rename_i hd
        split at h
        · exact absurd h (by simp)
        · simp only [Except.ok.injEq] at h
          subst h
          exact pooling_make_dst_has_extra M _ dst_r aalgorithm aprop_kind _ hd
  rw [hw]
  simp [pooling_forward.with_workspace]

/-- Witness of the amended C20: max pooling in training mode on the sample engine. -/
theorem C20_witness :
    (pooling_forward.compute sample_engine sample_api
      (utils.computation_cache.empty computation 1024) sample_src [1, 3, 4, 4]
      (data_handle.buffer 30) [2, 2] [2, 2] [0, 0] [0, 0] algorithm.pooling_max
      prop_kind.forward_training 0).result =
      Except.ok ⟨⟨⟨[1, 3, 4, 4], 1, 8⟩, data_handle.buffer 30⟩,
        some ⟨⟨[1, 3, 4, 4], 4, 8⟩, data_handle.scratch 0⟩⟩ ∧
    ((⟨⟨⟨[1, 3, 4, 4], 1, 8⟩, data_handle.buffer 30⟩,
        some ⟨⟨[1, 3, 4, 4], 4, 8⟩, data_handle.scratch 0⟩⟩ : tensor_with_extra).has_extra
        = true ↔
      (prop_kind.forward_training = prop_kind.forward_training ∧
        algorithm.pooling_max = algorithm.pooling_max)) :=
  ⟨rfl, C20_workspace_iff_training_max sample_engine sample_api
    (utils.computation_cache.empty computation 1024) sample_src [1, 3, 4, 4]
    (data_handle.buffer 30) [2, 2] [2, 2] [0, 0] [0, 0] algorithm.pooling_max
    prop_kind.forward_training 0 _ rfl⟩

/-! ## Fingerprints and the plans they stand for -/

theorem key_part_of_nat_inj (m n : Nat) (h : key_part.of_nat m = key_part.of_nat n) :
    m = n := by
  simp only [key_part.of_nat, key_part.value.injEq] at h
  exact Int.ofNat.inj h

theorem key_part_of_dims_inj (d e : List Nat) (h : key_part.of_dims d = key_part.of_dims e) :
    d = e := by
  simp only [key_part.of_dims, key_part.dims.injEq] at h
  exact List.map_injective_iff.mpr (fun _ _ hh => Int.ofNat.inj hh) h

/-- C15, refuted as stated: two requests to `convolution_forward::compute` that differ only
in the layout tag of the source tensor get the same fingerprint. -/
theorem C15_counterexample :
    src_plain.dims = src_blocked.dims ∧ src_plain.data_type = src_blocked.data_type ∧
    src_plain.format ≠ src_blocked.format ∧
    convolution_forward.key ⟨src_plain, data_handle.buffer 1⟩
        ⟨weights_plain, data_handle.buffer 2⟩ ⟨bias_x, data_handle.buffer 3⟩ [1, 4, 6, 6]
        sample_arguments =
      convolution_forward.key ⟨src_blocked, data_handle.buffer 1⟩
        ⟨weights_plain, data_handle.buffer 2⟩ ⟨bias_x, data_handle.buffer 3⟩ [1, 4, 6, 6]
        sample_arguments :=
  ⟨rfl, rfl, by decide, rfl⟩

/-- C15, amended: the fingerprint of each caching facade other than the convolutions
depends on the layout tag of its source operand (for `reorder::compute` of its input and
its output, for `eltwise_backward` of src and grady): two requests to such a facade whose
source operands differ in layout tag get different fingerprints, whatever else they
carry.  The fingerprints of the convolution facades (forward with and without bias,
backward data, backward weights with and without bias) carry no layout tag: they do not
change when the layout tags of the operands change. -/
theorem C15_layout_tags_in_fingerprints (t1 t2 u1 u2 : tensor) (f g : Nat) :
    (t1.desc.format ≠ t2.desc.format ∨ u1.desc.format ≠ u2.desc.format →
      reorder.key t1 u1 ≠ reorder.key t2 u2) ∧
    (t1.desc.format ≠ t2.desc.format →
      (∀ (d1 d2 : List Nat) (s1 s2 k1 k2 l1 l2 r1 r2 : List Int) (a1 a2 p1 p2 q1 q2 : Nat),
        pooling_forward.key t1 d1 s1 k1 l1 r1 a1 p1 q1 ≠
          pooling_forward.key t2 d2 s2 k2 l2 r2 a2 p2 q2) ∧
      (∀ (n1 n2 : Int) (x1 x2 y1 y2 z1 z2 : float) (a1 a2 p1 p2 : Nat),
        lrn_forward.key t1 n1 x1 y1 z1 a1 p1 ≠ lrn_forward.key t2 n2 x2 y2 z2 a2 p2) ∧
      (∀ (n1 n2 : Int) (x1 x2 y1 y2 z1 z2 : float) (a1 a2 : Nat),
        lrn_backward.key t1 n1 x1 y1 z1 a1 ≠ lrn_backward.key t2 n2 x2 y2 z2 a2) ∧
      (∀ (args1 args2 : List key_part),
        eltwise_forward.key t1 args1 ≠ eltwise_forward.key t2 args2) ∧
      (∀ (args1 args2 : List key_part),
        eltwise_backward.key t1 u1 args1 ≠ eltwise_backward.key t2 u2 args2 ∧
        eltwise_backward.key u1 t1 args1 ≠ eltwise_backward.key u2 t2 args2) ∧
      (∀ (e1 e2 : float),
        batch_normalization_forward_inference.key t1 e1 ≠
          batch_normalization_forward_inference.key t2 e2 ∧
        batch_normalization_forward_inference.key_statistics t1 e1 ≠
          batch_normalization_forward_inference.key_statistics t2 e2 ∧
        batch_normalization_forward_training.key t1 e1 ≠
          batch_normalization_forward_training.key t2 e2 ∧
        batch_normalization_backward.key t1 e1 ≠ batch_normalization_backward.key t2 e2)) ∧
    (∀ (bias : tensor) (rd : List Nat) (a : convolution_forward.arguments)
        (args : List key_part),
      convolution_forward.key ⟨{ t1.desc with format := f }, t1.handle⟩
          ⟨{ u1.desc with format := g }, u1.handle⟩ bias rd a =
        convolution_forward.key t1 u1 bias rd a ∧
      convolution_forward.key_no_bias ⟨{ t1.desc with format := f }, t1.handle⟩
          ⟨{ u1.desc with format := g }, u1.handle⟩ rd a =
        convolution_forward.key_no_bias t1 u1 rd a ∧
      convolution_backward_data.key ⟨{ t1.desc with format := f }, t1.handle⟩
          ⟨{ u1.desc with format := g }, u1.handle⟩ rd args =
        convolution_backward_data.key t1 u1 rd args ∧
      convolution_backward_weights.key ⟨{ t1.desc with format := f }, t1.handle⟩
          ⟨{ u1.desc with format := g }, u1.handle⟩ rd args =
        convolution_backward_weights.key t1 u1 rd args ∧
      convolution_backward_weights.key_bias ⟨{ t1.desc with format := f }, t1.handle⟩
          ⟨{ u1.desc with format := g }, u1.handle⟩ rd args =
        convolution_backward_weights.key_bias t1 u1 rd args) := by
  refine ⟨?_, ?_, ?_⟩
  · intro h hk
    simp only [reorder.key, utils.create_key, List.cons.injEq] at hk
    rcases h with h | h
    · exact h (key_part_of_nat_inj _ _ hk.2.2.1)
    · exact h (key_part_of_nat_inj _ _ hk.2.2.2.2.2.1)
  · intro h
    refine ⟨?_, ?_, ?_, ?_, ?_, ?_⟩
    · intro d1 d2 s1 s2 k1 k2 l1 l2 r1 r2 a1 a2 p1 p2 q1 q2 hk
      simp only [pooling_forward.key, utils.create_key, List.cons.injEq] at hk
      exact h (key_part_of_nat_inj _ _ hk.2.2.1)
    · intro n1 n2 x1 x2 y1 y2 z1 z2 a1 a2 p1 p2 hk
      simp only [lrn_forward.key, utils.create_key, List.cons.injEq] at hk
      exact h (key_part_of_nat_inj _ _ hk.2.2.1)
    · intro n1 n2 x1 x2 y1 y2 z1 z2 a1 a2 hk
      simp only [lrn_backward.key, utils.create_key, List.cons.injEq] at hk
      exact h (key_part_of_nat_inj _ _ hk.2.2.1)
    · intro args1 args2 hk
      simp only [eltwise_forward.key, utils.create_key, List.cons_append, List.nil_append,
        List.cons.injEq] at hk
      exact h (key_part_of_nat_inj _ _ hk.2.2.1)
    · intro args1 args2
      constructor
      · intro hk
        simp only [eltwise_backward.key, utils.create_key, List.cons_append, List.nil_append,
          List.cons.injEq] at hk
        exact h (key_part_of_nat_inj _ _ hk.2.2.1)
      · intro hk
        simp only [eltwise_backward.key, utils.create_key, List.cons_append, List.nil_append,
          List.cons.injEq] at hk
        exact h (key_part_of_nat_inj _ _ hk.2.2.2.1)
    · intro e1 e2
      refine ⟨?_, ?_, ?_, ?_⟩
      · intro hk
        simp only [batch_normalization_forward_inference.key, utils.create_key,
          List.cons.injEq] at hk
        exact h (key_part_of_nat_inj _ _ hk.2.2.1)
      · intro hk
        simp only [batch_normalization_forward_inference.key_statistics, utils.create_key,
          List.cons.injEq] at hk
        exact h (key_part_of_nat_inj _ _ hk.2.2.1)
      · intro hk
        simp only [batch_normalization_forward_training.key, utils.create_key,
          List.cons.injEq] at hk
        exact h (key_part_of_nat_inj _ _ hk.2.2.1)
      · intro hk
        simp only [batch_normalization_backward.key, utils.create_key,
          List.cons.injEq] at hk
        exact h (key_part_of_nat_inj _ _ hk.2.2.1)
  · intro bias rd a args
    exact ⟨rfl, rfl, rfl, rfl, rfl⟩

/-- Witness of the amended C15: a plain and a blocked source of the same shape and element
type get different fingerprints from `reorder::compute`. -/
theorem C15_witness :
    (src_plain.format ≠ src_blocked.format ∨ dst_blocked.format ≠ dst_blocked.format) ∧
    reorder.key ⟨src_plain, data_handle.buffer 1⟩ ⟨dst_blocked, data_handle.buffer 2⟩ ≠
      reorder.key ⟨src_blocked, data_handle.buffer 1⟩ ⟨dst_blocked, data_handle.buffer 2⟩ :=
  ⟨Or.inl (by decide),
    (C15_layout_tags_in_fingerprints ⟨src_plain, data_handle.buffer 1⟩
      ⟨src_blocked, data_handle.buffer 1⟩ ⟨dst_blocked, data_handle.buffer 2⟩
      ⟨dst_blocked, data_handle.buffer 2⟩ 0 0).1 (Or.inl (by decide))⟩

/-! ## The primary primitive of a plan never changes -/

theorem connect_handle_for_pack_prim :
    ∀ (tensors : List tensor) (c : computation) (index : Nat),
      (c.connect_handle_for_pack index tensors).plan.prim = c.prim := by
  intro tensors
  induction tensors with
  | nil => intro c index; rfl
  | cons first rest ih =>
    intro c index
    obtain ⟨_, _, h1, _⟩ := connect_handle_for_frame c index first
    unfold computation.connect_handle_for_pack
    cases hr : c.connect_handle_for index first with
    | mk c1 failure =>
      rw [hr] at h1
      cases failure with
      | none => exact (ih c1 (index + 1)).trans h1
      | some e => exact h1

theorem connect_handle_for_vector_prim (c : computation) (inputs : List tensor)
    (output : tensor) : (c.connect_handle_for_vector inputs output).plan.prim = c.prim := by
  have h1 := connect_handle_for_pack_prim inputs c 0
  unfold computation.connect_handle_for_vector
  cases hr : c.connect_handle_for_pack 0 inputs with
  | mk c1 failure =>
    rw [hr] at h1
    cases failure with
    | none =>
      obtain ⟨_, _, h3, _⟩ := connect_handle_for_frame c1 inputs.length output
      exact h3.trans h1
    | some e => exact h1

theorem execute_prim (E : engine) (c : computation) (args : List tensor) :
    (c.execute E args).plan.prim = c.prim := by
  have h1 := connect_handle_for_pack_prim args c 0
  simp only [computation.execute]
  cases hr : c.connect_handle_for_pack 0 args with
  | mk c1 failure =>
    rw [hr] at h1
    cases failure with
    | none =>
      simp only [primitive_group_execute_plan]
      exact h1
    | some e => exact h1

theorem call_apply_prim (E : engine) (c : computation) (k : call) :
    (k.apply E c).prim = c.prim := by
  cases k with
  | connect_handle_for index atensor => exact (connect_handle_for_frame c index atensor).2.2.1
  | connect_handle_for_pack index tensors => exact connect_handle_for_pack_prim tensors c index
  | connect_handle_for_vector inputs output => exact connect_handle_for_vector_prim c inputs output
  | execute args => exact execute_prim E c args
  | execute_vector inputs outputs =>
    have h1 := connect_handle_for_vector_prim c inputs outputs
    simp only [call.apply, computation.execute_vector]
    cases hr : c.connect_handle_for_vector inputs outputs with
    | mk c1 failure =>
      rw [hr] at h1
      cases failure with
      | none =>
        simp only [primitive_group_execute_plan]
        exact h1
      | some e => exact h1
  | primitive_group_execute =>
    simp [call.apply, primitive_group_execute_plan]

theorem run_prim (E : engine) :
    ∀ (calls : List call) (c : computation), (c.run E calls).prim = c.prim := by
  intro calls
  induction calls with
  | nil => intro c; rfl
  | cons k rest ih =>
    intro c
    exact (ih (k.apply E c)).trans (call_apply_prim E c k)

/-- In a plan built by `init` from a descriptor group that `create_reorder_pds` made over
the primitive descriptor `pd`: the primary primitive is over `pd`, the expected params are
the input descriptors of `pd` one by one, and a slot that got a param of its own holds
another descriptor than the primitive expects there. -/
theorem built_slots (E : engine) (pd : primitive_desc)
    (descriptors args : List tensor.descriptor) (g : descriptor_group) (c : computation)
    (hg : (descriptor_group.reset pd).create_reorder_pds E descriptors = Except.ok g)
    (hargs : ∀ (k : Nat) (d : tensor.descriptor), descriptors[k]? = some d → args[k]? = some d)
    (hc : computation.init g args = Except.ok c) :
    c.prim.pd = pd ∧
    c.primitive_inputs_.map param.desc = pd.inputs ∧
    (∀ (i : Nat) (io pin : param), c.inouts_[i]? = some io →
      c.primitive_inputs_[i]? = some pin → io.id ≠ pin.id → io.desc ≠ pin.desc) := by
  obtain ⟨hpd, hslots⟩ := create_reorder_pds_spec E pd descriptors g hg
  obtain ⟨c0, h0, h1⟩ := init_unfold g args c (Or.inl hc)
  obtain ⟨ins, outs, hins, _, hprim0, hio0, hpi0, haux0, _, _⟩ := init_internal_spec g _ _ c0 h0
  obtain ⟨hlen_in, hall_in⟩ := init_inputs_spec g _ 0 ins hins
  obtain ⟨hprim, hpi, _, _, hsame, hnew⟩ := connect_reorder_for_pack_spec g args c0 c 0 h1
  have hdesc : ∀ (i : Nat) (pin : param), ins[i]? = some pin → pd.inputs[i]? = some pin.desc := by
    intro i pin hi
    have := (hall_in i pin hi).2
    simp only [Nat.zero_add, descriptor_group.expected_input_descriptor, hpd] at this
    split at this
    · rename_i d hd
      simp only [Except.ok.injEq] at this
      rw [hd, this]
    · exact absurd this (by simp)
  refine ⟨?_, ?_, ?_⟩
  · rw [hprim, hprim0, hpd]
  · rw [hpi, hpi0]
    apply List.ext_getElem?
    intro i
    rw [List.getElem?_map]
    cases hi : ins[i]? with
    | none =>
      have h1 : ins.length ≤ i := List.getElem?_eq_none_iff.mp hi
      have h2 : pd.inputs.length ≤ i := by
        rw [hlen_in, descriptor_group.num_of_inputs, hpd] at h1
        exact h1
      simp [List.getElem?_eq_none_iff.mpr h2]
    | some pin => simp [hdesc i pin hi]
  · intro i io pin hio hpin hne
    rw [hpi, hpi0] at hpin
    rcases hslots i with ⟨hnone, _⟩ | ⟨d, e, hd, he, hde, hsome⟩
    · have hkeep := (hsame i (Or.inr (Or.inr hnone))).2
      rw [hkeep, hio0, List.getElem?_append_left (lt_length_of_getElem? _ _ _ hpin), hpin] at hio
      cases hio
      exact absurd rfl hne
    · have hlt : i < 0 + args.length := by
        have := lt_length_of_getElem? _ _ _ (hargs i d hd)
        omega
      obtain ⟨pin2, id, d2, ha, hb, _, _, _, hf⟩ := hnew i _ (Nat.zero_le _) hlt hsome
      simp only [Nat.sub_zero] at ha
      rw [hargs i d hd] at ha
      cases ha
      rw [hf] at hio
      cases hio
      have hp := hdesc i pin hpin
      rw [he] at hp
      cases hp
      exact Ne.symm hde

/-! ## Binding a tensor that is already in the expected layout -/

theorem bind_expected_none (c : computation) (hwf : c.well_formed)
    (hown : ∀ (i : Nat) (io pin : param), c.inouts_[i]? = some io →
      c.primitive_inputs_[i]? = some pin → io.id ≠ pin.id → io.desc ≠ pin.desc)
    (i : Nat) (t : tensor) (pin : param) (hpin : c.primitive_inputs_[i]? = some pin)
    (ht : t.desc = pin.desc) :
    (c.connect_handle_for i t).plan.auxiliaries_ i = none := by
  have hlt : i < c.inouts_.length :=
    Nat.lt_of_lt_of_le (lt_length_of_getElem? _ _ _ hpin) hwf.sizes
  have hio : c.inouts_[i]? = some c.inouts_[i] := List.getElem?_eq_getElem hlt
  by_cases hid : c.inouts_[i].id = pin.id
  · cases hr : (c.connect_handle_for i t).plan.auxiliaries_ i with
    | none => rfl
    | some r =>
      have h0 := connect_handle_for_auxiliaries c i t i r hr
      obtain ⟨io2, pin2, h1, h2, h3, _, _⟩ := hwf.reorders i r h0
      rw [hio] at h1
      rw [hpin] at h2
      cases h1
      cases h2
      exact absurd hid h3
  · have hvis : c.inouts_[i].desc ≠ t.desc := by
      rw [ht]
      exact hown i _ pin hio hpin hid
    rw [connect_handle_for_expected c i t _ pin hio hpin hid hvis ht.symm]
    simp [computation.reset_auxiliary, store_set]

theorem pack_auxiliaries_none (i : Nat) (tensors : List tensor) (c : computation)
    (index : Nat) (h : c.auxiliaries_ i = none) :
    (c.connect_handle_for_pack index tensors).plan.auxiliaries_ i = none := by
  have := run_auxiliaries_none sample_engine i [call.connect_handle_for_pack index tensors] c h
  simpa [computation.run, call.apply] using this

theorem pack_expected_none :
    ∀ (tensors : List tensor) (c : computation) (index : Nat), c.well_formed →
      (∀ (i : Nat) (io pin : param), c.inouts_[i]? = some io →
        c.primitive_inputs_[i]? = some pin → io.id ≠ pin.id → io.desc ≠ pin.desc) →
      ∀ (j : Nat) (t : tensor) (pin : param), tensors[j]? = some t →
        c.primitive_inputs_[index + j]? = some pin → t.desc = pin.desc →
        (c.connect_handle_for_pack index tensors).failure = none →
        (c.connect_handle_for_pack index tensors).plan.auxiliaries_ (index + j) = none := by
  intro tensors
  induction tensors with
  | nil => intro c index _ _ j t pin hj; simp at hj
  | cons first rest ih =>
    intro c index hwf hown j t pin hj hpin ht hok
    obtain ⟨f1, f2, _, _⟩ := connect_handle_for_frame c index first
    have hwf1 := connect_handle_for_well_formed c index first hwf
    unfold computation.connect_handle_for_pack at hok ⊢
    cases hr : c.connect_handle_for index first with
    | mk c1 failure =>
      rw [hr] at f1 f2 hwf1 hok
      simp only at f1 f2 hwf1
      cases failure with
      | some e => simp at hok
      | none =>
        simp only at hok ⊢
        cases j with
        | zero =>
          simp only [List.getElem?_cons_zero, Option.some.injEq] at hj
          subst hj
          have h0 := bind_expected_none c hwf hown index first pin hpin ht
          rw [hr] at h0
          exact pack_auxiliaries_none index rest c1 (index + 1) h0
        | succ j =>
          simp only [List.getElem?_cons_succ] at hj
          have hown1 : ∀ (i : Nat) (io pin : param), c1.inouts_[i]? = some io →
              c1.primitive_inputs_[i]? = some pin → io.id ≠ pin.id → io.desc ≠ pin.desc := by
            rw [f1, f2]
            exact hown
          have hidx : index + (j + 1) = index + 1 + j := by omega
          rw [hidx] at hpin ⊢
          rw [← f2] at hpin
          exact ih c1 (index + 1) hwf1 hown1 j t pin hj hpin ht hok

/-- A call of `execute` whose tensor for position `j` carries the descriptor the primary
primitive expects there submits no reorder for slot `j`. -/
theorem execute_expected_no_reorder (E : engine) (c : computation) (hwf : c.well_formed)
    (hown : ∀ (i : Nat) (io pin : param), c.inouts_[i]? = some io →
      c.primitive_inputs_[i]? = some pin → io.id ≠ pin.id → io.desc ≠ pin.desc)
    (args : List tensor) (j : Nat) (t : tensor) (pin : param) (hj : args[j]? = some t)
    (hpin : c.primitive_inputs_[j]? = some pin) (ht : t.desc = pin.desc)
    (seq : List primitive) (hseq : (c.execute E args).submitted = some seq)
    (r : reorder_primitive) : primitive.reorder j r ∉ seq := by
  have hmain := pack_expected_none args c 0 hwf hown j t pin hj (by simpa using hpin) ht
  simp only [Nat.zero_add] at hmain
  unfold computation.execute at hseq
  cases hr : c.connect_handle_for_pack 0 args with
  | mk c1 failure =>
    rw [hr] at hseq hmain
    cases failure with
    | some e => simp at hseq
    | none =>
      have haux : c1.auxiliaries_ j = none := hmain rfl
      simp only [primitive_group.execute] at hseq
      have hs : seq = primitive_group.execution_sequence c1 := by
        split at hseq <;> simp at hseq <;> exact hseq.symm
      rw [hs, mem_execution_sequence_reorder, haux]
      simp

/-! ## The guarded scope of the convolution facade -/

theorem reconcile_spec (E : engine) (rc : utils.computation_cache reorder)
    (calls : List (Nat × tensor × tensor)) (x : tensor) (expected : tensor.descriptor)
    (owner : Nat) :
    (x.desc = expected →
      convolution_forward.reconcile E rc calls x expected owner = (rc, calls, Except.ok x)) ∧
    (x.desc ≠ expected →
      (convolution_forward.reconcile E rc calls x expected owner).2.1 =
        calls ++ [(owner, x, ⟨expected, data_handle.scratch owner⟩)]) ∧
    (∀ y, (convolution_forward.reconcile E rc calls x expected owner).2.2 = Except.ok y →
      y.desc = expected) := by
  refine ⟨?_, ?_, ?_⟩
  · intro h
    simp [convolution_forward.reconcile, h]
  · intro h
    simp only [convolution_forward.reconcile, if_pos h]
    split <;> rfl
  · intro y hy
    by_cases h : x.desc = expected
    · simp only [convolution_forward.reconcile, h, ne_eq, not_true_eq_false, if_false,
        Except.ok.injEq] at hy
      rw [← hy]
      exact h
    · simp only [convolution_forward.reconcile, ne_eq, h, not_false_eq_true, if_true] at hy
      split at hy
      · simp only [Except.ok.injEq] at hy
        rw [← hy]
      · exact absurd hy (by simp)

/-- What the scope of `compute_impl` with bias does on a leased plan: every call of
`reorder::compute` is for an operand whose descriptor differs from the expected one, and
when the scope reaches `execute` it hands over tensors that carry the expected descriptors
(the caller's own tensor where that one already carries it), bias as given and a result
tensor over the expected dst descriptor. -/
theorem compute_impl_scope_spec (E : engine) (M : mkldnn_api)
    (rc : utils.computation_cache reorder) (src weights bias : tensor) (result : data_handle)
    (comp : computation) :
    (∀ q ∈ (convolution_forward.compute_impl_scope E M rc src weights bias result
        comp).2.reorder_calls,
      (q.1 = 0 ∧ primitive_group.expected_src_descriptor M comp ≠ Except.ok src.desc) ∨
      (q.1 = 1 ∧
        primitive_group.expected_weights_descriptor M comp ≠ Except.ok weights.desc)) ∧
    (∀ args, (convolution_forward.compute_impl_scope E M rc src weights bias result
        comp).2.bound = some args →
      ∃ es ew ed src_in weights_in,
        primitive_group.expected_src_descriptor M comp = Except.ok es ∧
        primitive_group.expected_weights_descriptor M comp = Except.ok ew ∧
        primitive_group.expected_dst_descriptor M comp = Except.ok ed ∧
        args = [src_in, weights_in, bias, ⟨ed, result⟩] ∧
        src_in.desc = es ∧ weights_in.desc = ew ∧
        (src.desc = es → src_in = src) ∧ (weights.desc = ew → weights_in = weights)) ∧
    (∀ args, (convolution_forward.compute_impl_scope E M rc src weights bias result
        comp).2.bound = some args →
      (convolution_forward.compute_impl_scope E M rc src weights bias result comp).1 =
        (comp.execute E args).plan ∧
      (convolution_forward.compute_impl_scope E M rc src weights bias result
        comp).2.submitted = (comp.execute E args).submitted ∧
      ∀ d, (convolution_forward.compute_impl_scope E M rc src weights bias result
          comp).2.result = Except.ok d →
        (comp.execute E args).failure = none ∧
        primitive_group.expected_dst_descriptor M (comp.execute E args).plan = Except.ok d) ∧
    ((convolution_forward.compute_impl_scope E M rc src weights bias result
        comp).2.bound = none →
      (convolution_forward.compute_impl_scope E M rc src weights bias result comp).1 = comp ∧
      (convolution_forward.compute_impl_scope E M rc src weights bias result
        comp).2.submitted = none ∧
      ∃ e, (convolution_forward.compute_impl_scope E M rc src weights bias result
        comp).2.result = Except.error e) := by
  unfold convolution_forward.compute_impl_scope
  cases h1 : primitive_group.expected_src_descriptor M comp with
  | error e => simp
  | ok es =>
    simp only []
    obtain ⟨ra, rb, rc0⟩ := reconcile_spec E rc [] src es 0
    cases hr1 : convolution_forward.reconcile E rc [] src es 0 with
    | mk rc1 rest1 =>
      cases rest1 with
      | mk calls1 res1 =>
        rw [hr1] at ra rb rc0
        simp only at ra rb rc0
        have hcalls1 : ∀ q ∈ calls1, q.1 = 0 ∧ Except.ok es ≠
            (Except.ok src.desc : Except error tensor.descriptor) := by
          intro q hq
          by_cases hs : src.desc = es
          · have := ra hs
            simp only [Prod.mk.injEq] at this
            rw [this.2.1] at hq
            simp at hq
          · rw [rb hs] at hq
            simp only [List.nil_append, List.mem_singleton] at hq
            subst hq
            exact ⟨rfl, fun h => hs (by simp only [Except.ok.injEq] at h; exact h.symm)⟩
        cases res1 with
        | error e =>
          simp only
          refine ⟨fun q hq => Or.inl (hcalls1 q hq), by simp, by simp, by simp⟩
        | ok src_in =>
          simp only
          cases h2 : primitive_group.expected_weights_descriptor M comp with
          | error e =>
            simp only
            refine ⟨fun q hq => Or.inl (hcalls1 q hq), by simp, by simp, by simp⟩
          | ok ew =>
            simp only []
            obtain ⟨wa, wb, wc0⟩ := reconcile_spec E rc1 calls1 weights ew 1
            cases hr2 : convolution_forward.reconcile E rc1 calls1 weights ew 1 with
            | mk rc2 rest2 =>
              cases rest2 with
              | mk calls2 res2 =>
                rw [hr2] at wa wb wc0
                simp only at wa wb wc0
                have hcalls2 : ∀ q ∈ calls2,
                    (q.1 = 0 ∧ Except.ok es ≠
                      (Except.ok src.desc : Except error tensor.descriptor)) ∨
                    (q.1 = 1 ∧ Except.ok ew ≠
                      (Except.ok weights.desc : Except error tensor.descriptor)) := by
                  intro q hq
                  by_cases hs : weights.desc = ew
                  · have := wa hs
                    simp only [Prod.mk.injEq] at this
                    rw [this.2.1] at hq
                    exact Or.inl (hcalls1 q hq)
                  · rw [wb hs] at hq
                    simp only [List.mem_append, List.mem_singleton] at hq
                    rcases hq with hq | hq
                    · exact Or.inl (hcalls1 q hq)
                    · subst hq
                      exact Or.inr ⟨rfl,
                        fun h => hs (by simp only [Except.ok.injEq] at h; exact h.symm)⟩
                cases res2 with
                | error e =>
                  simp only
                  refine ⟨hcalls2, by simp, by simp, by simp⟩
                | ok weights_in =>
                  simp only
                  cases h3 : primitive_group.expected_dst_descriptor M comp with
                  | error e =>
                    simp only
                    refine ⟨hcalls2, by simp, by simp, by simp⟩
                  | ok ed =>
                    simp only
                    have hsrc : src.desc = es → src_in = src := by
                      intro hs
                      have := ra hs
                      simp only [Prod.mk.injEq, Except.ok.injEq] at this
                      exact this.2.2
                    have hwei : weights.desc = ew → weights_in = weights := by
                      intro hs
                      have := wa hs
                      simp only [Prod.mk.injEq, Except.ok.injEq] at this
                      exact this.2.2
                    cases hex : comp.execute E
                        [src_in, weights_in, bias, ⟨ed, result⟩] with
                    | mk comp1 failure submitted =>
                      cases failure with
                      | some e =>
                        simp only
                        refine ⟨hcalls2, ?_, ?_, by simp⟩
                        · intro args hargs
                          simp only [Option.some.injEq] at hargs
                          exact ⟨es, ew, ed, src_in, weights_in, rfl, rfl, rfl, hargs.symm,
                            rc0 _ rfl, wc0 _ rfl, hsrc, hwei⟩
                        · intro args hargs
                          simp only [Option.some.injEq] at hargs
                          subst hargs
                          rw [hex]
                          simp
                      | none =>
                        simp only
                        refine ⟨hcalls2, ?_, ?_, by simp⟩
                        · intro args hargs
                          simp only [Option.some.injEq] at hargs
                          exact ⟨es, ew, ed, src_in, weights_in, rfl, rfl, rfl, hargs.symm,
                            rc0 _ rfl, wc0 _ rfl, hsrc, hwei⟩
                        · intro args hargs
                          simp only [Option.some.injEq] at hargs
                          subst hargs
                          rw [hex]
                          simp

/-- What the scope of `compute_impl` without bias does on a leased plan: as with bias,
except that `execute` gets source, weights and the result tensor only. -/
theorem compute_impl_no_bias_scope_spec (E : engine) (M : mkldnn_api)
    (rc : utils.computation_cache reorder) (src weights : tensor) (result : data_handle)
    (comp : computation) :
    (∀ q ∈ (convolution_forward.compute_impl_no_bias_scope E M rc src weights result
        comp).2.reorder_calls,
      (q.1 = 0 ∧ primitive_group.expected_src_descriptor M comp ≠ Except.ok src.desc) ∨
      (q.1 = 1 ∧
        primitive_group.expected_weights_descriptor M comp ≠ Except.ok weights.desc)) ∧
    (∀ args, (convolution_forward.compute_impl_no_bias_scope E M rc src weights result
        comp).2.bound = some args →
      ∃ es ew ed src_in weights_in,
        primitive_group.expected_src_descriptor M comp = Except.ok es ∧
        primitive_group.expected_weights_descriptor M comp = Except.ok ew ∧
        primitive_group.expected_dst_descriptor M comp = Except.ok ed ∧
        args = [src_in, weights_in, ⟨ed, result⟩] ∧
        src_in.desc = es ∧ weights_in.desc = ew ∧
        (src.desc = es → src_in = src) ∧ (weights.desc = ew → weights_in = weights)) ∧
    (∀ args, (convolution_forward.compute_impl_no_bias_scope E M rc src weights result
        comp).2.bound = some args →
      (convolution_forward.compute_impl_no_bias_scope E M rc src weights result comp).1 =
        (comp.execute E args).plan ∧
      (convolution_forward.compute_impl_no_bias_scope E M rc src weights result
        comp).2.submitted = (comp.execute E args).submitted ∧
      ∀ d, (convolution_forward.compute_impl_no_bias_scope E M rc src weights result
          comp).2.result = Except.ok d →
        (comp.execute E args).failure = none ∧
        primitive_group.expected_dst_descriptor M (comp.execute E args).plan = Except.ok d) ∧
    ((convolution_forward.compute_impl_no_bias_scope E M rc src weights result
        comp).2.bound = none →
      (convolution_forward.compute_impl_no_bias_scope E M rc src weights result comp).1 = comp ∧
      (convolution_forward.compute_impl_no_bias_scope E M rc src weights result
        comp).2.submitted = none ∧
      ∃ e, (convolution_forward.compute_impl_no_bias_scope E M rc src weights result
        comp).2.result = Except.error e) := by
  unfold convolution_forward.compute_impl_no_bias_scope
  cases h1 : primitive_group.expected_src_descriptor M comp with
  | error e => simp
  | ok es =>
    simp only []
    obtain ⟨ra, rb, rc0⟩ := reconcile_spec E rc [] src es 0
    cases hr1 : convolution_forward.reconcile E rc [] src es 0 with
    | mk rc1 rest1 =>
      cases rest1 with
      | mk calls1 res1 =>
        rw [hr1] at ra rb rc0
        simp only at ra rb rc0
        have hcalls1 : ∀ q ∈ calls1, q.1 = 0 ∧ Except.ok es ≠
            (Except.ok src.desc : Except error tensor.descriptor) := by
          intro q hq
          by_cases hs : src.desc = es
          · have := ra hs
            simp only [Prod.mk.injEq] at this
            rw [this.2.1] at hq
            simp at hq
          · rw [rb hs] at hq
            simp only [List.nil_append, List.mem_singleton] at hq
            subst hq
            exact ⟨rfl, fun h => hs (by simp only [Except.ok.injEq] at h; exact h.symm)⟩
        cases res1 with
        | error e =>
          simp only
          refine ⟨fun q hq => Or.inl (hcalls1 q hq), by simp, by simp, by simp⟩
        | ok src_in =>
          simp only
          cases h2 : primitive_group.expected_weights_descriptor M comp with
          | error e =>
            simp only
            refine ⟨fun q hq => Or.inl (hcalls1 q hq), by simp, by simp, by simp⟩
          | ok ew =>
            simp only []
            obtain ⟨wa, wb, wc0⟩ := reconcile_spec E rc1 calls1 weights ew 1
            cases hr2 : convolution_forward.reconcile E rc1 calls1 weights ew 1 with
            | mk rc2 rest2 =>
              cases rest2 with
              | mk calls2 res2 =>
                rw [hr2] at wa wb wc0
                simp only at wa wb wc0
                have hcalls2 : ∀ q ∈ calls2,
                    (q.1 = 0 ∧ Except.ok es ≠
                      (Except.ok src.desc : Except error tensor.descriptor)) ∨
                    (q.1 = 1 ∧ Except.ok ew ≠
                      (Except.ok weights.desc : Except error tensor.descriptor)) := by
                  intro q hq
                  by_cases hs : weights.desc = ew
                  · have := wa hs
                    simp only [Prod.mk.injEq] at this
                    rw [this.2.1] at hq
                    exact Or.inl (hcalls1 q hq)
                  · rw [wb hs] at hq
                    simp only [List.mem_append, List.mem_singleton] at hq
                    rcases hq with hq | hq
                    · exact Or.inl (hcalls1 q hq)
                    · subst hq
                      exact Or.inr ⟨rfl,
                        fun h => hs (by simp only [Except.ok.injEq] at h; exact h.symm)⟩
                cases res2 with
                | error e =>
                  simp only
                  refine ⟨hcalls2, by simp, by simp, by simp⟩
                | ok weights_in =>
                  simp only
                  cases h3 : primitive_group.expected_dst_descriptor M comp with
                  | error e =>
                    simp only
                    refine ⟨hcalls2, by simp, by simp, by simp⟩
                  | ok ed =>
                    simp only
                    have hsrc : src.desc = es → src_in = src := by
                      intro hs
                      have := ra hs
                      simp only [Prod.mk.injEq, Except.ok.injEq] at this
                      exact this.2.2
                    have hwei : weights.desc = ew → weights_in = weights := by
                      intro hs
                      have := wa hs
                      simp only [Prod.mk.injEq, Except.ok.injEq] at this
                      exact this.2.2
                    cases hex : comp.execute E
                        [src_in, weights_in, ⟨ed, result⟩] with
                    | mk comp1 failure submitted =>
                      cases failure with
                      | some e =>
                        simp only
                        refine ⟨hcalls2, ?_, ?_, by simp⟩
                        · intro args hargs
                          simp only [Option.some.injEq] at hargs
                          exact ⟨es, ew, ed, src_in, weights_in, rfl, rfl, rfl, hargs.symm,
                            rc0 _ rfl, wc0 _ rfl, hsrc, hwei⟩
                        · intro args hargs
                          simp only [Option.some.injEq] at hargs
                          subst hargs
                          rw [hex]
                          simp
                      | none =>
                        simp only
                        refine ⟨hcalls2, ?_, ?_, by simp⟩
                        · intro args hargs
                          simp only [Option.some.injEq] at hargs
                          exact ⟨es, ew, ed, src_in, weights_in, rfl, rfl, rfl, hargs.symm,
                            rc0 _ rfl, wc0 _ rfl, hsrc, hwei⟩
                        · intro args hargs
                          simp only [Option.some.injEq] at hargs
                          subst hargs
                          rw [hex]
                          simp

/-! ## Plans the convolution facade constructs -/

theorem descriptor_reorder_pds (E : engine) (a : convolution_forward.arguments)
    (sd wd bd dd : tensor.descriptor) (g : descriptor_group)
    (h : a.descriptor E sd wd bd dd = Except.ok g) :
    (descriptor_group.reset g.pd).create_reorder_pds E [sd, wd] = Except.ok g := by
  unfold convolution_forward.arguments.descriptor at h
  split at h
  · unfold convolution_forward.descriptor at h
    split at h
    · split at h
      · exact absurd h (by simp)
      · rename_i pd hpd
        rw [(create_reorder_pds_spec E pd _ g h).1]
        exact h
    · exact absurd h (by simp)
  · unfold convolution_forward.descriptor_dilated at h
    split at h
    · split at h
      · exact absurd h (by simp)
      · rename_i pd hpd
        rw [(create_reorder_pds_spec E pd _ g h).1]
        exact h
    · exact absurd h (by simp)

theorem descriptor_no_bias_reorder_pds (E : engine) (a : convolution_forward.arguments)
    (sd wd dd : tensor.descriptor) (g : descriptor_group)
    (h : a.descriptor_no_bias E sd wd dd = Except.ok g) :
    (descriptor_group.reset g.pd).create_reorder_pds E [sd, wd] = Except.ok g := by
  unfold convolution_forward.arguments.descriptor_no_bias at h
  split at h
  · unfold convolution_forward.descriptor_no_bias at h
    split at h
    · split at h
      · exact absurd h (by simp)
      · rename_i pd hpd
        rw [(create_reorder_pds_spec E pd _ g h).1]
        exact h
    · exact absurd h (by simp)
  · unfold convolution_forward.descriptor_dilated_no_bias at h
    split at h
    · split at h
      · exact absurd h (by simp)
      · rename_i pd hpd
        rw [(create_reorder_pds_spec E pd _ g h).1]
        exact h
    · exact absurd h (by simp)

/-- A plan constructed by either constructor of `convolution_forward`, after any calls:
it satisfies the invariant of constructed plans, its primary primitive is the one
constructed, its expected params carry the input descriptors of the primitive descriptor,
and a slot with a param of its own holds another descriptor than expected there. -/
theorem constructed_invariants (E : engine) (sd wd bd dd : tensor.descriptor)
    (a : convolution_forward.arguments) (c0 : computation)
    (h : convolution_forward.construct E sd wd bd dd a = Except.ok c0 ∨
      convolution_forward.construct_no_bias E sd wd dd a = Except.ok c0)
    (calls : List call) :
    (c0.run E calls).well_formed ∧ (c0.run E calls).prim = c0.prim ∧
    (c0.run E calls).primitive_inputs_.map param.desc = c0.prim.pd.inputs ∧
    (∀ (i : Nat) (io pin : param), (c0.run E calls).inouts_[i]? = some io →
      (c0.run E calls).primitive_inputs_[i]? = some pin → io.id ≠ pin.id →
      io.desc ≠ pin.desc) := by
  have key : ∃ g args, (descriptor_group.reset g.pd).create_reorder_pds E [sd, wd]
        = Except.ok g ∧
      (∀ (k : Nat) (d : tensor.descriptor), [sd, wd][k]? = some d → args[k]? = some d) ∧
      computation.init g args = Except.ok c0 := by
    rcases h with h | h
    · unfold convolution_forward.construct at h
      split at h
      · exact absurd h (by simp)
      · rename_i g hg
        refine ⟨g, [sd, wd, bd], descriptor_reorder_pds E a sd wd bd dd g hg, ?_, h⟩
        intro k d hk
        match k, hk with
        | 0, hk => exact hk
        | 1, hk => exact hk
        | k + 2, hk => simp at hk
    · unfold convolution_forward.construct_no_bias at h
      split at h
      · exact absurd h (by simp)
      · rename_i g hg
        exact ⟨g, [sd, wd], descriptor_no_bias_reorder_pds E a sd wd dd g hg,
          fun k d hk => hk, h⟩
  obtain ⟨g, args, hg, hargs, hc⟩ := key
  obtain ⟨b1, b2, b3⟩ := built_slots E g.pd [sd, wd] args g c0 hg hargs hc
  obtain ⟨f1, f2⟩ := run_frame E calls c0
  refine ⟨run_well_formed E g args c0 (Or.inl hc) calls, run_prim E calls c0, ?_, ?_⟩
  · rw [f2, b2, b1]
  · rw [f1, f2]
    exact b3

theorem expected_param (c : computation) (d : tensor.descriptor) (i : Nat)
    (hmap : c.primitive_inputs_.map param.desc = c.prim.pd.inputs)
    (h : c.prim.pd.inputs[i]? = some d) :
    ∃ pin, c.primitive_inputs_[i]? = some pin ∧ pin.desc = d := by
  rw [← hmap, List.getElem?_map] at h
  cases hp : c.primitive_inputs_[i]? with
  | none => simp [hp] at h
  | some pin =>
    simp only [hp, Option.map_some', Option.some.injEq] at h
    exact ⟨pin, rfl, h⟩

theorem expected_descriptor_of_ok (M : mkldnn_api) (c : computation) (q : query) (i : Nat)
    (d : tensor.descriptor)
    (h : primitive_group.expected_descriptor_of M c q i = Except.ok d) :
    M.primitive_desc_query_pd c.prim.pd q i = some d := by
  unfold primitive_group.expected_descriptor_of at h
  split at h
  · rename_i e he
    simp only [Except.ok.injEq] at h
    rw [he, h]
  · exact absurd h (by simp)

theorem scope_no_reorder (E : engine) (c : computation) (hwf : c.well_formed)
    (hmap : c.primitive_inputs_.map param.desc = c.prim.pd.inputs)
    (hown : ∀ (i : Nat) (io pin : param), c.inouts_[i]? = some io →
      c.primitive_inputs_[i]? = some pin → io.id ≠ pin.id → io.desc ≠ pin.desc)
    (j : Nat) (x : tensor) (hx : c.prim.pd.inputs[j]? = some x.desc)
    (args : List tensor) (hargs : args[j]? = some x)
    (seq : List primitive) (hseq : (c.execute E args).submitted = some seq)
    (r : reorder_primitive) : primitive.reorder j r ∉ seq := by
  obtain ⟨pin, hpin, hd⟩ := expected_param c x.desc j hmap hx
  exact execute_expected_no_reorder E c hwf hown args j x pin hargs hpin hd.symm seq hseq r

/-- C18: on a plan the facade constructed, fresh or used by any calls since (so built for
whatever source and weights layouts), with the engine's `src_pd` and `weights_pd` queries
answering the descriptors of inputs 0 and 1: when the src tensor's descriptor equals the
plan's expected src descriptor, the scope of `compute_impl` calls `reorder::compute` for
no operand at position 0 and the execution sequence submitted holds no reorder for slot 0;
likewise for weights, position 1 and slot 1.  Both overloads of `compute_impl`. -/
theorem C18_expected_layout_invokes_no_reorder (E : engine) (M : mkldnn_api)
    (rc : utils.computation_cache reorder) (sd wd bd dd : tensor.descriptor)
    (a : convolution_forward.arguments) (c0 : computation) (calls : List call)
    (src weights bias : tensor) (result : data_handle)
    (hbuilt : convolution_forward.construct E sd wd bd dd a = Except.ok c0 ∨
      convolution_forward.construct_no_bias E sd wd dd a = Except.ok c0)
    (hsrc_pd : M.primitive_desc_query_pd c0.prim.pd query.src_pd 0 = c0.prim.pd.inputs[0]?)
    (hweights_pd :
      M.primitive_desc_query_pd c0.prim.pd query.weights_pd 0 = c0.prim.pd.inputs[1]?) :
    (primitive_group.expected_src_descriptor M (c0.run E calls) = Except.ok src.desc →
      (∀ q ∈ (convolution_forward.compute_impl_scope E M rc src weights bias result
          (c0.run E calls)).2.reorder_calls, q.1 ≠ 0) ∧
      (∀ seq, (convolution_forward.compute_impl_scope E M rc src weights bias result
          (c0.run E calls)).2.submitted = some seq → ∀ r, primitive.reorder 0 r ∉ seq) ∧
      (∀ q ∈ (convolution_forward.compute_impl_no_bias_scope E M rc src weights result
          (c0.run E calls)).2.reorder_calls, q.1 ≠ 0) ∧
      (∀ seq, (convolution_forward.compute_impl_no_bias_scope E M rc src weights result
          (c0.run E calls)).2.submitted = some seq → ∀ r, primitive.reorder 0 r ∉ seq)) ∧
    (primitive_group.expected_weights_descriptor M (c0.run E calls)
        = Except.ok weights.desc →
      (∀ q ∈ (convolution_forward.compute_impl_scope E M rc src weights bias result
          (c0.run E calls)).2.reorder_calls, q.1 ≠ 1) ∧
      (∀ seq, (convolution_forward.compute_impl_scope E M rc src weights bias result
          (c0.run E calls)).2.submitted = some seq → ∀ r, primitive.reorder 1 r ∉ seq) ∧
      (∀ q ∈ (convolution_forward.compute_impl_no_bias_scope E M rc src weights result
          (c0.run E calls)).2.reorder_calls, q.1 ≠ 1) ∧
      (∀ seq, (convolution_forward.compute_impl_no_bias_scope E M rc src weights result
          (c0.run E calls)).2.submitted = some seq → ∀ r, primitive.reorder 1 r ∉ seq)) := by
  obtain ⟨hwf, hprim, hmap, hown⟩ := constructed_invariants E sd wd bd dd a c0 hbuilt calls
  rw [← hprim] at hsrc_pd hweights_pd hmap
  obtain ⟨A, B, C, D⟩ := compute_impl_scope_spec E M rc src weights bias result (c0.run E calls)
  obtain ⟨A2, B2, C2, D2⟩ :=
    compute_impl_no_bias_scope_spec E M rc src weights result (c0.run E calls)
  constructor
  · intro hexp
    have hx : (c0.run E calls).prim.pd.inputs[0]? = some src.desc := by
      rw [← hsrc_pd]
      exact expected_descriptor_of_ok M _ _ _ _ hexp
    refine ⟨?_, ?_, ?_, ?_⟩
    · intro q hq h0
      rcases A q hq with ⟨_, hne⟩ | ⟨h1, _⟩
      · exact hne hexp
      · omega
    · intro seq hseq r
      cases hb : (convolution_forward.compute_impl_scope E M rc src weights bias result
          (c0.run E calls)).2.bound with
      | none =>
        rw [(D hb).2.1] at hseq
        exact absurd hseq (by simp)
      | some args =>
        obtain ⟨es, ew, ed, src_in, weights_in, h1, _, _, hargs, _, _, hs, _⟩ := B args hb
        rw [hexp] at h1
        simp only [Except.ok.injEq] at h1
        rw [(C args hb).2.1] at hseq
        exact scope_no_reorder E _ hwf hmap hown 0 src hx args
          (by rw [hargs, hs h1]; rfl) seq hseq r
    · intro q hq h0
      rcases A2 q hq with ⟨_, hne⟩ | ⟨h1, _⟩
      · exact hne hexp
      · omega
    · intro seq hseq r
      cases hb : (convolution_forward.compute_impl_no_bias_scope E M rc src weights result
          (c0.run E calls)).2.bound with
      | none =>
        rw [(D2 hb).2.1] at hseq
        exact absurd hseq (by simp)
      | some args =>
        obtain ⟨es, ew, ed, src_in, weights_in, h1, _, _, hargs, _, _, hs, _⟩ := B2 args hb
        rw [hexp] at h1
        simp only [Except.ok.injEq] at h1
        rw [(C2 args hb).2.1] at hseq
        exact scope_no_reorder E _ hwf hmap hown 0 src hx args
          (by rw [hargs, hs h1]; rfl) seq hseq r
  · intro hexp
    have hx : (c0.run E calls).prim.pd.inputs[1]? = some weights.desc := by
      rw [← hweights_pd]
      exact expected_descriptor_of_ok M _ _ _ _ hexp
    refine ⟨?_, ?_, ?_, ?_⟩
    · intro q hq h0
      rcases A q hq with ⟨h1, _⟩ | ⟨_, hne⟩
      · omega
      · exact hne hexp
    · intro seq hseq r
      cases hb : (convolution_forward.compute_impl_scope E M rc src weights bias result
          (c0.run E calls)).2.bound with
      | none =>
        rw [(D hb).2.1] at hseq
        exact absurd hseq (by simp)
      | some args =>
        obtain ⟨es, ew, ed, src_in, weights_in, _, h1, _, hargs, _, _, _, hs⟩ := B args hb
        rw [hexp] at h1
        simp only [Except.ok.injEq] at h1
        rw [(C args hb).2.1] at hseq
        exact scope_no_reorder E _ hwf hmap hown 1 weights hx args
          (by rw [hargs, hs h1]; rfl) seq hseq r
    · intro q hq h0
      rcases A2 q hq with ⟨h1, _⟩ | ⟨_, hne⟩
      · omega
      · exact hne hexp
    · intro seq hseq r
      cases hb : (convolution_forward.compute_impl_no_bias_scope E M rc src weights result
          (c0.run E calls)).2.bound with
      | none =>
        rw [(D2 hb).2.1] at hseq
        exact absurd hseq (by simp)
      | some args =>
        obtain ⟨es, ew, ed, src_in, weights_in, _, h1, _, hargs, _, _, _, hs⟩ := B2 args hb
        rw [hexp] at h1
        simp only [Except.ok.injEq] at h1
        rw [(C2 args hb).2.1] at hseq
        exact scope_no_reorder E _ hwf hmap hown 1 weights hx args
          (by rw [hargs, hs h1]; rfl) seq hseq r

/-- Witness of C18: the sample plan, constructed for plain source and weights and used by
one call with plain operands, still holds both reorders; a call with a blocked source and
plain weights then calls `reorder::compute` for the weights only and submits no reorder
for slot 0. -/
theorem C18_witness :
    (convolution_forward.construct sample_engine src_plain weights_plain bias_x
        (tensor.descriptor.of_dims [1, 4, 6, 6] 1) sample_arguments = Except.ok conv_plan ∧
      ((conv_plan.run sample_engine [call.execute plain_operands]).auxiliaries_ 0).isSome
        = true ∧
      primitive_group.expected_src_descriptor sample_api
        (conv_plan.run sample_engine [call.execute plain_operands]) = Except.ok src_blocked) ∧
    ((convolution_forward.compute_impl_scope sample_engine sample_api
        (utils.computation_cache.empty reorder 1024) ⟨src_blocked, data_handle.buffer 40⟩
        ⟨weights_plain, data_handle.buffer 41⟩ ⟨bias_x, data_handle.buffer 42⟩
        (data_handle.buffer 43)
        (conv_plan.run sample_engine [call.execute plain_operands])).2.reorder_calls.map
          Prod.fst = [1] ∧
      (convolution_forward.compute_impl_scope sample_engine sample_api
        (utils.computation_cache.empty reorder 1024) ⟨src_blocked, data_handle.buffer 40⟩
        ⟨weights_plain, data_handle.buffer 41⟩ ⟨bias_x, data_handle.buffer 42⟩
        (data_handle.buffer 43)
        (conv_plan.run sample_engine [call.execute plain_operands])).2.submitted.isSome
          = true) ∧
    ((∀ q ∈ (convolution_forward.compute_impl_scope sample_engine sample_api
        (utils.computation_cache.empty reorder 1024) ⟨src_blocked, data_handle.buffer 40⟩
        ⟨weights_plain, data_handle.buffer 41⟩ ⟨bias_x, data_handle.buffer 42⟩
        (data_handle.buffer 43)
        (conv_plan.run sample_engine [call.execute plain_operands])).2.reorder_calls,
        q.1 ≠ 0) ∧
      (∀ seq, (convolution_forward.compute_impl_scope sample_engine sample_api
        (utils.computation_cache.empty reorder 1024) ⟨src_blocked, data_handle.buffer 40⟩
        ⟨weights_plain, data_handle.buffer 41⟩ ⟨bias_x, data_handle.buffer 42⟩
        (data_handle.buffer 43)
        (conv_plan.run sample_engine [call.execute plain_operands])).2.submitted = some seq →
        ∀ r, primitive.reorder 0 r ∉ seq)) :=
  have h := (C18_expected_layout_invokes_no_reorder sample_engine sample_api
    (utils.computation_cache.empty reorder 1024) src_plain weights_plain bias_x
    (tensor.descriptor.of_dims [1, 4, 6, 6] 1) sample_arguments conv_plan
    [call.execute plain_operands] ⟨src_blocked, data_handle.buffer 40⟩
    ⟨weights_plain, data_handle.buffer 41⟩ ⟨bias_x, data_handle.buffer 42⟩
    (data_handle.buffer 43) (Or.inl rfl) rfl rfl).1 rfl
  ⟨⟨rfl, rfl, rfl⟩, ⟨rfl, rfl⟩, h.1, h.2.1⟩

/-! ## The cache of the convolution facade -/

theorem take_idle_mem {α : Type} (key : key_t) :
    ∀ (idle : List (key_t × α)) (p : α) (others : List (key_t × α)),
      utils.take_idle idle key = some (p, others) →
      (key, p) ∈ idle ∧ ∀ e ∈ others, e ∈ idle := by
  intro idle
  induction idle with
  | nil => intro p others h; simp [utils.take_idle] at h
  | cons head rest ih =>
    intro p others h
    obtain ⟨k, q⟩ := head
    unfold utils.take_idle at h
    by_cases hk : k = key
    · simp only [hk, if_true, Option.some.injEq, Prod.mk.injEq] at h
      obtain ⟨h1, h2⟩ := h
      subst h1 h2 hk
      exact ⟨List.mem_cons_self _ _, fun e he => List.mem_cons_of_mem _ he⟩
    · simp only [hk, if_false] at h
      cases hr : utils.take_idle rest key with
      | none => simp [hr] at h
      | some found =>
        obtain ⟨q2, others2⟩ := found
        simp only [hr, Option.some.injEq, Prod.mk.injEq] at h
        obtain ⟨h1, h2⟩ := h
        subst h1 h2
        obtain ⟨i1, i2⟩ := ih q2 others2 hr
        refine ⟨List.mem_cons_of_mem _ i1, ?_⟩
        intro e he
        rcases List.mem_cons.mp he with he | he
        · rw [he]
          exact List.mem_cons_self _ _
        · exact List.mem_cons_of_mem _ (i2 e he)

/-- The cache of the class after a call of `compute_impl` without bias: what
`fetch_or_create` left when the constructor threw, else that with the plan released under
the fingerprint as the scope left it. -/
theorem compute_impl_no_bias_caches (E : engine) (M : mkldnn_api)
    (W : convolution_forward.caches) (src weights : tensor) (result_dims : List Nat)
    (result : data_handle) (a : convolution_forward.arguments) :
    (convolution_forward.compute_impl_no_bias E M W src weights result_dims result
        a).caches.convolution_forward =
      (match W.convolution_forward.fetch_or_create
          (convolution_forward.key_no_bias src weights result_dims a)
          (convolution_forward.construct_no_bias E src.desc weights.desc
            (tensor.descriptor.of_dims result_dims src.desc.data_type) a) with
        | (cache1, Except.error _) => cache1
        | (cache1, Except.ok comp) =>
          cache1.release (convolution_forward.key_no_bias src weights result_dims a)
            (convolution_forward.compute_impl_no_bias_scope E M W.reorder src weights result
              comp).1) := by
  unfold convolution_forward.compute_impl_no_bias
  split
  · rename_i h
    simp [h]
  · rename_i h
    simp [h, utils.guarded_release]

/-- A call on a cache that holds one idle plan, under the fingerprint of the call, leases
that plan and releases it again: the cache holds one idle plan as before, nothing is
leased and nothing was constructed. -/
theorem compute_impl_no_bias_reuses (E : engine) (M : mkldnn_api)
    (W : convolution_forward.caches) (src weights : tensor) (result_dims : List Nat)
    (result : data_handle) (a : convolution_forward.arguments) (p : computation)
    (hcap : 0 < W.convolution_forward.capacity)
    (hidle : W.convolution_forward.idle =
      [(convolution_forward.key_no_bias src weights result_dims a, p)])
    (hleased : W.convolution_forward.leased = []) :
    (convolution_forward.compute_impl_no_bias E M W src weights result_dims result
        a).caches.convolution_forward =
      { W.convolution_forward with
        idle := [(convolution_forward.key_no_bias src weights result_dims a,
          (convolution_forward.compute_impl_no_bias_scope E M W.reorder src weights result
            p).1)] } := by
  rw [compute_impl_no_bias_caches]
  simp only [utils.computation_cache.fetch_or_create, hidle, utils.take_idle, if_true,
    utils.computation_cache.release, hleased, List.erase_cons_head]
  obtain ⟨n, hn⟩ : ∃ n, W.convolution_forward.capacity = n + 1 := ⟨_, (Nat.succ_pred_eq_of_pos hcap).symm⟩
  rw [hn]
  simp [hleased]

/-- The first call on an empty cache, when the constructor returns a plan. -/
theorem compute_impl_no_bias_first (E : engine) (M : mkldnn_api)
    (R : utils.computation_cache reorder) (capacity : Nat) (src weights : tensor)
    (result_dims : List Nat) (result : data_handle) (a : convolution_forward.arguments)
    (p0 : computation) (hcap : 0 < capacity)
    (hbuilt : convolution_forward.construct_no_bias E src.desc weights.desc
      (tensor.descriptor.of_dims result_dims src.desc.data_type) a = Except.ok p0) :
    (convolution_forward.compute_impl_no_bias E M
        ⟨utils.computation_cache.empty computation capacity, R⟩ src weights result_dims
        result a).caches.convolution_forward =
      { idle := [(convolution_forward.key_no_bias src weights result_dims a,
          (convolution_forward.compute_impl_no_bias_scope E M R src weights result p0).1)],
        leased := [], capacity := capacity, constructions := 1 } := by
  rw [compute_impl_no_bias_caches]
  obtain ⟨n, hn⟩ : ∃ n, capacity = n + 1 := ⟨_, (Nat.succ_pred_eq_of_pos hcap).symm⟩
  subst hn
  simp [utils.computation_cache.fetch_or_create, utils.computation_cache.empty,
    utils.take_idle, utils.computation_cache.construct, hbuilt,
    utils.computation_cache.release]

theorem key_no_bias_of_same (r r0 : convolution_forward.request)
    (h : r.src.desc.data_type = r0.src.desc.data_type ∧ r.src.desc.dims = r0.src.desc.dims ∧
      r.weights.desc.dims = r0.weights.desc.dims ∧ r.result_dims = r0.result_dims ∧
      r.args = r0.args) :
    convolution_forward.key_no_bias r.src r.weights r.result_dims r.args =
      convolution_forward.key_no_bias r0.src r0.weights r0.result_dims r0.args := by
  obtain ⟨h1, h2, h3, h4, h5⟩ := h
  simp only [convolution_forward.key_no_bias, h1, h2, h3, h4, h5]

theorem compute_all_reuses (E : engine) (M : mkldnn_api) (key : key_t) (capacity : Nat)
    (hcap : 0 < capacity) :
    ∀ (rs : List convolution_forward.request) (W : convolution_forward.caches),
      (∀ r ∈ rs, convolution_forward.key_no_bias r.src r.weights r.result_dims r.args = key) →
      (∃ p, W.convolution_forward.idle = [(key, p)]) →
      W.convolution_forward.leased = [] → W.convolution_forward.capacity = capacity →
      (∃ p, (convolution_forward.compute_all E M W rs).convolution_forward.idle
          = [(key, p)]) ∧
      (convolution_forward.compute_all E M W rs).convolution_forward.leased = [] ∧
      (convolution_forward.compute_all E M W rs).convolution_forward.capacity = capacity ∧
      (convolution_forward.compute_all E M W rs).convolution_forward.constructions =
        W.convolution_forward.constructions := by
  intro rs
  induction rs with
  | nil => intro W _ hidle hleased hc; exact ⟨hidle, hleased, hc, rfl⟩
  | cons r rest ih =>
    intro W hkeys hidle hleased hc
    obtain ⟨p, hp⟩ := hidle
    have hk := hkeys r (List.mem_cons_self _ _)
    rw [← hk] at hp
    have hstep := compute_impl_no_bias_reuses E M W r.src r.weights r.result_dims r.result
      r.args p (by rw [hc]; exact hcap) hp hleased
    have hnext := ih (r.apply E M W).caches
      (fun r2 h2 => hkeys r2 (List.mem_cons_of_mem _ h2))
      (by
        unfold convolution_forward.request.apply
        rw [hstep, hk]
        exact ⟨_, rfl⟩)
      (by
        unfold convolution_forward.request.apply
        rw [hstep]
        exact hleased)
      (by
        unfold convolution_forward.request.apply
        rw [hstep]
        exact hc)
    have hcount : (r.apply E M W).caches.convolution_forward.constructions =
        W.convolution_forward.constructions := by
      unfold convolution_forward.request.apply
      rw [hstep]
    rw [hcount] at hnext
    exact hnext

/-- C16: the fingerprint of `compute_impl` without bias is the same for requests that
agree in element type, dims of source, weights and result, and arguments, whatever their
data handles (and layout tags); and starting from an empty cache of capacity at least one,
when the constructor returns a plan for the first request, any number of successive calls
with such requests leave the cache with exactly one plan constructed, nothing leased and
one idle plan, the one the last call released, and the lease of the next such call returns
that very plan without running a constructor. -/
theorem C16_equal_requests_construct_one_plan (E : engine) (M : mkldnn_api)
    (R : utils.computation_cache reorder) (capacity : Nat)
    (r0 : convolution_forward.request) (rs : List convolution_forward.request)
    (p0 : computation) (hcap : 0 < capacity)
    (hsame : ∀ r ∈ rs, r.src.desc.data_type = r0.src.desc.data_type ∧
      r.src.desc.dims = r0.src.desc.dims ∧ r.weights.desc.dims = r0.weights.desc.dims ∧
      r.result_dims = r0.result_dims ∧ r.args = r0.args)
    (hbuilt : convolution_forward.construct_no_bias E r0.src.desc r0.weights.desc
      (tensor.descriptor.of_dims r0.result_dims r0.src.desc.data_type) r0.args
        = Except.ok p0) :
    (∀ r ∈ rs, convolution_forward.key_no_bias r.src r.weights r.result_dims r.args =
      convolution_forward.key_no_bias r0.src r0.weights r0.result_dims r0.args) ∧
    ∃ p,
      (convolution_forward.compute_all E M
        ⟨utils.computation_cache.empty computation capacity, R⟩
        (r0 :: rs)).convolution_forward =
        { idle := [(convolution_forward.key_no_bias r0.src r0.weights r0.result_dims
            r0.args, p)],
          leased := [], capacity := capacity, constructions := 1 } ∧
      ∀ (r : convolution_forward.request) (constructor : Except error computation),
        convolution_forward.key_no_bias r.src r.weights r.result_dims r.args =
          convolution_forward.key_no_bias r0.src r0.weights r0.result_dims r0.args →
        (convolution_forward.compute_all E M
          ⟨utils.computation_cache.empty computation capacity, R⟩
          (r0 :: rs)).convolution_forward.fetch_or_create
            (convolution_forward.key_no_bias r.src r.weights r.result_dims r.args)
            constructor =
          ({ idle := [],
             leased := [convolution_forward.key_no_bias r0.src r0.weights r0.result_dims
               r0.args],
             capacity := capacity, constructions := 1 }, Except.ok p) := by
  have hkeys : ∀ r ∈ rs, convolution_forward.key_no_bias r.src r.weights r.result_dims
      r.args = convolution_forward.key_no_bias r0.src r0.weights r0.result_dims r0.args :=
    fun r hr => key_no_bias_of_same r r0 (hsame r hr)
  refine ⟨hkeys, ?_⟩
  have hfirst := compute_impl_no_bias_first E M R capacity r0.src r0.weights r0.result_dims
    r0.result r0.args p0 hcap hbuilt
  obtain ⟨⟨p, hp⟩, hl, hc, hn⟩ := compute_all_reuses E M _ capacity hcap rs
    (r0.apply E M ⟨utils.computation_cache.empty computation capacity, R⟩).caches hkeys
    (by
      unfold convolution_forward.request.apply
      rw [hfirst]
      exact ⟨_, rfl⟩)
    (by
      unfold convolution_forward.request.apply
      rw [hfirst])
    (by
      unfold convolution_forward.request.apply
      rw [hfirst])
  have hn1 : (r0.apply E M
      ⟨utils.computation_cache.empty computation capacity, R⟩).caches.convolution_forward.constructions
        = 1 := by
    unfold convolution_forward.request.apply
    rw [hfirst]
  rw [hn1] at hn
  have hall : (convolution_forward.compute_all E M
      ⟨utils.computation_cache.empty computation capacity, R⟩
      (r0 :: rs)).convolution_forward =
      { idle := [(convolution_forward.key_no_bias r0.src r0.weights r0.result_dims
          r0.args, p)],
        leased := [], capacity := capacity, constructions := 1 } := by
    simp only [convolution_forward.compute_all]
    cases hcache : (convolution_forward.compute_all E M
      (r0.apply E M ⟨utils.computation_cache.empty computation capacity, R⟩).caches
      rs).convolution_forward with
    | mk idle leased cap constructions =>
      rw [hcache] at hp hl hc hn
      simp only at hp hl hc hn
      rw [hp, hl, hc, hn]
  refine ⟨p, hall, ?_⟩
  intro r constructor hk
  rw [hall, hk]
  simp [utils.computation_cache.fetch_or_create, utils.take_idle]

/-- Witness of C16: on an engine that keeps dims and element types, three calls for a
1x3x8x8 source and 4x3x3x3 weights with stride 1 and zero padding, each with buffers of its
own and the third with a source in another layout, construct one plan. -/
theorem C16_witness :
    (convolution_forward.compute_all typed_engine sample_api
      ⟨utils.computation_cache.empty computation 1024,
        utils.computation_cache.empty reorder 1024⟩
      [⟨⟨src_plain, data_handle.buffer 1⟩, ⟨weights_plain, data_handle.buffer 2⟩,
          [1, 4, 6, 6], data_handle.buffer 3, sample_arguments⟩,
        ⟨⟨src_plain, data_handle.buffer 11⟩, ⟨weights_plain, data_handle.buffer 12⟩,
          [1, 4, 6, 6], data_handle.buffer 13, sample_arguments⟩,
        ⟨⟨src_blocked, data_handle.buffer 21⟩, ⟨weights_plain, data_handle.buffer 22⟩,
          [1, 4, 6, 6], data_handle.buffer 23,
          sample_arguments⟩]).convolution_forward.constructions = 1 ∧
    ∃ p,
      (convolution_forward.compute_all typed_engine sample_api
        ⟨utils.computation_cache.empty computation 1024,
          utils.computation_cache.empty reorder 1024⟩
        [⟨⟨src_plain, data_handle.buffer 1⟩, ⟨weights_plain, data_handle.buffer 2⟩,
            [1, 4, 6, 6], data_handle.buffer 3, sample_arguments⟩,
          ⟨⟨src_plain, data_handle.buffer 11⟩, ⟨weights_plain, data_handle.buffer 12⟩,
            [1, 4, 6, 6], data_handle.buffer 13, sample_arguments⟩,
          ⟨⟨src_blocked, data_handle.buffer 21⟩, ⟨weights_plain, data_handle.buffer 22⟩,
            [1, 4, 6, 6], data_handle.buffer 23,
            sample_arguments⟩]).convolution_forward =
        { idle := [(convolution_forward.key_no_bias ⟨src_plain, data_handle.buffer 1⟩
            ⟨weights_plain, data_handle.buffer 2⟩ [1, 4, 6, 6] sample_arguments, p)],
          leased := [], capacity := 1024, constructions := 1 } :=
  have h := (C16_equal_requests_construct_one_plan typed_engine sample_api
    (utils.computation_cache.empty reorder 1024) 1024
    ⟨⟨src_plain, data_handle.buffer 1⟩, ⟨weights_plain, data_handle.buffer 2⟩,
      [1, 4, 6, 6], data_handle.buffer 3, sample_arguments⟩
    [⟨⟨src_plain, data_handle.buffer 11⟩, ⟨weights_plain, data_handle.buffer 12⟩,
        [1, 4, 6, 6], data_handle.buffer 13, sample_arguments⟩,
      ⟨⟨src_blocked, data_handle.buffer 21⟩, ⟨weights_plain, data_handle.buffer 22⟩,
        [1, 4, 6, 6], data_handle.buffer 23, sample_arguments⟩]
    _ (by decide)
    (by
      intro r hr
      simp only [List.mem_cons, List.mem_singleton, List.not_mem_nil, or_false] at hr
      rcases hr with rfl | rfl
      · exact ⟨rfl, rfl, rfl, rfl, rfl⟩
      · exact ⟨rfl, rfl, rfl, rfl, rfl⟩)
    rfl).2
  ⟨rfl, Exists.elim h (fun p hp => ⟨p, hp.1⟩)⟩

/-! ## The plans the cache of the convolution facade holds -/

/-- C25: `reorder::operator()` called with an input descriptor other than the descriptor
of `in`, or an output descriptor other than the descriptor of `out`, fails its assertion;
the reorder is left as it was, so no handle was rebound, and nothing reached
`mkldnn_stream_submit`. -/
theorem C25_reorder_call_mismatch_fails (E : engine) (r : reorder) (input output : tensor)
    (h : input.desc ≠ r.in_.desc ∨ output.desc ≠ r.out.desc) :
    (reorder.call E r input output).failure = some error.assertion ∧
    (reorder.call E r input output).plan = r ∧
    (reorder.call E r input output).submitted = none := by
  have hn : ¬ (input.desc = r.in_.desc ∧ output.desc = r.out.desc) := by
    rintro ⟨h1, h2⟩
    rcases h with h | h
    · exact h h1
    · exact h h2
  simp [reorder.call, hn]

/-- Witness of C25: a reorder from the plain to the blocked source layout, called with an
input that is already blocked. -/
theorem C25_witness :
    (src_blocked ≠ src_plain ∨ src_blocked ≠ src_blocked) ∧
    (reorder.call sample_engine
      ⟨⟨src_plain, data_handle.buffer 1⟩, ⟨src_blocked, data_handle.buffer 2⟩⟩
      ⟨src_blocked, data_handle.buffer 3⟩ ⟨src_blocked, data_handle.buffer 4⟩).failure
        = some error.assertion ∧
    (reorder.call sample_engine
      ⟨⟨src_plain, data_handle.buffer 1⟩, ⟨src_blocked, data_handle.buffer 2⟩⟩
      ⟨src_blocked, data_handle.buffer 3⟩ ⟨src_blocked, data_handle.buffer 4⟩).plan
        = ⟨⟨src_plain, data_handle.buffer 1⟩, ⟨src_blocked, data_handle.buffer 2⟩⟩ :=
  have h := C25_reorder_call_mismatch_fails sample_engine
    ⟨⟨src_plain, data_handle.buffer 1⟩, ⟨src_blocked, data_handle.buffer 2⟩⟩
    ⟨src_blocked, data_handle.buffer 3⟩ ⟨src_blocked, data_handle.buffer 4⟩
    (Or.inl (by decide))
  ⟨Or.inl (by decide), h.1, h.2.1⟩

/-! ## The binds of the vector overloads -/

theorem connect_handle_for_pack_eq_bind_each :
    ∀ (tensors : List tensor) (c : computation) (index : Nat),
      c.connect_handle_for_pack index tensors = c.bind_each (indexed_tensors index tensors) := by
  intro tensors
  induction tensors with
  | nil => intro c index; rfl
  | cons first rest ih =>
    intro c index
    simp only [computation.connect_handle_for_pack, indexed_tensors, computation.bind_each]
    cases hr : c.connect_handle_for index first with
    | mk c1 failure =>
      cases failure with
      | none => exact ih c1 (index + 1)
      | some e => rfl

theorem bind_each_append (c : computation) :
    ∀ (first second : List (Nat × tensor)),
      c.bind_each (first ++ second) =
        (match c.bind_each first with
          | ⟨c1, none⟩ => c1.bind_each second
          | ⟨c1, some e⟩ => ⟨c1, some e⟩) := by
  intro first
  induction first generalizing c with
  | nil => intro second; rfl
  | cons p rest ih =>
    intro second
    simp only [List.cons_append, computation.bind_each]
    cases hr : c.connect_handle_for p.1 p.2 with
    | mk c1 failure =>
      cases failure with
      | none => exact ih c1 second
      | some e => rfl

theorem bind_each_singleton (c : computation) (i : Nat) (t : tensor) :
    c.bind_each [(i, t)] = c.connect_handle_for i t := by
  simp only [computation.bind_each]
  cases hr : c.connect_handle_for i t with
  | mk c1 failure =>
    cases failure <;> rfl

theorem connect_handle_for_vector_eq_bind_each (c : computation) (inputs : List tensor)
    (output : tensor) :
    c.connect_handle_for_vector inputs output =
      c.bind_each (indexed_tensors 0 inputs ++ [(inputs.length, output)]) := by
  rw [bind_each_append, ← connect_handle_for_pack_eq_bind_each]
  unfold computation.connect_handle_for_vector
  cases hr : c.connect_handle_for_pack 0 inputs with
  | mk c1 failure =>
    cases failure with
    | none => simp only [bind_each_singleton]
    | some e => rfl

theorem indexed_tensors_slots :
    ∀ (tensors : List tensor) (index : Nat),
      (indexed_tensors index tensors).map Prod.fst = List.range' index tensors.length ∧
      (indexed_tensors index tensors).map Prod.snd = tensors := by
  intro tensors
  induction tensors with
  | nil => intro index; exact ⟨rfl, rfl⟩
  | cons first rest ih =>
    intro index
    obtain ⟨h1, h2⟩ := ih (index + 1)
    simp only [indexed_tensors, List.map_cons, List.length_cons, List.range'_succ, h1, h2,
      and_self]

/-- In a plan the vector overload of `init` built, slot `args.size()` holds the first
output param of the primary primitive, and the inputs are as many as the descriptors. -/
theorem init_vector_first_output (adesc : descriptor_group) (args : List tensor.descriptor)
    (c : computation) (h : computation.init_vector adesc args = Except.ok c) :
    c.num_of_inputs = args.length ∧
    ∀ p, c.prim.outputs[0]? = some p → c.inouts_[args.length]? = some p := by
  have hlen : adesc.num_of_inputs = args.length := by
    unfold computation.init_vector at h
    split at h
    · assumption
    · exact absurd h (by simp)
  obtain ⟨c0, h0, h1⟩ := init_unfold adesc args c (Or.inr h)
  obtain ⟨ins, outs, hins, _, hprim0, hio0, hpi0, _, _, _⟩ := init_internal_spec adesc _ _ c0 h0
  obtain ⟨hlen_in, _⟩ := init_inputs_spec adesc _ 0 ins hins
  obtain ⟨hprim, hpi, _, _, hsame, _⟩ := connect_reorder_for_pack_spec adesc args c0 c 0 h1
  rw [hlen] at hlen_in
  refine ⟨?_, ?_⟩
  · rw [computation.num_of_inputs, hpi, hpi0, hlen_in]
  · intro p hp
    rw [hprim, hprim0] at hp
    simp only at hp
    rw [(hsame args.length (Or.inr (Or.inl (by omega)))).2, hio0,
      List.getElem?_append_right (by omega), hlen_in]
    simpa using hp

/-- C30: on a plan the vector overload of `init` built from `n` descriptors,
`execute(inputs, output)` with `n` inputs makes the binds of `connect_handle_for` for the
slots 0, 1, ..., n in this order, `inputs[k]` to slot `k` and `output` to slot `n`, each
slot once (a failing bind ends the call); the plan has `n` inputs and slot `n` holds the
first output param of the primary primitive; the primitive is submitted after them, and
only when every bind succeeded. -/
theorem C30_vector_execute_binds_slots_in_order (E : engine) (adesc : descriptor_group)
    (args : List tensor.descriptor) (c : computation) (inputs : List tensor)
    (output : tensor) (hinit : computation.init_vector adesc args = Except.ok c)
    (hn : inputs.length = args.length) :
    c.connect_handle_for_vector inputs output =
      c.bind_each (indexed_tensors 0 inputs ++ [(inputs.length, output)]) ∧
    (indexed_tensors 0 inputs ++ [(inputs.length, output)]).map Prod.fst =
      List.range (inputs.length + 1) ∧
    (indexed_tensors 0 inputs ++ [(inputs.length, output)]).map Prod.snd =
      inputs ++ [output] ∧
    c.num_of_inputs = inputs.length ∧
    (∀ p, c.prim.outputs[0]? = some p → c.inouts_[inputs.length]? = some p) ∧
    c.execute_vector E inputs output =
      (match c.bind_each (indexed_tensors 0 inputs ++ [(inputs.length, output)]) with
        | ⟨c1, none⟩ => primitive_group.execute E c1
        | ⟨c1, some e⟩ => ⟨c1, some e, none⟩) := by
  obtain ⟨s1, s2⟩ := indexed_tensors_slots inputs 0
  obtain ⟨o1, o2⟩ := init_vector_first_output adesc args c hinit
  refine ⟨connect_handle_for_vector_eq_bind_each c inputs output, ?_, ?_, ?_, ?_, ?_⟩
  · rw [List.map_append, s1, List.range_succ, List.range_eq_range']
    rfl
  · rw [List.map_append, s2]
    rfl
  · rw [o1, hn]
  · rw [hn]
    exact o2
  · have e := connect_handle_for_vector_eq_bind_each c inputs output
    unfold computation.execute_vector
    cases hb : c.bind_each (indexed_tensors 0 inputs ++ [(inputs.length, output)]) with
    | mk c1 failure =>
      rw [hb] at e
      cases failure <;> simp only [e]

/-- Witness of C30: the plan of a weighted sum of two statistics on the sample engine. -/
theorem C30_witness :
    ∃ c, computation.init_vector (descriptor_group.reset ⟨[stat_desc, stat_desc], [stat_desc]⟩)
        [stat_desc, stat_desc] = Except.ok c ∧
      c.connect_handle_for_vector [sample_stat 20, sample_stat 21] (sample_stat 22) =
        c.bind_each [(0, sample_stat 20), (1, sample_stat 21), (2, sample_stat 22)] ∧
      (c.execute_vector sample_engine [sample_stat 20, sample_stat 21]
        (sample_stat 22)).failure = none ∧
      c.num_of_inputs = 2 :=
  ⟨_, rfl,
    (C30_vector_execute_binds_slots_in_order sample_engine
      (descriptor_group.reset ⟨[stat_desc, stat_desc], [stat_desc]⟩) [stat_desc, stat_desc] _
      [sample_stat 20, sample_stat 21] (sample_stat 22) rfl rfl).1,
    rfl,
    (C30_vector_execute_binds_slots_in_order sample_engine
      (descriptor_group.reset ⟨[stat_desc, stat_desc], [stat_desc]⟩) [stat_desc, stat_desc] _
      [sample_stat 20, sample_stat 21] (sample_stat 22) rfl rfl).2.2.2.1⟩

/-- C29: on a constructed plan, `connect_handle_for(i, t)` with `i` at or beyond
`num_of_inputs() + num_of_outputs()` ends with `std::out_of_range` and leaves the plan as
it was, and so does a pack of binds that starts there; with `i` below that count,
`inouts_` has an element at `i`, `primitive_inputs_` has one when `i` is an input slot,
and the call ends neither out of range nor by an access past the end of a vector. -/
theorem C29_bind_beyond_slots_fails_out_of_range (c : computation) (hwf : c.well_formed)
    (i : Nat) (t : tensor) :
    (c.num_of_inputs + c.num_of_outputs ≤ i →
      c.connect_handle_for i t = ⟨c, some error.out_of_range⟩ ∧
      ∀ rest, c.connect_handle_for_pack i (t :: rest) = ⟨c, some error.out_of_range⟩) ∧
    (i < c.num_of_inputs + c.num_of_outputs →
      (∃ io, c.inouts_[i]? = some io) ∧
      (i < c.num_of_inputs → ∃ pin, c.primitive_inputs_[i]? = some pin) ∧
      (c.connect_handle_for i t).failure ≠ some error.out_of_range ∧
      (c.connect_handle_for i t).failure ≠ some error.undefined) := by
  have hcount : c.num_of_inputs + c.num_of_outputs = c.inouts_.length := by
    have := hwf.sizes
    simp only [computation.num_of_inputs, computation.num_of_outputs]
    omega
  rw [hcount]
  constructor
  · intro hi
    have hnone : c.inouts_[i]? = none := List.getElem?_eq_none_iff.mpr hi
    have hnot : ¬ i < c.primitive_inputs_.length := by
      have := hwf.sizes
      omega
    have hone : c.connect_handle_for i t = ⟨c, some error.out_of_range⟩ := by
      simp [computation.connect_handle_for, hnot, computation.connect_output, hnone]
    refine ⟨hone, ?_⟩
    intro rest
    simp [computation.connect_handle_for_pack, hone]
  · intro hi
    have hio : c.inouts_[i]? = some c.inouts_[i] := List.getElem?_eq_getElem hi
    refine ⟨⟨_, hio⟩, ?_, ?_⟩
    · intro hin
      exact ⟨c.primitive_inputs_[i], List.getElem?_eq_getElem hin⟩
    · unfold computation.connect_handle_for
      by_cases hin : i < c.primitive_inputs_.length
      · have hpin : c.primitive_inputs_[i]? = some c.primitive_inputs_[i] :=
          List.getElem?_eq_getElem hin
        simp only [hin, if_true, hio, hpin]
        split
        · split
          · simp
          · split
            · simp
            · simp [incompatible_operand]
        · simp only [computation.connect_output, hio]
          split <;> simp
      · simp only [hin, if_false, computation.connect_output, hio]
        split <;> simp

/-- Witness of C29: the sample convolution plan has four slots; a bind at index 4 ends out
of range and changes nothing. -/
theorem C29_witness :
    conv_plan.num_of_inputs + conv_plan.num_of_outputs = 4 ∧
    conv_plan.connect_handle_for 4 ⟨dst_blocked, data_handle.buffer 9⟩ =
      ⟨conv_plan, some error.out_of_range⟩ :=
  ⟨rfl, ((C29_bind_beyond_slots_fails_out_of_range conv_plan conv_plan_well_formed 4
    ⟨dst_blocked, data_handle.buffer 9⟩).1 (by decide)).1⟩

/-! ## Plans without reorders: what a successful run of binds leaves in the handles -/

theorem indexed_tensors_append :
    ∀ (first second : List tensor) (index : Nat),
      indexed_tensors index (first ++ second) =
        indexed_tensors index first ++ indexed_tensors (index + first.length) second := by
  intro first
  induction first with
  | nil => intro second index; rfl
  | cons t rest ih =>
    intro second index
    show indexed_tensors index (t :: (rest ++ second)) = _
    simp only [indexed_tensors, List.length_cons, ih]
    rw [show index + 1 + rest.length = index + (rest.length + 1) by omega]
    rfl

/-- On a plan whose slots hold the params numbered by position, shared with the primary
primitive on the input slots, a bind that succeeds stores the handle of the tensor under
the number of the slot and touches no other handle. -/
theorem bind_direct_handle (c : computation)
    (hid : ∀ (k : Nat) (io : param), c.inouts_[k]? = some io → io.id = k)
    (hshared : ∀ (k : Nat) (pin : param), c.primitive_inputs_[k]? = some pin →
      c.inouts_[k]? = some pin)
    (i : Nat) (t : tensor) (c1 : computation)
    (h : c.connect_handle_for i t = ⟨c1, none⟩) :
    c1.handle i = t.handle ∧ (∀ m, m ≠ i → c1.handle m = c.handle m) ∧
    c1.inouts_ = c.inouts_ ∧ c1.primitive_inputs_ = c.primitive_inputs_ ∧
    c1.prim = c.prim := by
  obtain ⟨f1, f2, f3, _⟩ := connect_handle_for_frame c i t
  rw [h] at f1 f2 f3
  simp only at f1 f2 f3
  have hstore : c1.handle = store_set c.handle i t.handle := by
    cases hio : c.inouts_[i]? with
    | none =>
      have hnot : ¬ i < c.primitive_inputs_.length := by
        intro hlt
        have := hshared i _ (List.getElem?_eq_getElem hlt)
        rw [hio] at this
        exact absurd this (by simp)
      simp [computation.connect_handle_for, hnot, computation.connect_output, hio] at h
    | some io =>
      have hdirect : c.connect_handle_for i t = c.connect_output i t := by
        apply connect_handle_for_direct c i t io hio
        by_cases hlt : i < c.primitive_inputs_.length
        · right
          refine ⟨_, List.getElem?_eq_getElem hlt, ?_⟩
          have := hshared i _ (List.getElem?_eq_getElem hlt)
          rw [hio] at this
          cases this
          rfl
        · left
          omega
      rw [hdirect] at h
      simp only [computation.connect_output, hio] at h
      split at h
      · simp only [outcome.mk.injEq, and_true] at h
        subst h
        simp only [computation.set_data_handle, hid i io hio]
      · simp at h
  refine ⟨?_, ?_, f1, f2, f3⟩
  · rw [hstore]
    exact store_set_same _ _ _
  · intro m hm
    rw [hstore]
    exact store_set_other _ _ _ _ hm

theorem bind_each_direct_handles :
    ∀ (tensors : List tensor) (c c1 : computation) (index : Nat),
      (∀ (k : Nat) (io : param), c.inouts_[k]? = some io → io.id = k) →
      (∀ (k : Nat) (pin : param), c.primitive_inputs_[k]? = some pin →
        c.inouts_[k]? = some pin) →
      c.bind_each (indexed_tensors index tensors) = ⟨c1, none⟩ →
      (∀ (j : Nat) (t : tensor), tensors[j]? = some t → c1.handle (index + j) = t.handle) ∧
      (∀ m, m < index → c1.handle m = c.handle m) ∧
      c1.inouts_ = c.inouts_ ∧ c1.primitive_inputs_ = c.primitive_inputs_ ∧
      c1.prim = c.prim := by
  intro tensors
  induction tensors with
  | nil =>
    intro c c1 index _ _ h
    simp only [indexed_tensors, computation.bind_each, outcome.mk.injEq, and_true] at h
    subst h
    exact ⟨fun j t hj => by simp at hj, fun m _ => rfl, rfl, rfl, rfl⟩
  | cons first rest ih =>
    intro c c1 index hid hshared h
    simp only [indexed_tensors, computation.bind_each] at h
    cases hr : c.connect_handle_for index first with
    | mk c2 failure =>
      rw [hr] at h
      cases failure with
      | some e => simp at h
      | none =>
        simp only at h
        obtain ⟨b1, b2, b3, b4, b5⟩ := bind_direct_handle c hid hshared index first c2 hr
        obtain ⟨i1, i2, i3, i4, i5⟩ := ih c2 c1 (index + 1) (by rw [b3]; exact hid)
          (by rw [b3, b4]; exact hshared) h
        refine ⟨?_, ?_, i3.trans b3, i4.trans b4, i5.trans b5⟩
        · intro j t hj
          cases j with
          | zero =>
            simp only [List.getElem?_cons_zero, Option.some.injEq] at hj
            subst hj
            rw [Nat.add_zero, i2 index (by omega), b1]
          | succ j =>
            simp only [List.getElem?_cons_succ] at hj
            rw [show index + (j + 1) = index + 1 + j by omega]
            exact i1 j t hj
        · intro m hm
          rw [i2 m (by omega), b2 m (by omega)]

/-- A plan the vector overload of `init` builds from a descriptor group without reorder
descriptors: every slot holds the param numbered by its position, and the input slots
share theirs with the primary primitive. -/
theorem init_vector_reset_slots (pd : primitive_desc) (args : List tensor.descriptor)
    (c : computation)
    (h : computation.init_vector (descriptor_group.reset pd) args = Except.ok c) :
    (∀ (k : Nat) (io : param), c.inouts_[k]? = some io → io.id = k) ∧
    (∀ (k : Nat) (pin : param), c.primitive_inputs_[k]? = some pin →
      c.inouts_[k]? = some pin) ∧
    c.prim.inputs = c.primitive_inputs_ ∧
    c.inouts_ = c.prim.inputs ++ c.prim.outputs := by
  obtain ⟨c0, h0, h1⟩ := init_unfold _ args c (Or.inr h)
  obtain ⟨ins, outs, hins, houts, hprim0, hio0, hpi0, _, _, _⟩ := init_internal_spec _ _ _ c0 h0
  obtain ⟨hlen_in, hall_in⟩ := init_inputs_spec _ _ 0 ins hins
  obtain ⟨_, hall_out⟩ := init_outputs_spec _ _ _ 0 outs houts
  obtain ⟨hprim, hpi, hlen, _, hsame, _⟩ :=
    connect_reorder_for_pack_spec _ args c0 c 0 h1
  have hio : c.inouts_ = ins ++ outs := by
    apply List.ext_getElem?
    intro k
    rw [(hsame k (Or.inr (Or.inr rfl))).2, hio0]
  refine ⟨?_, ?_, ?_, ?_⟩
  · intro k io hk
    rw [hio] at hk
    by_cases hlt : k < ins.length
    · rw [List.getElem?_append_left hlt] at hk
      have := (hall_in k io hk).1
      omega
    · rw [List.getElem?_append_right (by omega)] at hk
      have := (hall_out _ io hk).1
      omega
  · intro k pin hk
    rw [hpi, hpi0] at hk
    rw [hio, List.getElem?_append_left (lt_length_of_getElem? _ _ _ hk)]
    exact hk
  · rw [hprim, hprim0, hpi, hpi0]
  · rw [hprim, hprim0, hio]

theorem sum_init_spec (M : mkldnn_api) (scales : List float)
    (inputs : List tensor.descriptor) (output : Option tensor.descriptor) (s : sum)
    (h : sum.init M scales inputs output = Except.ok s) :
    s.scales = scales ∧
    ∃ pd, computation.init_vector (descriptor_group.reset pd) inputs = Except.ok s.comp := by
  unfold sum.init sum.descriptor at h
  split at h
  · exact absurd h (by simp)
  · rename_i g hg
    split at hg
    · exact absurd hg (by simp)
    · rename_i pd hpd
      simp only [Except.ok.injEq] at hg
      subst hg
      split at h
      · exact absurd h (by simp)
      · rename_i c hc
        simp only [Except.ok.injEq] at h
        subst h
        exact ⟨rfl, pd, hc⟩

/-- What a successful `sum::execute(inputs, output)` with two inputs leaves in a plan with
two input slots and no reorder: the first input param holds the handle of `inputs[0]`, the
second that of `inputs[1]`, and the output param that of `output`; the slots are as
before. -/
theorem sum_execute_handles (E : engine) (s : sum)
    (hid : ∀ (k : Nat) (io : param), s.comp.inouts_[k]? = some io → io.id = k)
    (hshared : ∀ (k : Nat) (pin : param), s.comp.primitive_inputs_[k]? = some pin →
      s.comp.inouts_[k]? = some pin)
    (hin : s.comp.prim.inputs = s.comp.primitive_inputs_)
    (hio : s.comp.inouts_ = s.comp.prim.inputs ++ s.comp.prim.outputs)
    (hlen : s.comp.prim.inputs.length = 2) (a b out : tensor)
    (hok : (sum.execute E s [a, b] out).failure = none) :
    (sum.execute E s [a, b] out).plan.scales = s.scales ∧
    (sum.execute E s [a, b] out).plan.comp.inouts_ = s.comp.inouts_ ∧
    (sum.execute E s [a, b] out).plan.comp.primitive_inputs_ = s.comp.primitive_inputs_ ∧
    (sum.execute E s [a, b] out).plan.comp.prim = s.comp.prim ∧
    ∃ p0 p1 po,
      s.comp.prim.inputs = [p0, p1] ∧ s.comp.prim.outputs[0]? = some po ∧
      (sum.execute E s [a, b] out).plan.comp.get_data_handle p0 = a.handle ∧
      (sum.execute E s [a, b] out).plan.comp.get_data_handle p1 = b.handle ∧
      (sum.execute E s [a, b] out).plan.comp.get_data_handle po = out.handle := by
  refine ⟨rfl, ?_⟩
  simp only [sum.execute] at hok ⊢
  have e := connect_handle_for_vector_eq_bind_each s.comp [a, b] out
  rw [show indexed_tensors 0 [a, b] ++ [([a, b].length, out)]
    = indexed_tensors 0 [a, b, out] from rfl] at e
  unfold computation.execute_vector at hok ⊢
  cases hb : s.comp.connect_handle_for_vector [a, b] out with
  | mk c1 failure =>
    rw [hb] at hok e
    cases failure with
    | some err => simp at hok
    | none =>
      simp only [primitive_group_execute_plan]
      obtain ⟨i1, _, i3, i4, i5⟩ := bind_each_direct_handles [a, b, out] s.comp c1 0 hid
        hshared e.symm
      refine ⟨i3, i4, i5, ?_⟩
      have hslot : ∃ po, c1.inouts_[2]? = some po := by
        cases hq : c1.inouts_[2]? with
        | some po => exact ⟨po, rfl⟩
        | none =>
          exfalso
          rw [i3] at hq
          have hb2 := hb
          rw [connect_handle_for_vector_eq_bind_each, bind_each_append] at hb2
          cases hpre : s.comp.bind_each (indexed_tensors 0 [a, b]) with
          | mk c2 f2 =>
            rw [hpre] at hb2
            cases f2 with
            | some err => simp at hb2
            | none =>
              simp only [bind_each_singleton] at hb2
              have hfr := connect_handle_for_pack_frame [a, b] s.comp 0
              rw [connect_handle_for_pack_eq_bind_each, hpre] at hfr
              simp only at hfr
              have hq2 : c2.inouts_[2]? = none := by
                rw [hfr.1]
                exact hq
              have hnot : ¬ 2 < c2.primitive_inputs_.length := by
                rw [hfr.2, ← hin, hlen]
                omega
              simp [computation.connect_handle_for, hnot, computation.connect_output,
                hq2] at hb2
      obtain ⟨po, hpo⟩ := hslot
      rw [i3, hio] at hpo
      match hq : s.comp.prim.inputs, hlen with
      | [p0, p1], _ =>
        rw [hq] at hpo hio
        simp only [List.cons_append, List.nil_append, List.getElem?_cons_succ,
          List.getElem?_cons_zero] at hpo
        have h0 := hid 0 p0 (by rw [hio]; simp)
        have h1 := hid 1 p1 (by rw [hio]; simp)
        have h2 := hid 2 po (by rw [hio]; simpa using hpo)
        refine ⟨p0, p1, po, rfl, hpo, ?_, ?_, ?_⟩
        · rw [computation.get_data_handle, h0]
          simpa using i1 0 a rfl
        · rw [computation.get_data_handle, h1]
          simpa using i1 1 b rfl
        · rw [computation.get_data_handle, h2]
          simpa using i1 2 out rfl

theorem training_init_sum (M : mkldnn_api) (src_desc scale shift : tensor.descriptor)
    (momentum epsilon : float) (flags : Nat) (p : batch_normalization_forward_training)
    (h : batch_normalization_forward_training.init M src_desc scale shift momentum epsilon
      flags = Except.ok p) :
    sum.init M [momentum, float_one - momentum] [scale, shift] none = Except.ok p.sum_ := by
  unfold batch_normalization_forward_training.init at h
  split at h
  · split at h
    · exact absurd h (by simp)
    · split at h
      · exact absurd h (by simp)
      · split at h
        · exact absurd h (by simp)
        · split at h
          · exact absurd h (by simp)
          · rename_i s hs
            simp only [Except.ok.injEq] at h
            subst h
            exact hs
  · exact absurd h (by simp)

/-- C24: in a plan that `batch_normalization_forward_training::init` built with momentum
`m`, the weighted sum has the scales (m, 1 - m); and when `running_statistic` returns, it
has executed that sum twice: first on the inputs (running_mean, mean) with running_mean as
the output, then on (running_var, variance) with running_var as the output, so that after
each execution the first input param and the output param of the sum hold the handle of
the running statistic and the second input param holds that of the batch statistic. -/
theorem C24_running_statistic_updates_in_place (E : engine) (M : mkldnn_api)
    (src_desc scale shift : tensor.descriptor) (momentum epsilon : float) (flags : Nat)
    (p : batch_normalization_forward_training)
    (mean variance running_mean running_var : tensor)
    (hinit : batch_normalization_forward_training.init M src_desc scale shift momentum
      epsilon flags = Except.ok p)
    (hok : (batch_normalization_forward_training.running_statistic E p mean variance
      running_mean running_var).failure = none) :
    p.sum_.scales = [momentum, float_one - momentum] ∧
    (batch_normalization_forward_training.running_statistic E p mean variance running_mean
      running_var).plan.sum_.scales = [momentum, float_one - momentum] ∧
    (sum.execute E p.sum_ [running_mean, mean] running_mean).failure = none ∧
    (batch_normalization_forward_training.running_statistic E p mean variance running_mean
      running_var).plan.sum_ =
      (sum.execute E (sum.execute E p.sum_ [running_mean, mean] running_mean).plan
        [running_var, variance] running_var).plan ∧
    (sum.execute E (sum.execute E p.sum_ [running_mean, mean] running_mean).plan
      [running_var, variance] running_var).failure = none ∧
    ∃ p0 p1 po,
      p.sum_.comp.prim.inputs = [p0, p1] ∧ p.sum_.comp.prim.outputs[0]? = some po ∧
      (sum.execute E p.sum_ [running_mean, mean] running_mean).plan.comp.prim
        = p.sum_.comp.prim ∧
      (sum.execute E p.sum_ [running_mean, mean] running_mean).plan.comp.get_data_handle p0
        = running_mean.handle ∧
      (sum.execute E p.sum_ [running_mean, mean] running_mean).plan.comp.get_data_handle p1
        = mean.handle ∧
      (sum.execute E p.sum_ [running_mean, mean] running_mean).plan.comp.get_data_handle po
        = running_mean.handle ∧
      (batch_normalization_forward_training.running_statistic E p mean variance
        running_mean running_var).plan.sum_.comp.prim = p.sum_.comp.prim ∧
      (batch_normalization_forward_training.running_statistic E p mean variance
        running_mean running_var).plan.sum_.comp.get_data_handle p0 = running_var.handle ∧
      (batch_normalization_forward_training.running_statistic E p mean variance
        running_mean running_var).plan.sum_.comp.get_data_handle p1 = variance.handle ∧
      (batch_normalization_forward_training.running_statistic E p mean variance
        running_mean running_var).plan.sum_.comp.get_data_handle po
        = running_var.handle := by
  have hs := training_init_sum M src_desc scale shift momentum epsilon flags p hinit
  obtain ⟨hsc, pd, hc⟩ := sum_init_spec M _ [scale, shift] none p.sum_ hs
  obtain ⟨hid, hshared, hin, hio⟩ := init_vector_reset_slots pd [scale, shift] p.sum_.comp hc
  obtain ⟨hn, _⟩ := init_vector_first_output _ _ p.sum_.comp hc
  have hlen : p.sum_.comp.prim.inputs.length = 2 := by
    rw [hin]
    exact hn
  have hfirst : (sum.execute E p.sum_ [running_mean, mean] running_mean).failure = none := by
    unfold batch_normalization_forward_training.running_statistic at hok
    cases hx : sum.execute E p.sum_ [running_mean, mean] running_mean with
    | mk s1 failure submitted =>
      rw [hx] at hok
      cases failure with
      | none => rfl
      | some e => simp at hok
  obtain ⟨a1, a2, a3, a4, p0, p1, po, a5, a6, a7, a8, a9⟩ :=
    sum_execute_handles E p.sum_ hid hshared hin hio hlen running_mean mean running_mean
      hfirst
  have hplan : (batch_normalization_forward_training.running_statistic E p mean variance
      running_mean running_var).plan.sum_ =
      (sum.execute E (sum.execute E p.sum_ [running_mean, mean] running_mean).plan
        [running_var, variance] running_var).plan ∧
      (batch_normalization_forward_training.running_statistic E p mean variance
        running_mean running_var).failure =
      (sum.execute E (sum.execute E p.sum_ [running_mean, mean] running_mean).plan
        [running_var, variance] running_var).failure := by
    unfold batch_normalization_forward_training.running_statistic
    cases hx : sum.execute E p.sum_ [running_mean, mean] running_mean with
    | mk s1 failure submitted =>
      rw [hx] at hfirst
      simp only at hfirst
      subst hfirst
      exact ⟨rfl, rfl⟩
  have hsecond := hplan.2 ▸ hok
  obtain ⟨b1, b2, b3, b4, q0, q1, qo, b5, b6, b7, b8, b9⟩ :=
    sum_execute_handles E (sum.execute E p.sum_ [running_mean, mean] running_mean).plan
      (by rw [a2]; exact hid) (by rw [a2, a3]; exact hshared) (by rw [a3, a4]; exact hin)
      (by rw [a2, a4]; exact hio) (by rw [a4]; exact hlen) running_var variance running_var
      hsecond
  rw [a4, a5] at b5
  simp only [List.cons.injEq, and_true] at b5
  obtain ⟨e0, e1⟩ := b5
  rw [a4, a6] at b6
  simp only [Option.some.injEq] at b6
  subst e0 e1 b6
  refine ⟨hsc, ?_, hfirst, hplan.1, hsecond, p0, p1, po, a5, a6, a4, a7, a8, a9, ?_, ?_,
    ?_, ?_⟩
  · rw [hplan.1, b1, a1, hsc]
  · rw [hplan.1, b4, a4]
  · rw [hplan.1]
    exact b7
  · rw [hplan.1]
    exact b8
  · rw [hplan.1]
    exact b9

/-- Witness of C24: the plan of the normalization examples with momentum 0.9. -/
theorem C24_witness :
    ∃ p, batch_normalization_forward_training.init sample_bn_api src_blocked stat_desc
        stat_desc 900000 10 batch_normalization_flag.use_scale_shift = Except.ok p ∧
      (batch_normalization_forward_training.running_statistic sample_engine p
        (sample_stat 14) (sample_stat 15) (sample_stat 16) (sample_stat 17)).failure
          = none ∧
      p.sum_.scales = [900000, 100000] ∧
      (batch_normalization_forward_training.running_statistic sample_engine p
        (sample_stat 14) (sample_stat 15) (sample_stat 16)
        (sample_stat 17)).plan.sum_.scales = [900000, 100000] :=
  ⟨_, rfl, rfl,
    (C24_running_statistic_updates_in_place sample_engine sample_bn_api src_blocked
      stat_desc stat_desc 900000 10 batch_normalization_flag.use_scale_shift _
      (sample_stat 14) (sample_stat 15) (sample_stat 16) (sample_stat 17) rfl rfl).1,
    (C24_running_statistic_updates_in_place sample_engine sample_bn_api src_blocked
      stat_desc stat_desc 900000 10 batch_normalization_flag.use_scale_shift _
      (sample_stat 14) (sample_stat 15) (sample_stat 16) (sample_stat 17) rfl rfl).2.1⟩

/-! ## The cache of `reorder` -/

theorem reorder_key_inj (i o i2 o2 : tensor) (h : reorder.key i o = reorder.key i2 o2) :
    i.desc = i2.desc ∧ o.desc = o2.desc := by
  simp only [reorder.key, utils.create_key, List.cons.injEq, and_true] at h
  obtain ⟨h1, h2, h3, h4, h5, h6⟩ := h
  have e1 := key_part_of_dims_inj _ _ h1
  have e2 := key_part_of_nat_inj _ _ h2
  have e3 := key_part_of_nat_inj _ _ h3
  have e4 := key_part_of_dims_inj _ _ h4
  have e5 := key_part_of_nat_inj _ _ h5
  have e6 := key_part_of_nat_inj _ _ h6
  obtain ⟨⟨a1, a2, a3⟩, _⟩ := i
  obtain ⟨⟨b1, b2, b3⟩, _⟩ := i2
  obtain ⟨⟨c1, c2, c3⟩, _⟩ := o
  obtain ⟨⟨d1, d2, d3⟩, _⟩ := o2
  simp only at e1 e2 e3 e4 e5 e6
  subst e1 e2 e3 e4 e5 e6
  exact ⟨rfl, rfl⟩

theorem reorder_key_of_descs (i o i2 o2 : tensor) (h1 : i.desc = i2.desc)
    (h2 : o.desc = o2.desc) : reorder.key i o = reorder.key i2 o2 := by
  simp only [reorder.key, h1, h2]

theorem reorder_init_descs (E : engine) (sd dd : tensor.descriptor) (r : reorder)
    (h : reorder.init E sd dd = Except.ok r) : r.in_.desc = sd ∧ r.out.desc = dd := by
  unfold reorder.init at h
  split at h
  · simp only [Except.ok.injEq] at h
    subst h
    exact ⟨rfl, rfl⟩
  · exact absurd h (by simp)

theorem reorder_call_descs (E : engine) (r : reorder) (input output : tensor) :
    (reorder.call E r input output).plan.in_.desc = r.in_.desc ∧
    (reorder.call E r input output).plan.out.desc = r.out.desc := by
  simp only [reorder.call]
  split_ifs <;> exact ⟨rfl, rfl⟩

/-- The reorder that `fetch_or_create` leases to `reorder::compute`, on a cache whose idle
reorders are stored under the fingerprint of their own descriptors, has the descriptors of
the two tensors of the call; what stays idle is stored as before. -/
theorem reorder_fetch_keyed (E : engine) (cache cache1 : utils.computation_cache reorder)
    (input output : tensor) (op : reorder)
    (hW : ∀ k r, (k, r) ∈ cache.idle → k = reorder.key r.in_ r.out)
    (h : cache.fetch_or_create (reorder.key input output)
      (reorder.init E input.desc output.desc) = (cache1, Except.ok op)) :
    (op.in_.desc = input.desc ∧ op.out.desc = output.desc) ∧
    ∀ k r, (k, r) ∈ cache1.idle → k = reorder.key r.in_ r.out := by
  unfold utils.computation_cache.fetch_or_create at h
  cases ht : utils.take_idle cache.idle (reorder.key input output) with
  | some found =>
    obtain ⟨q, others⟩ := found
    simp only [ht, Prod.mk.injEq, Except.ok.injEq] at h
    obtain ⟨h1, h2⟩ := h
    subst h1 h2
    obtain ⟨m1, m2⟩ := take_idle_mem _ _ _ _ ht
    obtain ⟨e1, e2⟩ := reorder_key_inj _ _ _ _ (hW _ _ m1)
    exact ⟨⟨e1.symm, e2.symm⟩, fun k r hkr => hW k r (m2 _ hkr)⟩
  | none =>
    simp only [ht, utils.computation_cache.construct] at h
    cases hc : reorder.init E input.desc output.desc with
    | error e => simp [hc] at h
    | ok r0 =>
      simp only [hc, Prod.mk.injEq, Except.ok.injEq] at h
      obtain ⟨h1, h2⟩ := h
      subst h1 h2
      exact ⟨reorder_init_descs E _ _ _ hc, fun k r hkr => hW k r hkr⟩

theorem fetch_or_create_error {α : Type} (cache cache1 : utils.computation_cache α)
    (key : key_t) (constructor : Except error α) (e : error)
    (h : cache.fetch_or_create key constructor = (cache1, Except.error e)) :
    cache1 = cache ∧ constructor = Except.error e := by
  unfold utils.computation_cache.fetch_or_create at h
  cases ht : utils.take_idle cache.idle key with
  | some found => simp [ht] at h
  | none =>
    simp only [ht, utils.computation_cache.construct] at h
    cases constructor with
    | error e2 =>
      simp only [Prod.mk.injEq, Except.error.injEq] at h
      exact ⟨h.1.symm, by rw [h.2]⟩
    | ok r => simp at h

theorem reorder_compute_keyed (E : engine) (cache : utils.computation_cache reorder)
    (input output : tensor)
    (hW : ∀ k r, (k, r) ∈ cache.idle → k = reorder.key r.in_ r.out) :
    ∀ k r, (k, r) ∈ (reorder.compute E cache input output).1.idle →
      k = reorder.key r.in_ r.out := by
  unfold reorder.compute
  cases hf : cache.fetch_or_create (reorder.key input output)
      (reorder.init E input.desc output.desc) with
  | mk cache1 res =>
    cases res with
    | error e =>
      simp only
      rw [(fetch_or_create_error cache cache1 _ _ e hf).1]
      exact hW
    | ok op =>
      simp only [utils.guarded_release]
      obtain ⟨⟨d1, d2⟩, hrest⟩ := reorder_fetch_keyed E cache cache1 input output op hW hf
      obtain ⟨c1, c2⟩ := reorder_call_descs E op input output
      intro k r hkr
      simp only [utils.computation_cache.release] at hkr
      have hmem := List.mem_of_mem_take hkr
      rcases List.mem_cons.mp hmem with heq | hin
      · simp only [Prod.mk.injEq] at heq
        obtain ⟨hk, hr⟩ := heq
        rw [hk]
        apply reorder_key_of_descs
        · rw [hr]
          split <;> simp only [c1, d1]
        · rw [hr]
          split <;> simp only [c2, d2]
      · exact hrest k r hin

theorem reorder_compute_all_keyed (E : engine) :
    ∀ (calls : List (tensor × tensor)) (cache : utils.computation_cache reorder),
      (∀ k r, (k, r) ∈ cache.idle → k = reorder.key r.in_ r.out) →
      ∀ k r, (k, r) ∈ (reorder.compute_all E cache calls).idle →
        k = reorder.key r.in_ r.out := by
  intro calls
  induction calls with
  | nil => intro cache hW; exact hW
  | cons p rest ih =>
    intro cache hW
    exact ih _ (reorder_compute_keyed E cache p.1 p.2 hW)

/-- C27: on every cache state that calls of `reorder::compute` alone reach from the empty
cache, for every input and output tensor, the reorder that `fetch_or_create` returns for
the fingerprint of the two tensors has the descriptor of `input` in `in` and that of
`output` in `out`, so the assertion of `operator()` holds and `reorder::compute` does not
end by it. -/
theorem C27_reorder_compute_assertion_never_fails (E : engine) (capacity : Nat)
    (calls : List (tensor × tensor)) (input output : tensor) :
    (∀ cache1 op,
      (reorder.compute_all E (utils.computation_cache.empty reorder capacity)
        calls).fetch_or_create (reorder.key input output)
          (reorder.init E input.desc output.desc) = (cache1, Except.ok op) →
      op.in_.desc = input.desc ∧ op.out.desc = output.desc ∧
      (reorder.call E op input output).failure ≠ some error.assertion) ∧
    (reorder.compute E
      (reorder.compute_all E (utils.computation_cache.empty reorder capacity) calls)
      input output).2 ≠ Except.error error.assertion := by
  have hW := reorder_compute_all_keyed E calls (utils.computation_cache.empty reorder capacity)
    (by intro k r h; simp [utils.computation_cache.empty] at h)
  have hcall : ∀ op : reorder, op.in_.desc = input.desc → op.out.desc = output.desc →
      (reorder.call E op input output).failure ≠ some error.assertion := by
    intro op h1 h2
    simp only [reorder.call, h1, h2, and_self, if_true]
    split <;> simp
  constructor
  · intro cache1 op hf
    obtain ⟨⟨d1, d2⟩, _⟩ := reorder_fetch_keyed E _ cache1 input output op hW hf
    exact ⟨d1, d2, hcall op d1 d2⟩
  · unfold reorder.compute
    cases hf : (reorder.compute_all E (utils.computation_cache.empty reorder capacity)
        calls).fetch_or_create (reorder.key input output)
          (reorder.init E input.desc output.desc) with
    | mk cache1 res =>
      cases res with
      | error e =>
        simp only
        intro hcontra
        simp only [Except.error.injEq] at hcontra
        subst hcontra
        have hinit := (fetch_or_create_error _ cache1 _ _ _ hf).2
        unfold reorder.init at hinit
        split at hinit <;> simp at hinit
      | ok op =>
        obtain ⟨⟨d1, d2⟩, _⟩ := reorder_fetch_keyed E _ cache1 input output op hW hf
        have := hcall op d1 d2
        simp only [utils.guarded_release]
        split
        · rename_i e he
          intro hcontra
          simp only [Except.error.injEq] at hcontra
          rw [hcontra] at he
          exact this he
        · simp

/-- Witness of C27: after a conversion of the plain source into the blocked layout and one
back, a third call for the first pair of layouts leases the reorder of the first call, and
its descriptors are those of the tensors. -/
theorem C27_witness :
    ∃ cache1 op,
      (reorder.compute_all sample_engine (utils.computation_cache.empty reorder 1024)
        [(⟨src_plain, data_handle.buffer 1⟩, ⟨src_blocked, data_handle.buffer 2⟩),
          (⟨src_blocked, data_handle.buffer 2⟩,
            ⟨src_plain, data_handle.buffer 3⟩)]).fetch_or_create
        (reorder.key ⟨src_plain, data_handle.buffer 4⟩ ⟨src_blocked, data_handle.buffer 5⟩)
        (reorder.init sample_engine src_plain src_blocked) = (cache1, Except.ok op) ∧
      cache1.constructions = 2 ∧
      op.in_.desc = src_plain ∧ op.out.desc = src_blocked ∧
      (reorder.call sample_engine op ⟨src_plain, data_handle.buffer 4⟩
        ⟨src_blocked, data_handle.buffer 5⟩).failure ≠ some error.assertion :=
  ⟨_, _, rfl, rfl,
    ((C27_reorder_compute_assertion_never_fails sample_engine 1024
      [(⟨src_plain, data_handle.buffer 1⟩, ⟨src_blocked, data_handle.buffer 2⟩),
        (⟨src_blocked, data_handle.buffer 2⟩, ⟨src_plain, data_handle.buffer 3⟩)]
      ⟨src_plain, data_handle.buffer 4⟩ ⟨src_blocked, data_handle.buffer 5⟩).1 _ _ rfl)⟩

/-! ## The binds of the convolution facade succeed on the operands it reconciled -/

/-- In a plan built by `init` from a descriptor group that `create_reorder_pds` made, a
slot whose param has the identity of the expected param holds that very param. -/
theorem built_shared (E : engine) (pd : primitive_desc)
    (descriptors args : List tensor.descriptor) (g : descriptor_group) (c : computation)
    (hg : (descriptor_group.reset pd).create_reorder_pds E descriptors = Except.ok g)
    (hc : computation.init g args = Except.ok c) :
    ∀ (i : Nat) (io pin : param), c.inouts_[i]? = some io →
      c.primitive_inputs_[i]? = some pin → io.id = pin.id → io = pin := by
  obtain ⟨_, hslots⟩ := create_reorder_pds_spec E pd descriptors g hg
  obtain ⟨c0, h0, h1⟩ := init_unfold g args c (Or.inl hc)
  obtain ⟨ins, outs, hins, _, _, hio0, hpi0, _, _, hnext⟩ := init_internal_spec g _ _ c0 h0
  obtain ⟨hlen_in, hall_in⟩ := init_inputs_spec g _ 0 ins hins
  obtain ⟨_, hpi, _, _, hsame, hnew⟩ := connect_reorder_for_pack_spec g args c0 c 0 h1
  intro i io pin hio hpin hid
  rw [hpi, hpi0] at hpin
  have hlt := lt_length_of_getElem? _ _ _ hpin
  cases hgi : g.auxiliaries_ i with
  | none =>
    rw [(hsame i (Or.inr (Or.inr hgi))).2, hio0, List.getElem?_append_left hlt, hpin] at hio
    cases hio
    rfl
  | some rpd =>
    by_cases hrange : i < 0 + args.length
    · obtain ⟨pin2, id, d2, _, _, hge, _, _, hf⟩ := hnew i rpd (Nat.zero_le _) hrange hgi
      rw [hf] at hio
      cases hio
      have hpid := (hall_in i pin hpin).1
      simp only at hid
      rw [hnext] at hge
      omega
    · rw [(hsame i (Or.inr (Or.inl (by omega)))).2, hio0, List.getElem?_append_left hlt,
        hpin] at hio
      cases hio
      rfl

theorem constructed_shared (E : engine) (sd wd bd dd : tensor.descriptor)
    (a : convolution_forward.arguments) (c0 : computation)
    (h : convolution_forward.construct E sd wd bd dd a = Except.ok c0 ∨
      convolution_forward.construct_no_bias E sd wd dd a = Except.ok c0)
    (calls : List call) :
    ∀ (i : Nat) (io pin : param), (c0.run E calls).inouts_[i]? = some io →
      (c0.run E calls).primitive_inputs_[i]? = some pin → io.id = pin.id → io = pin := by
  obtain ⟨f1, f2⟩ := run_frame E calls c0
  rw [f1, f2]
  rcases h with h | h
  · unfold convolution_forward.construct at h
    split at h
    · exact absurd h (by simp)
    · rename_i g hg
      exact built_shared E g.pd [sd, wd] _ g c0 (descriptor_reorder_pds E a sd wd bd dd g hg) h
  · unfold convolution_forward.construct_no_bias at h
    split at h
    · exact absurd h (by simp)
    · rename_i g hg
      exact built_shared E g.pd [sd, wd] _ g c0
        (descriptor_no_bias_reorder_pds E a sd wd dd g hg) h

/-- A bind of a tensor that carries the descriptor the primary primitive expects at the
slot succeeds, whether the slot has a param of its own or not. -/
theorem bind_expected_succeeds (c : computation) (hwf : c.well_formed)
    (hown : ∀ (i : Nat) (io pin : param), c.inouts_[i]? = some io →
      c.primitive_inputs_[i]? = some pin → io.id ≠ pin.id → io.desc ≠ pin.desc)
    (hshared : ∀ (i : Nat) (io pin : param), c.inouts_[i]? = some io →
      c.primitive_inputs_[i]? = some pin → io.id = pin.id → io = pin)
    (i : Nat) (t : tensor) (pin : param) (hpin : c.primitive_inputs_[i]? = some pin)
    (ht : t.desc = pin.desc) : (c.connect_handle_for i t).failure = none := by
  have hlt : i < c.inouts_.length :=
    Nat.lt_of_lt_of_le (lt_length_of_getElem? _ _ _ hpin) hwf.sizes
  have hio : c.inouts_[i]? = some c.inouts_[i] := List.getElem?_eq_getElem hlt
  by_cases hid : c.inouts_[i].id = pin.id
  · have heq := hshared i _ pin hio hpin hid
    rw [connect_handle_for_direct c i t _ hio (Or.inr ⟨pin, hpin, hid⟩)]
    simp [computation.connect_output, hio, heq, ht]
  · have hvis : c.inouts_[i].desc ≠ t.desc := by
      rw [ht]
      exact hown i _ pin hio hpin hid
    rw [connect_handle_for_expected c i t _ pin hio hpin hid hvis ht.symm]

theorem reconciled_binds (E : engine) (c : computation) (hwf : c.well_formed)
    (hmap : c.primitive_inputs_.map param.desc = c.prim.pd.inputs)
    (hown : ∀ (i : Nat) (io pin : param), c.inouts_[i]? = some io →
      c.primitive_inputs_[i]? = some pin → io.id ≠ pin.id → io.desc ≠ pin.desc)
    (hshared : ∀ (i : Nat) (io pin : param), c.inouts_[i]? = some io →
      c.primitive_inputs_[i]? = some pin → io.id = pin.id → io = pin)
    (src_in weights_in : tensor) (rest : List tensor)
    (hx0 : c.prim.pd.inputs[0]? = some src_in.desc)
    (hx1 : c.prim.pd.inputs[1]? = some weights_in.desc) :
    (∃ pin0 pin1, c.primitive_inputs_[0]? = some pin0 ∧ c.primitive_inputs_[1]? = some pin1 ∧
      src_in.desc = pin0.desc ∧ weights_in.desc = pin1.desc) ∧
    (c.connect_handle_for 0 src_in).failure = none ∧
    ((c.connect_handle_for 0 src_in).plan.connect_handle_for 1 weights_in).failure = none ∧
    ∀ seq, (c.execute E (src_in :: weights_in :: rest)).submitted = some seq →
      ∀ i r, primitive.reorder i r ∉ seq := by
  obtain ⟨pin0, hp0, hd0⟩ := expected_param c src_in.desc 0 hmap hx0
  obtain ⟨pin1, hp1, hd1⟩ := expected_param c weights_in.desc 1 hmap hx1
  obtain ⟨f1, f2, _, _⟩ := connect_handle_for_frame c 0 src_in
  refine ⟨⟨pin0, pin1, hp0, hp1, hd0.symm, hd1.symm⟩, ?_, ?_, ?_⟩
  · exact bind_expected_succeeds c hwf hown hshared 0 src_in pin0 hp0 hd0.symm
  · exact bind_expected_succeeds _ (connect_handle_for_well_formed c 0 src_in hwf)
      (by rw [f1, f2]; exact hown) (by rw [f1, f2]; exact hshared) 1 weights_in pin1
      (by rw [f2]; exact hp1) hd1.symm
  · intro seq hseq i r hmem
    have hsub : seq = primitive_group.execution_sequence
        (c.execute E (src_in :: weights_in :: rest)).plan := by
      unfold computation.execute at hseq ⊢
      cases hr : c.connect_handle_for_pack 0 (src_in :: weights_in :: rest) with
      | mk c1 failure =>
        rw [hr] at hseq
        cases failure with
        | some e => simp at hseq
        | none =>
          simp only [primitive_group.execute] at hseq ⊢
          split at hseq <;> simp at hseq <;> split <;> simp [hseq]
    have hi : i = 0 ∨ i = 1 := by
      rw [hsub] at hmem
      exact ((mem_execution_sequence_reorder _ i r).mp hmem).1
    rcases hi with rfl | rfl
    · exact execute_expected_no_reorder E c hwf hown _ 0 src_in pin0 rfl hp0 hd0.symm seq
        hseq r hmem
    · exact execute_expected_no_reorder E c hwf hown _ 1 weights_in pin1 (by simp) hp1
        hd1.symm seq hseq r hmem

/-- C28: on a plan the facade constructed, fresh or used by any calls since (so built for
whatever source and weights layouts), with the engine's `src_pd` and `weights_pd` queries
answering the descriptors of inputs 0 and 1: whenever the scope of `compute_impl` reaches
`execute`, the tensors it passes for slots 0 and 1 carry the descriptors of the expected
params of these slots, which are the plan's expected src and weights descriptors; the
binds of slot 0 and of slot 1 succeed, so neither ends with "Cannot accept incompatible
input"; and the execution sequence submitted holds no reorder.  Both overloads. -/
theorem C28_reconciled_operands_bind_without_reorder (E : engine) (M : mkldnn_api)
    (rc : utils.computation_cache reorder) (sd wd bd dd : tensor.descriptor)
    (a : convolution_forward.arguments) (c0 : computation) (calls : List call)
    (src weights bias : tensor) (result : data_handle)
    (hbuilt : convolution_forward.construct E sd wd bd dd a = Except.ok c0 ∨
      convolution_forward.construct_no_bias E sd wd dd a = Except.ok c0)
    (hsrc_pd : M.primitive_desc_query_pd c0.prim.pd query.src_pd 0 = c0.prim.pd.inputs[0]?)
    (hweights_pd :
      M.primitive_desc_query_pd c0.prim.pd query.weights_pd 0 = c0.prim.pd.inputs[1]?) :
    (∀ args, (convolution_forward.compute_impl_scope E M rc src weights bias result
        (c0.run E calls)).2.bound = some args →
      ∃ src_in weights_in rest pin0 pin1,
        args = src_in :: weights_in :: rest ∧
        (c0.run E calls).primitive_inputs_[0]? = some pin0 ∧
        (c0.run E calls).primitive_inputs_[1]? = some pin1 ∧
        src_in.desc = pin0.desc ∧ weights_in.desc = pin1.desc ∧
        primitive_group.expected_src_descriptor M (c0.run E calls) = Except.ok src_in.desc ∧
        primitive_group.expected_weights_descriptor M (c0.run E calls)
          = Except.ok weights_in.desc ∧
        ((c0.run E calls).connect_handle_for 0 src_in).failure = none ∧
        (((c0.run E calls).connect_handle_for 0 src_in).plan.connect_handle_for 1
          weights_in).failure = none ∧
        ∀ seq, (convolution_forward.compute_impl_scope E M rc src weights bias result
            (c0.run E calls)).2.submitted = some seq →
          ∀ i r, primitive.reorder i r ∉ seq) ∧
    (∀ args, (convolution_forward.compute_impl_no_bias_scope E M rc src weights result
        (c0.run E calls)).2.bound = some args →
      ∃ src_in weights_in rest pin0 pin1,
        args = src_in :: weights_in :: rest ∧
        (c0.run E calls).primitive_inputs_[0]? = some pin0 ∧
        (c0.run E calls).primitive_inputs_[1]? = some pin1 ∧
        src_in.desc = pin0.desc ∧ weights_in.desc = pin1.desc ∧
        primitive_group.expected_src_descriptor M (c0.run E calls) = Except.ok src_in.desc ∧
        primitive_group.expected_weights_descriptor M (c0.run E calls)
          = Except.ok weights_in.desc ∧
        ((c0.run E calls).connect_handle_for 0 src_in).failure = none ∧
        (((c0.run E calls).connect_handle_for 0 src_in).plan.connect_handle_for 1
          weights_in).failure = none ∧
        ∀ seq, (convolution_forward.compute_impl_no_bias_scope E M rc src weights result
            (c0.run E calls)).2.submitted = some seq →
          ∀ i r, primitive.reorder i r ∉ seq) := by
  obtain ⟨hwf, hprim, hmap, hown⟩ := constructed_invariants E sd wd bd dd a c0 hbuilt calls
  have hshared := constructed_shared E sd wd bd dd a c0 hbuilt calls
  rw [← hprim] at hsrc_pd hweights_pd hmap
  constructor
  · intro args hb
    obtain ⟨_, B, C, _⟩ :=
      compute_impl_scope_spec E M rc src weights bias result (c0.run E calls)
    obtain ⟨es, ew, ed, src_in, weights_in, h1, h2, _, hargs, hs, hw, _, _⟩ := B args hb
    have hx0 : (c0.run E calls).prim.pd.inputs[0]? = some src_in.desc := by
      rw [← hsrc_pd, hs]
      exact expected_descriptor_of_ok M _ _ _ _ h1
    have hx1 : (c0.run E calls).prim.pd.inputs[1]? = some weights_in.desc := by
      rw [← hweights_pd, hw]
      exact expected_descriptor_of_ok M _ _ _ _ h2
    obtain ⟨⟨pin0, pin1, q1, q2, q3, q4⟩, b0, b1, hseq⟩ :=
      reconciled_binds E (c0.run E calls) hwf hmap hown hshared src_in weights_in
        [bias, ⟨ed, result⟩] hx0 hx1
    refine ⟨src_in, weights_in, [bias, ⟨ed, result⟩], pin0, pin1, hargs, q1, q2, q3, q4,
      by rw [h1, hs], by rw [h2, hw], b0, b1, ?_⟩
    intro seq hsub
    rw [(C args hb).2.1, hargs] at hsub
    exact hseq seq hsub
  · intro args hb
    obtain ⟨_, B, C, _⟩ :=
      compute_impl_no_bias_scope_spec E M rc src weights result (c0.run E calls)
    obtain ⟨es, ew, ed, src_in, weights_in, h1, h2, _, hargs, hs, hw, _, _⟩ := B args hb
    have hx0 : (c0.run E calls).prim.pd.inputs[0]? = some src_in.desc := by
      rw [← hsrc_pd, hs]
      exact expected_descriptor_of_ok M _ _ _ _ h1
    have hx1 : (c0.run E calls).prim.pd.inputs[1]? = some weights_in.desc := by
      rw [← hweights_pd, hw]
      exact expected_descriptor_of_ok M _ _ _ _ h2
    obtain ⟨⟨pin0, pin1, q1, q2, q3, q4⟩, b0, b1, hseq⟩ :=
      reconciled_binds E (c0.run E calls) hwf hmap hown hshared src_in weights_in
        [⟨ed, result⟩] hx0 hx1
    refine ⟨src_in, weights_in, [⟨ed, result⟩], pin0, pin1, hargs, q1, q2, q3, q4,
      by rw [h1, hs], by rw [h2, hw], b0, b1, ?_⟩
    intro seq hsub
    rw [(C args hb).2.1, hargs] at hsub
    exact hseq seq hsub

/-- Witness of C28: the sample plan, constructed for plain source and weights and used by
one call with plain operands; a call with a blocked source and plain weights reaches
`execute` and submits the primary primitive alone. -/
theorem C28_witness :
    (convolution_forward.construct sample_engine src_plain weights_plain bias_x
        (tensor.descriptor.of_dims [1, 4, 6, 6] 1) sample_arguments = Except.ok conv_plan ∧
      (convolution_forward.compute_impl_scope sample_engine sample_api
        (utils.computation_cache.empty reorder 1024) ⟨src_blocked, data_handle.buffer 40⟩
        ⟨weights_plain, data_handle.buffer 41⟩ ⟨bias_x, data_handle.buffer 42⟩
        (data_handle.buffer 43)
        (conv_plan.run sample_engine [call.execute plain_operands])).2.bound =
        some [⟨src_blocked, data_handle.buffer 40⟩, ⟨weights_blocked, data_handle.scratch 1⟩,
          ⟨bias_x, data_handle.buffer 42⟩, ⟨dst_blocked, data_handle.buffer 43⟩] ∧
      ((convolution_forward.compute_impl_scope sample_engine sample_api
        (utils.computation_cache.empty reorder 1024) ⟨src_blocked, data_handle.buffer 40⟩
        ⟨weights_plain, data_handle.buffer 41⟩ ⟨bias_x, data_handle.buffer 42⟩
        (data_handle.buffer 43)
        (conv_plan.run sample_engine [call.execute plain_operands])).2.submitted.map
          List.length) = some 1) ∧
    ∃ src_in weights_in rest pin0 pin1,
      ([⟨src_blocked, data_handle.buffer 40⟩, ⟨weights_blocked, data_handle.scratch 1⟩,
          ⟨bias_x, data_handle.buffer 42⟩, ⟨dst_blocked, data_handle.buffer 43⟩] : List tensor)
        = src_in :: weights_in :: rest ∧
      (conv_plan.run sample_engine [call.execute plain_operands]).primitive_inputs_[0]?
        = some pin0 ∧
      (conv_plan.run sample_engine [call.execute plain_operands]).primitive_inputs_[1]?
        = some pin1 ∧
      src_in.desc = pin0.desc ∧ weights_in.desc = pin1.desc :=
  have h := (C28_reconciled_operands_bind_without_reorder sample_engine sample_api
    (utils.computation_cache.empty reorder 1024) src_plain weights_plain bias_x
    (tensor.descriptor.of_dims [1, 4, 6, 6] 1) sample_arguments conv_plan
    [call.execute plain_operands] ⟨src_blocked, data_handle.buffer 40⟩
    ⟨weights_plain, data_handle.buffer 41⟩ ⟨bias_x, data_handle.buffer 42⟩
    (data_handle.buffer 43) (Or.inl rfl) rfl rfl).1 _ rfl
  ⟨⟨rfl, rfl, rfl⟩,
    Exists.elim h (fun src_in h1 => Exists.elim h1 (fun weights_in h2 =>
      Exists.elim h2 (fun rest h3 => Exists.elim h3 (fun pin0 h4 =>
        Exists.elim h4 (fun pin1 h5 =>
          ⟨src_in, weights_in, rest, pin0, pin1, h5.1, h5.2.1, h5.2.2.1, h5.2.2.2.1,
            h5.2.2.2.2.1⟩)))))⟩

/-! ## Claims about the element-wise binary facade and batch normalization inference -/

/-- On a cache whose idle reorders are stored under the fingerprint of their own
descriptors, with an engine that creates the reorder primitive descriptor for the two
descriptors and executes what is submitted, `reorder::compute` returns. -/
theorem reorder_compute_returns (E : engine) (cache : utils.computation_cache reorder)
    (input output : tensor)
    (hW : ∀ k r, (k, r) ∈ cache.idle → k = reorder.key r.in_ r.out)
    (hpd : E.reorder_primitive_desc_create input.desc output.desc = true)
    (hsubmit : ∀ seq, E.stream_submit seq = true) :
    (reorder.compute E cache input output).2 = Except.ok output.desc := by
  unfold reorder.compute
  cases hf : cache.fetch_or_create (reorder.key input output)
      (reorder.init E input.desc output.desc) with
  | mk cache1 res =>
    cases res with
    | error e =>
      have := (fetch_or_create_error cache cache1 _ _ e hf).2
      simp [reorder.init, hpd] at this
    | ok op =>
      obtain ⟨⟨d1, d2⟩, _⟩ := reorder_fetch_keyed E cache cache1 input output op hW hf
      simp [utils.guarded_release, reorder.call, d1, d2, hsubmit]

/-- C22, refuted as stated: three tensors of equal logical dims, the result in another
layout than A: the call fails the entry assertion and adds nothing. -/
theorem C22_counterexample :
    src_plain.dims = src_blocked.dims ∧
    (eltwise_binary.compute sample_engine (utils.computation_cache.empty reorder 1024)
      eltwise_binary.eltwise_binary_op.ELTWISE_ADD ⟨src_plain, data_handle.buffer 1⟩
      ⟨src_plain, data_handle.buffer 2⟩ ⟨src_blocked, data_handle.buffer 3⟩).failure
        = some error.assertion ∧
    (eltwise_binary.compute sample_engine (utils.computation_cache.empty reorder 1024)
      eltwise_binary.eltwise_binary_op.ELTWISE_ADD ⟨src_plain, data_handle.buffer 1⟩
      ⟨src_plain, data_handle.buffer 2⟩ ⟨src_blocked, data_handle.buffer 3⟩).added = none :=
  ⟨rfl, rfl, rfl⟩

/-- C22, amended: `eltwise_binary::compute(ELTWISE_ADD, A, B, C)` on tensors A and B of
equal logical dims and a tensor C that carries A's descriptor (the entry assertion), on a
cache of `reorder` reached by calls of `reorder::compute` and with an engine that creates
the reorder from B's to A's descriptor and executes what is submitted: the call succeeds;
when the internal formats of A and B differ it calls `reorder::compute` exactly once, on B
and a scratch tensor of A's descriptor, and adds A's data and the scratch data into C's
buffer; when they are equal it calls it not at all and adds A's and B's data; in both
cases A and B are afterwards what they were. -/
theorem C22_add_reorders_second_operand_once (E : engine) (capacity : Nat)
    (calls : List (tensor × tensor)) (inputA inputB outputC : tensor)
    (hdims : inputA.desc.dims = inputB.desc.dims) (hC : inputA.desc = outputC.desc)
    (hpd : E.reorder_primitive_desc_create inputB.desc inputA.desc = true)
    (hsubmit : ∀ seq, E.stream_submit seq = true) :
    (eltwise_binary.compute E
      (reorder.compute_all E (utils.computation_cache.empty reorder capacity) calls)
      eltwise_binary.eltwise_binary_op.ELTWISE_ADD inputA inputB outputC).failure = none ∧
    (eltwise_binary.compute E
      (reorder.compute_all E (utils.computation_cache.empty reorder capacity) calls)
      eltwise_binary.eltwise_binary_op.ELTWISE_ADD inputA inputB outputC).inputA = inputA ∧
    (eltwise_binary.compute E
      (reorder.compute_all E (utils.computation_cache.empty reorder capacity) calls)
      eltwise_binary.eltwise_binary_op.ELTWISE_ADD inputA inputB outputC).inputB = inputB ∧
    (inputA.desc.format ≠ inputB.desc.format →
      (eltwise_binary.compute E
        (reorder.compute_all E (utils.computation_cache.empty reorder capacity) calls)
        eltwise_binary.eltwise_binary_op.ELTWISE_ADD inputA inputB outputC).reorder_calls =
        [(inputB, ⟨inputA.desc, data_handle.scratch 0⟩)] ∧
      (eltwise_binary.compute E
        (reorder.compute_all E (utils.computation_cache.empty reorder capacity) calls)
        eltwise_binary.eltwise_binary_op.ELTWISE_ADD inputA inputB outputC).added =
        some ⟨outputC.handle, inputA.handle, data_handle.scratch 0, inputA.get_nelems⟩) ∧
    (inputA.desc.format = inputB.desc.format →
      (eltwise_binary.compute E
        (reorder.compute_all E (utils.computation_cache.empty reorder capacity) calls)
        eltwise_binary.eltwise_binary_op.ELTWISE_ADD inputA inputB outputC).reorder_calls
          = [] ∧
      (eltwise_binary.compute E
        (reorder.compute_all E (utils.computation_cache.empty reorder capacity) calls)
        eltwise_binary.eltwise_binary_op.ELTWISE_ADD inputA inputB outputC).reorder_cache =
        reorder.compute_all E (utils.computation_cache.empty reorder capacity) calls ∧
      (eltwise_binary.compute E
        (reorder.compute_all E (utils.computation_cache.empty reorder capacity) calls)
        eltwise_binary.eltwise_binary_op.ELTWISE_ADD inputA inputB outputC).added =
        some ⟨outputC.handle, inputA.handle, inputB.handle, inputA.get_nelems⟩) := by
  have hW := reorder_compute_all_keyed E calls (utils.computation_cache.empty reorder capacity)
    (by intro k r h; simp [utils.computation_cache.empty] at h)
  have hlen : inputA.desc.dims.length ≥ inputB.desc.dims.length := by rw [hdims]
  by_cases hfmt : inputA.desc.format = inputB.desc.format
  · have hdata : eltwise_binary.inputB_data E
        (reorder.compute_all E (utils.computation_cache.empty reorder capacity) calls)
        inputA inputB =
        (reorder.compute_all E (utils.computation_cache.empty reorder capacity) calls, [],
          Except.ok inputB.handle) := by
      simp [eltwise_binary.inputB_data, hfmt]
    simp [eltwise_binary.compute, hlen, hC.symm, hdims, hdata, hfmt]
  · have hret := reorder_compute_returns E
      (reorder.compute_all E (utils.computation_cache.empty reorder capacity) calls)
      inputB ⟨inputA.desc, data_handle.scratch 0⟩ hW hpd hsubmit
    have hdata : ∃ rc1, eltwise_binary.inputB_data E
        (reorder.compute_all E (utils.computation_cache.empty reorder capacity) calls)
        inputA inputB =
        (rc1, [(inputB, ⟨inputA.desc, data_handle.scratch 0⟩)],
          Except.ok (data_handle.scratch 0)) := by
      simp only [eltwise_binary.inputB_data, ne_eq, hfmt, not_false_eq_true, if_true]
      cases hr : reorder.compute E
          (reorder.compute_all E (utils.computation_cache.empty reorder capacity) calls)
          inputB ⟨inputA.desc, data_handle.scratch 0⟩ with
      | mk rc1 res =>
        rw [hr] at hret
        simp only at hret
        subst hret
        exact ⟨rc1, rfl⟩
    obtain ⟨rc1, hdata⟩ := hdata
    simp [eltwise_binary.compute, hlen, hC.symm, hdims, hdata, hfmt]

/-- Witness of the amended C22: a plain A and a blocked B of the same dims on the sample
engine. -/
theorem C22_witness :
    (src_plain.dims = src_blocked.dims ∧ src_plain.format ≠ src_blocked.format) ∧
    (eltwise_binary.compute sample_engine
      (reorder.compute_all sample_engine (utils.computation_cache.empty reorder 1024) [])
      eltwise_binary.eltwise_binary_op.ELTWISE_ADD ⟨src_plain, data_handle.buffer 1⟩
      ⟨src_blocked, data_handle.buffer 2⟩ ⟨src_plain, data_handle.buffer 3⟩).failure
        = none ∧
    (eltwise_binary.compute sample_engine
      (reorder.compute_all sample_engine (utils.computation_cache.empty reorder 1024) [])
      eltwise_binary.eltwise_binary_op.ELTWISE_ADD ⟨src_plain, data_handle.buffer 1⟩
      ⟨src_blocked, data_handle.buffer 2⟩ ⟨src_plain, data_handle.buffer 3⟩).reorder_calls =
      [(⟨src_blocked, data_handle.buffer 2⟩, ⟨src_plain, data_handle.scratch 0⟩)] :=
  have h := C22_add_reorders_second_operand_once sample_engine 1024 []
    ⟨src_plain, data_handle.buffer 1⟩ ⟨src_blocked, data_handle.buffer 2⟩
    ⟨src_plain, data_handle.buffer 3⟩ rfl rfl rfl (fun _ => rfl)
  ⟨⟨rfl, by decide⟩, h.1, (h.2.2.2.1 (by decide)).1⟩

/-- C23, evaluated where the code departs from it: a request with operands of different
logical dims that passes both entry assertions ends with the error kind
`mkldnn_runtime_error` (message "Not implemented!"), which is not `mkldnn_unimplemented`,
for every operation; the operations `ELTWISE_MUL` and `ELTWISE_DIV` on operands of equal
dims and formats end with `mkldnn_unimplemented`. -/
theorem C23_different_dims_throw_runtime_error :
    (∀ (E : engine) (rc : utils.computation_cache reorder)
        (op : eltwise_binary.eltwise_binary_op) (inputA inputB outputC : tensor),
      inputA.desc.dims.length ≥ inputB.desc.dims.length → inputA.desc = outputC.desc →
      inputA.desc.dims ≠ inputB.desc.dims →
      (eltwise_binary.compute E rc op inputA inputB outputC).failure =
        some (error.mkldnn_runtime_error "Not implemented!")) ∧
    error.mkldnn_runtime_error "Not implemented!" ≠
      error.mkldnn_unimplemented "Not implemented!" ∧
    (eltwise_binary.compute sample_engine (utils.computation_cache.empty reorder 1024)
      eltwise_binary.eltwise_binary_op.ELTWISE_ADD ⟨⟨[2, 3], 1, 3⟩, data_handle.buffer 1⟩
      ⟨⟨[3], 1, 2⟩, data_handle.buffer 2⟩ ⟨⟨[2, 3], 1, 3⟩, data_handle.buffer 3⟩).failure =
      some (error.mkldnn_runtime_error "Not implemented!") ∧
    (∀ (E : engine) (rc : utils.computation_cache reorder) (inputA inputB outputC : tensor),
      inputA.desc = outputC.desc → inputA.desc.dims = inputB.desc.dims →
      inputA.desc.format = inputB.desc.format →
      (eltwise_binary.compute E rc eltwise_binary.eltwise_binary_op.ELTWISE_MUL inputA inputB
        outputC).failure = some (error.mkldnn_unimplemented "Not implemented!") ∧
      (eltwise_binary.compute E rc eltwise_binary.eltwise_binary_op.ELTWISE_DIV inputA inputB
        outputC).failure = some (error.mkldnn_unimplemented "Not implemented!")) := by
  refine ⟨?_, by simp, rfl, ?_⟩
  · intro E rc op inputA inputB outputC h1 h2 h3
    simp [eltwise_binary.compute, h1, h2.symm, h3]
  · intro E rc inputA inputB outputC h2 h3 h4
    have hlen : inputA.desc.dims.length ≥ inputB.desc.dims.length := by rw [h3]
    have hdata : eltwise_binary.inputB_data E rc inputA inputB =
        (rc, [], Except.ok inputB.handle) := by
      simp [eltwise_binary.inputB_data, h4]
    constructor <;> simp [eltwise_binary.compute, hlen, h2.symm, h3, hdata]

/-- C26, evaluated where the code departs from it: the plan constructor that
`compute(src, scale, shift, dst_r, epsilon)` runs on a cache miss asks for a batch
normalization descriptor whose epsilon is the value of `use_scale_shift` as a float (2.0)
and whose flags are epsilon converted to `unsigned`.  With epsilon 0.00001 an engine that
creates only the descriptor of the claim (that epsilon, flags `use_scale_shift`) makes the
call throw and nothing is constructed, while an engine that creates only the descriptor
with epsilon 2.0 and flags 0 has a plan constructed. -/
theorem C26_flag_and_epsilon_swapped :
    (∀ (M : mkldnn_api) (src_desc : tensor.descriptor) (epsilon : float),
      batch_normalization_forward_inference.construct M src_desc
          batch_normalization_flag.use_scale_shift epsilon =
        batch_normalization_forward_inference.init_flag M src_desc 2000000
          (epsilon.toNat / 1000000)) ∧
    (∀ (M : mkldnn_api) (src_desc : tensor.descriptor) (epsilon : float) (flag : Nat)
        (p : batch_normalization_forward_inference),
      batch_normalization_forward_inference.init_flag M src_desc epsilon flag = Except.ok p →
      ∃ pd, M.primitive_desc_create (operator_desc.batch_normalization_forward
        prop_kind.forward_scoring src_desc epsilon flag) = Except.ok pd ∧
        p.comp.prim.pd = pd) ∧
    float.to_unsigned 10 = 0 ∧
    (batch_normalization_forward_inference.compute sample_engine
      (checking_bn_api 10 batch_normalization_flag.use_scale_shift)
      (utils.computation_cache.empty batch_normalization_forward_inference 1024)
      sample_src (data_handle.buffer 13) 10).result =
      Except.error (error.c_api "could not create a primitive descriptor") ∧
    (batch_normalization_forward_inference.compute sample_engine
      (checking_bn_api 10 batch_normalization_flag.use_scale_shift)
      (utils.computation_cache.empty batch_normalization_forward_inference 1024)
      sample_src (data_handle.buffer 13) 10).cache.constructions = 0 ∧
    (batch_normalization_forward_inference.compute sample_engine
      (checking_bn_api 2000000 0)
      (utils.computation_cache.empty batch_normalization_forward_inference 1024)
      sample_src (data_handle.buffer 13) 10).cache.constructions = 1 := by
  refine ⟨fun _ _ _ => rfl, ?_, rfl, rfl, rfl, rfl⟩
  intro M src_desc epsilon flag p h
  unfold batch_normalization_forward_inference.init_flag batch_norm_forward_base.descriptor at h
  cases hpd : M.primitive_desc_create (operator_desc.batch_normalization_forward
      prop_kind.forward_scoring src_desc epsilon flag) with
  | error e => simp [hpd] at h
  | ok pd =>
    refine ⟨pd, rfl, ?_⟩
    simp only [hpd] at h
    split at h
    · exact absurd h (by simp)
    · split at h
      · exact absurd h (by simp)
      · rename_i c hc
        simp only [Except.ok.injEq] at h
        subst h
        obtain ⟨c0, h0, h1⟩ := init_unfold _ _ c (Or.inl hc)
        obtain ⟨ins, outs, _, _, hprim0, _⟩ := init_internal_spec _ _ _ c0 h0
        obtain ⟨hprim, _⟩ := connect_reorder_for_pack_spec _ _ c0 c 0 h1
        simp only
        rw [hprim, hprim0]
        rfl

/-! ## The reorders of the plans the descriptor classes build -/

/-- Every descriptor class of the file that calls `create_reorder_pds` passes it two
descriptors, and the others do not call it; a plan built by either `init` overload from
such a descriptor group, and used by any calls since, keeps reorders in slots 0 and 1
only. -/
theorem built_reorders_in_first_two (E : engine) (pd : primitive_desc)
    (descriptors args : List tensor.descriptor) (g : descriptor_group) (c0 : computation)
    (calls : List call) (hlen : descriptors.length ≤ 2)
    (hg : (descriptor_group.reset pd).create_reorder_pds E descriptors = Except.ok g)
    (hc : computation.init g args = Except.ok c0 ∨
      computation.init_vector g args = Except.ok c0) :
    ∀ (j : Nat) (r : reorder_primitive), (c0.run E calls).auxiliaries_ j = some r → j < 2 := by
  intro j r hr
  by_contra hj
  obtain ⟨_, hslots⟩ := create_reorder_pds_spec E pd descriptors g hg
  have hgj : g.auxiliaries_ j = none := by
    rcases hslots j with ⟨hnone, _⟩ | ⟨d, e, hd, _, _, _⟩
    · exact hnone
    · have := lt_length_of_getElem? _ _ _ hd
      omega
  obtain ⟨c1, h0, h1⟩ := init_unfold g args c0 hc
  obtain ⟨ins, outs, _, _, _, _, _, haux0, _, _⟩ := init_internal_spec g _ _ c1 h0
  obtain ⟨_, _, _, _, hsame, _⟩ := connect_reorder_for_pack_spec g args c1 c0 0 h1
  have hnone : c0.auxiliaries_ j = none := by
    rw [(hsame j (Or.inr (Or.inr hgj))).1, haux0]
  rw [run_auxiliaries_none E j calls c0 hnone] at hr
  exact absurd hr (by simp)

/-- C2: on every plan built by `init` from a descriptor group of the file (at most two
descriptors handed to `create_reorder_pds`), fresh or used by any calls since, and every
input slot `i` that holds a reorder `r`: the reorder reads `inouts_[i]` and writes
`primitive_inputs_[i]`, and a bind of slot `i` with a tensor that carries the plan-visible
(pre-reorder) descriptor, the descriptor of `inouts_[i]`, succeeds, sets the data handle of
`inouts_[i]` to the tensor's handle, leaves `primitive_inputs_[i]` materialized and keeps
the reorder, so that the execute that follows submits a sequence that holds this reorder,
once. -/
theorem C2_bind_visible_layout_keeps_reorder (E : engine) (pd : primitive_desc)
    (descriptors args : List tensor.descriptor) (g : descriptor_group) (c0 : computation)
    (calls : List call) (i : Nat) (t : tensor) (io : param) (r : reorder_primitive)
    (hlen : descriptors.length ≤ 2)
    (hg : (descriptor_group.reset pd).create_reorder_pds E descriptors = Except.ok g)
    (hc : computation.init g args = Except.ok c0 ∨
      computation.init_vector g args = Except.ok c0)
    (hio : (c0.run E calls).inouts_[i]? = some io)
    (hr : (c0.run E calls).auxiliaries_ i = some r)
    (hvis : t.desc = io.desc) :
    ∃ pin, (c0.run E calls).primitive_inputs_[i]? = some pin ∧
      r.input = io ∧ r.output = pin ∧
      ((c0.run E calls).connect_handle_for i t).failure = none ∧
      ((c0.run E calls).connect_handle_for i t).plan.get_data_handle io = t.handle ∧
      ((c0.run E calls).connect_handle_for i t).plan.materialized pin = true ∧
      ((c0.run E calls).connect_handle_for i t).plan.auxiliaries_ i = some r ∧
      (primitive_group.execute E ((c0.run E calls).connect_handle_for i t).plan).submitted =
        some (primitive_group.execution_sequence
          ((c0.run E calls).connect_handle_for i t).plan) ∧
      primitive.reorder i r ∈ primitive_group.execution_sequence
        ((c0.run E calls).connect_handle_for i t).plan ∧
      (primitive_group.execution_sequence
        ((c0.run E calls).connect_handle_for i t).plan).count (primitive.reorder i r) = 1 := by
  have hwf := run_well_formed E g args c0 hc calls
  have hi := built_reorders_in_first_two E pd descriptors args g c0 calls hlen hg hc i r hr
  obtain ⟨io2, pin, hio2, hpin, hne, hin, hout⟩ := hwf.reorders i r hr
  rw [hio] at hio2
  cases hio2
  obtain ⟨h1, h2, h3, h4, h5⟩ :=
    connect_handle_for_source_keeps_reorder (c0.run E calls) i t io pin r hio hpin hne hr hvis
  refine ⟨pin, hpin, hin, hout, h1, h2, h3, h4, ?_, h5 hi, ?_⟩
  · unfold primitive_group.execute
    split <;> rfl
  · rw [execution_sequence_count_reorder]
    simp [hi, h4]

/-- Witness of C2: slot 1 of the sample convolution plan, after an execute with plain
operands, bound with a weights tensor in the caller's plain layout. -/
theorem C2_witness :
    ((conv_plan.run sample_engine [call.execute plain_operands]).connect_handle_for 1
      ⟨weights_plain, data_handle.buffer 301⟩).failure = none ∧
    ((conv_plan.run sample_engine [call.execute plain_operands]).connect_handle_for 1
      ⟨weights_plain, data_handle.buffer 301⟩).plan.get_data_handle ⟨5, weights_plain⟩ =
        data_handle.buffer 301 ∧
    (primitive_group.execution_sequence
      ((conv_plan.run sample_engine [call.execute plain_operands]).connect_handle_for 1
        ⟨weights_plain, data_handle.buffer 301⟩).plan).count
      (primitive.reorder 1
        ⟨⟨weights_plain, weights_blocked⟩, ⟨5, weights_plain⟩, ⟨1, weights_blocked⟩⟩) = 1 :=
  Exists.elim
    (C2_bind_visible_layout_keeps_reorder sample_engine conv_pd [src_plain, weights_plain]
      [src_plain, weights_plain, bias_x] conv_group conv_plan [call.execute plain_operands] 1
      ⟨weights_plain, data_handle.buffer 301⟩ ⟨5, weights_plain⟩
      ⟨⟨weights_plain, weights_blocked⟩, ⟨5, weights_plain⟩, ⟨1, weights_blocked⟩⟩
      (by decide) rfl (Or.inl rfl) rfl rfl rfl)
    (fun _ h => ⟨h.2.2.2.1, h.2.2.2.2.1, h.2.2.2.2.2.2.2.2.2⟩)

/-- C7: on every plan built by `init` from a descriptor group of the file (at most two
descriptors handed to `create_reorder_pds`), fresh or used by any calls since,
`primitive_group::execute` submits the execution sequence, and for every slot `i`: when
the slot still needs a reorder (`need_reorder_input(i)`) the sequence holds the slot's
reorder, exactly once, and no other reorder for the slot; when it does not, the sequence
holds no reorder for the slot.  So no needed reorder of any input slot is left out. -/
theorem C7_execute_submits_each_needed_reorder_once (E : engine) (pd : primitive_desc)
    (descriptors args : List tensor.descriptor) (g : descriptor_group) (c0 : computation)
    (calls : List call) (hlen : descriptors.length ≤ 2)
    (hg : (descriptor_group.reset pd).create_reorder_pds E descriptors = Except.ok g)
    (hc : computation.init g args = Except.ok c0 ∨
      computation.init_vector g args = Except.ok c0) :
    (primitive_group.execute E (c0.run E calls)).submitted =
      some (primitive_group.execution_sequence (c0.run E calls)) ∧
    ∀ i : Nat,
      ((c0.run E calls).need_reorder_input i = true →
        ∃ r, (c0.run E calls).auxiliaries_ i = some r ∧
          primitive.reorder i r ∈ primitive_group.execution_sequence (c0.run E calls) ∧
          (primitive_group.execution_sequence (c0.run E calls)).count
            (primitive.reorder i r) = 1 ∧
          ∀ r2, primitive.reorder i r2 ∈ primitive_group.execution_sequence (c0.run E calls) →
            r2 = r) ∧
      ((c0.run E calls).need_reorder_input i = false →
        ∀ r, primitive.reorder i r ∉ primitive_group.execution_sequence (c0.run E calls)) := by
  refine ⟨?_, ?_⟩
  · unfold primitive_group.execute
    split <;> rfl
  · intro i
    constructor
    · intro hneed
      cases hr : (c0.run E calls).auxiliaries_ i with
      | none => simp [computation.need_reorder_input, hr] at hneed
      | some r =>
        have hi := built_reorders_in_first_two E pd descriptors args g c0 calls hlen hg hc i r hr
        refine ⟨r, rfl, ?_, ?_, ?_⟩
        · exact (mem_execution_sequence_reorder _ i r).mpr ⟨by omega, hr⟩
        · rw [execution_sequence_count_reorder]
          simp [hi, hr]
        · intro r2 hmem
          have h2 := ((mem_execution_sequence_reorder _ i r2).mp hmem).2
          rw [hr] at h2
          cases h2
          rfl
    · intro hneed r hmem
      have h2 := ((mem_execution_sequence_reorder _ i r).mp hmem).2
      simp [computation.need_reorder_input, h2] at hneed

/-- Witness of C7: the sample convolution plan after an execute whose source was already
in the engine's layout: slot 0 needs no reorder any more and slot 1 still needs its own,
which the execution sequence holds once. -/
theorem C7_witness :
    (primitive_group.execute sample_engine
      (conv_plan.run sample_engine [call.execute blocked_source_operands])).submitted =
      some [primitive.reorder 1
          ⟨⟨weights_plain, weights_blocked⟩, ⟨5, weights_plain⟩, ⟨1, weights_blocked⟩⟩,
        primitive.op conv_plan.prim] ∧
    ∃ r, (conv_plan.run sample_engine [call.execute blocked_source_operands]).auxiliaries_ 1
        = some r ∧
      primitive.reorder 1 r ∈ primitive_group.execution_sequence
        (conv_plan.run sample_engine [call.execute blocked_source_operands]) ∧
      (primitive_group.execution_sequence
        (conv_plan.run sample_engine [call.execute blocked_source_operands])).count
        (primitive.reorder 1 r) = 1 :=
  ⟨rfl,
    Exists.elim
      (((C7_execute_submits_each_needed_reorder_once sample_engine conv_pd
        [src_plain, weights_plain] [src_plain, weights_plain, bias_x] conv_group conv_plan
        [call.execute blocked_source_operands] (by decide) rfl (Or.inl rfl)).2 1).1 rfl)
      (fun r h => ⟨r, h.1, h.2.1, h.2.2.1⟩)⟩

/-! ## Pooling in inference mode -/

/-- A plan the variadic `init` builds from a descriptor group without reorder descriptors:
every slot holds the param numbered by its position, and the input slots share theirs with
the primary primitive. -/
theorem init_reset_slots (pd : primitive_desc) (args : List tensor.descriptor)
    (c : computation)
    (h : computation.init (descriptor_group.reset pd) args = Except.ok c) :
    (∀ (k : Nat) (io : param), c.inouts_[k]? = some io → io.id = k) ∧
    (∀ (k : Nat) (pin : param), c.primitive_inputs_[k]? = some pin →
      c.inouts_[k]? = some pin) := by
  obtain ⟨c0, h0, h1⟩ := init_unfold _ args c (Or.inl h)
  obtain ⟨ins, outs, hins, houts, _, hio0, hpi0, _, _, _⟩ := init_internal_spec _ _ _ c0 h0
  obtain ⟨hlen_in, hall_in⟩ := init_inputs_spec _ _ 0 ins hins
  obtain ⟨_, hall_out⟩ := init_outputs_spec _ _ _ 0 outs houts
  obtain ⟨_, hpi, _, _, hsame, _⟩ :=
    connect_reorder_for_pack_spec _ args c0 c 0 h1
  have hio : c.inouts_ = ins ++ outs := by
    apply List.ext_getElem?
    intro k
    rw [(hsame k (Or.inr (Or.inr rfl))).2, hio0]
  refine ⟨?_, ?_⟩
  · intro k io hk
    rw [hio] at hk
    by_cases hlt : k < ins.length
    · rw [List.getElem?_append_left hlt] at hk
      have := (hall_in k io hk).1
      omega
    · rw [List.getElem?_append_right (by omega)] at hk
      have := (hall_out _ io hk).1
      omega
  · intro k pin hk
    rw [hpi, hpi0] at hk
    rw [hio, List.getElem?_append_left (lt_length_of_getElem? _ _ _ hk)]
    exact hk

/-- The variadic `execute` with two tensors that ends without a failure made two binds,
slot 0 then slot 1, both without a failure, and ran `primitive_group::execute` on the plan
the second bind left. -/
theorem execute_two_binds (E : engine) (c : computation) (a b : tensor)
    (h : (c.execute E [a, b]).failure = none) :
    (c.connect_handle_for 0 a).failure = none ∧
    ((c.connect_handle_for 0 a).plan.connect_handle_for 1 b).failure = none ∧
    c.execute E [a, b] =
      primitive_group.execute E ((c.connect_handle_for 0 a).plan.connect_handle_for 1 b).plan := by
  have hexec : c.execute E [a, b] =
      (match c.connect_handle_for 0 a with
        | ⟨c1, none⟩ =>
          (match c1.connect_handle_for 1 b with
            | ⟨c2, none⟩ => primitive_group.execute E c2
            | ⟨c2, some e⟩ => ⟨c2, some e, none⟩)
        | ⟨c1, some e⟩ => ⟨c1, some e, none⟩) := by
    unfold computation.execute
    simp only [computation.connect_handle_for_pack]
    cases h0 : c.connect_handle_for 0 a with
    | mk c1 f1 =>
      cases f1 with
      | some e => rfl
      | none =>
        simp only [Nat.zero_add]
        cases h1 : c1.connect_handle_for 1 b with
        | mk c2 f2 =>
          cases f2 <;> rfl
  rw [hexec] at h ⊢
  cases h0 : c.connect_handle_for 0 a with
  | mk c1 f1 =>
    rw [h0] at h
    cases f1 with
    | some e => exact absurd h (by simp)
    | none =>
      simp only at h ⊢
      cases h1 : c1.connect_handle_for 1 b with
      | mk c2 f2 =>
        rw [h1] at h
        cases f2 with
        | some e => exact absurd h (by simp)
        | none => exact ⟨by simp, by simp, by simp⟩

/-- A bind that succeeds on a plan whose slots hold the params numbered by position,
shared with the primary primitive on the input slots, found the slot's param carrying the
descriptor of the tensor. -/
theorem bind_direct_slot (c : computation)
    (hid : ∀ (k : Nat) (io : param), c.inouts_[k]? = some io → io.id = k)
    (hshared : ∀ (k : Nat) (pin : param), c.primitive_inputs_[k]? = some pin →
      c.inouts_[k]? = some pin)
    (i : Nat) (t : tensor) (h : (c.connect_handle_for i t).failure = none) :
    c.inouts_[i]? = some ⟨i, t.desc⟩ := by
  cases hio : c.inouts_[i]? with
  | none =>
    have hnot : ¬ i < c.primitive_inputs_.length := by
      intro hlt
      have := hshared i _ (List.getElem?_eq_getElem hlt)
      rw [hio] at this
      exact absurd this (by simp)
    simp [computation.connect_handle_for, hnot, computation.connect_output, hio] at h
  | some io =>
    have hdirect : c.connect_handle_for i t = c.connect_output i t := by
      apply connect_handle_for_direct c i t io hio
      by_cases hlt : i < c.primitive_inputs_.length
      · right
        refine ⟨_, List.getElem?_eq_getElem hlt, ?_⟩
        have := hshared i _ (List.getElem?_eq_getElem hlt)
        rw [hio] at this
        cases this
        rfl
      · left
        omega
    rw [hdirect] at h
    simp only [computation.connect_output, hio] at h
    split at h
    · rename_i hd
      have h1 := hid i io hio
      cases io with
      | mk id desc =>
        simp only at h1 hd
        rw [h1, hd]
    · simp at h
/-- The plan `pooling_forward::init` returns is built from a descriptor group without
reorder descriptors. -/
theorem pooling_init_reset (E : engine) (M : mkldnn_api) (x_desc y_desc : tensor.descriptor)
    (strides kernel padding_l padding_r : List Int)
    (aalgorithm aprop_kind apadding_kind : Nat) (c0 : computation)
    (h : pooling_forward.init E M x_desc y_desc strides kernel padding_l padding_r aalgorithm
      aprop_kind apadding_kind = Except.ok c0) :
    ∃ pd, computation.init (descriptor_group.reset pd) [x_desc] = Except.ok c0 := by
  unfold pooling_forward.init pooling_forward.descriptor at h
  split at h
  · exact absurd h (by simp)
  · rename_i g hg
    split at hg
    · split at hg
      · exact absurd hg (by simp)
      · rename_i pd hpd
        simp only [Except.ok.injEq] at hg
        subst hg
        exact ⟨pd, h⟩
    · exact absurd hg (by simp)

/-- C21: for every source tensor, pooling parameters and algorithm, when
`pooling_forward::compute` is called with a propagation kind other than
`forward_training` and returns a tensor, that tensor carries no workspace, and on the plan
it leased the call made two binds, slot 0 with the source and slot 1 with the returned
tensor, both without a failure, then ran `primitive_group::execute`; the plan it released
into the cache is the plan these two binds left.  When the leased plan is one
`pooling_forward::init` built, fresh or used by any calls since, slot 0 holds a param with
the source's descriptor and slot 1 one with the result's, after the call the first holds
the source's data handle and the second the caller's result buffer, and no other data
handle of the plan has changed. -/
theorem C21_inference_pooling_binds_source_and_result (E : engine) (M : mkldnn_api)
    (cache : utils.computation_cache computation) (src : tensor) (dst_dims : List Nat)
    (dst_r : data_handle) (strides kernel padding_l padding_r : List Int)
    (aalgorithm aprop_kind apadding_kind : Nat) (dst : tensor_with_extra)
    (hmode : aprop_kind ≠ prop_kind.forward_training)
    (h : (pooling_forward.compute E M cache src dst_dims dst_r strides kernel padding_l
      padding_r aalgorithm aprop_kind apadding_kind).result = Except.ok dst) :
    dst.has_extra = false ∧ dst.extra = none ∧ dst.self.handle = dst_r ∧
    ∃ cache1 comp,
      cache.fetch_or_create
        (pooling_forward.key src dst_dims strides kernel padding_l padding_r aalgorithm
          aprop_kind apadding_kind)
        (pooling_forward.init E M src.desc
          (tensor.descriptor.of_dims dst_dims src.desc.data_type) strides kernel padding_l
          padding_r aalgorithm aprop_kind apadding_kind) = (cache1, Except.ok comp) ∧
      (comp.connect_handle_for 0 src).failure = none ∧
      ((comp.connect_handle_for 0 src).plan.connect_handle_for 1 dst.self).failure = none ∧
      pooling_forward.execute E comp src dst =
        primitive_group.execute E
          ((comp.connect_handle_for 0 src).plan.connect_handle_for 1 dst.self).plan ∧
      (pooling_forward.compute E M cache src dst_dims dst_r strides kernel padding_l
        padding_r aalgorithm aprop_kind apadding_kind).cache =
        cache1.release
          (pooling_forward.key src dst_dims strides kernel padding_l padding_r aalgorithm
            aprop_kind apadding_kind)
          ((comp.connect_handle_for 0 src).plan.connect_handle_for 1 dst.self).plan ∧
      (pooling_forward.compute E M cache src dst_dims dst_r strides kernel padding_l
        padding_r aalgorithm aprop_kind apadding_kind).submitted =
        some (primitive_group.execution_sequence
          ((comp.connect_handle_for 0 src).plan.connect_handle_for 1 dst.self).plan) ∧
      ∀ (x_desc y_desc : tensor.descriptor) (s k pl pr : List Int) (alg prop pad : Nat)
        (c0 : computation) (calls : List call),
        pooling_forward.init E M x_desc y_desc s k pl pr alg prop pad = Except.ok c0 →
        comp = c0.run E calls →
        comp.inouts_[0]? = some ⟨0, src.desc⟩ ∧
        comp.inouts_[1]? = some ⟨1, dst.self.desc⟩ ∧
        ((comp.connect_handle_for 0 src).plan.connect_handle_for 1
          dst.self).plan.get_data_handle ⟨0, src.desc⟩ = src.handle ∧
        ((comp.connect_handle_for 0 src).plan.connect_handle_for 1
          dst.self).plan.get_data_handle ⟨1, dst.self.desc⟩ = dst_r ∧
        ∀ p : param, p.id ≠ 0 → p.id ≠ 1 →
          ((comp.connect_handle_for 0 src).plan.connect_handle_for 1
            dst.self).plan.get_data_handle p = comp.get_data_handle p := by
  unfold pooling_forward.compute at h ⊢
  cases hf : cache.fetch_or_create
      (pooling_forward.key src dst_dims strides kernel padding_l padding_r aalgorithm
        aprop_kind apadding_kind)
      (pooling_forward.init E M src.desc
        (tensor.descriptor.of_dims dst_dims src.desc.data_type) strides kernel padding_l
        padding_r aalgorithm aprop_kind apadding_kind) with
  | mk cache1 res =>
    rw [hf] at h
    cases res with
    | error e => exact absurd h (by simp)
    | ok comp =>
      simp only [utils.guarded_release, pooling_forward.compute_scope] at h ⊢
      cases hd : pooling_forward.make_dst M comp dst_r aalgorithm aprop_kind with
      | error e =>
        rw [hd] at h
        exact absurd h (by simp)
      | ok dst0 =>
        rw [hd] at h
        simp only at h ⊢
        have hx : dst0.has_extra = false := by
          rw [pooling_make_dst_has_extra M _ dst_r aalgorithm aprop_kind _ hd]
          simp [pooling_forward.with_workspace, hmode]
        have hn : dst0.extra = none := by
          cases he : dst0.extra with
          | none => rfl
          | some w => simp [tensor_with_extra.has_extra, he] at hx
        have hh : dst0.self.handle = dst_r := by
          unfold pooling_forward.make_dst at hd
          split at hd
          · split at hd
            · exact absurd hd (by simp)
            · split at hd
              · exact absurd hd (by simp)
              · simp only [Except.ok.injEq] at hd
                rw [← hd]
          · split at hd
            · exact absurd hd (by simp)
            · simp only [Except.ok.injEq] at hd
              rw [← hd]
        have hexe : pooling_forward.execute E comp src dst0 =
            comp.execute E [src, dst0.self] := by
          simp [pooling_forward.execute, pooling_forward.execute_operands, hn]
        cases hex : pooling_forward.execute E comp src dst0 with
        | mk comp1 failure submitted =>
          rw [hex] at h
          cases failure with
          | some e => exact absurd h (by simp)
          | none =>
            simp only [Except.ok.injEq] at h
            subst h
            have hfail : (comp.execute E [src, dst0.self]).failure = none := by
              rw [← hexe, hex]
            obtain ⟨b0, b1, b2⟩ := execute_two_binds E comp src dst0.self hfail
            rw [← hexe, hex] at b2
            have hplan : comp1 =
                ((comp.connect_handle_for 0 src).plan.connect_handle_for 1 dst0.self).plan := by
              have := congrArg execution.plan b2
              rw [primitive_group_execute_plan] at this
              exact this
            have hsub : submitted = some (primitive_group.execution_sequence
                ((comp.connect_handle_for 0 src).plan.connect_handle_for 1 dst0.self).plan) := by
              have := congrArg execution.submitted b2
              simp only at this
              rw [this]
              unfold primitive_group.execute
              split <;> rfl
            refine ⟨hx, hn, hh, cache1, comp, rfl, b0, b1, hex.trans b2, ?_, ?_, ?_⟩
            · rw [hplan]
            · exact hsub
            · intro x_desc y_desc s k pl pr alg prop pad c0 calls hinit hrun
              obtain ⟨pd, hpd⟩ := pooling_init_reset E M x_desc y_desc s k pl pr alg prop pad
                c0 hinit
              obtain ⟨hid0, hsh0⟩ := init_reset_slots pd [x_desc] c0 hpd
              obtain ⟨f1, f2⟩ := run_frame E calls c0
              have hid : ∀ (k : Nat) (io : param), comp.inouts_[k]? = some io → io.id = k := by
                rw [hrun, f1]
                exact hid0
              have hsh : ∀ (k : Nat) (pin : param), comp.primitive_inputs_[k]? = some pin →
                  comp.inouts_[k]? = some pin := by
                rw [hrun, f1, f2]
                exact hsh0
              have hs0 := bind_direct_slot comp hid hsh 0 src b0
              cases hb0 : comp.connect_handle_for 0 src with
              | mk c1 fl1 =>
                rw [hb0] at b0 b1
                simp only at b0 b1
                subst b0
                obtain ⟨g1, g2, g3, g4, _⟩ := bind_direct_handle comp hid hsh 0 src c1 hb0
                have hid1 : ∀ (k : Nat) (io : param), c1.inouts_[k]? = some io → io.id = k := by
                  rw [g3]
                  exact hid
                have hsh1 : ∀ (k : Nat) (pin : param), c1.primitive_inputs_[k]? = some pin →
                    c1.inouts_[k]? = some pin := by
                  rw [g3, g4]
                  exact hsh
                have hs1 := bind_direct_slot c1 hid1 hsh1 1 dst0.self b1
                rw [g3] at hs1
                cases hb1 : c1.connect_handle_for 1 dst0.self with
                | mk c2 fl2 =>
                  rw [hb1] at b1
                  simp only at b1
                  subst b1
                  obtain ⟨k1, k2, _, _, _⟩ :=
                    bind_direct_handle c1 hid1 hsh1 1 dst0.self c2 hb1
                  refine ⟨hs0, hs1, ?_, ?_, ?_⟩
                  · simp only [computation.get_data_handle]
                    rw [k2 0 (by decide), g1]
                  · simp only [computation.get_data_handle]
                    rw [k1, hh]
                  · intro p hp0 hp1
                    simp only [computation.get_data_handle]
                    rw [k2 p.id hp1, g2 p.id hp0]

/-- On a cache without idle plans, a lease hands out the plan the constructor returned. -/
theorem fetch_or_create_miss {α : Type} (cache cache1 : utils.computation_cache α)
    (key : key_t) (constructor : Except error α) (p : α) (hidle : cache.idle = [])
    (h : cache.fetch_or_create key constructor = (cache1, Except.ok p)) :
    constructor = Except.ok p := by
  unfold utils.computation_cache.fetch_or_create at h
  rw [hidle] at h
  simp only [utils.take_idle, utils.computation_cache.construct] at h
  cases constructor with
  | error e => simp at h
  | ok q =>
    simp only [Prod.mk.injEq, Except.ok.injEq] at h
    rw [h.2]

/-- Witness of C21: max pooling in scoring mode on the sample engine, from an empty
cache: the plan leased is the one the constructor built, and after the call its slot 0
holds the source's buffer and its slot 1 the caller's result buffer. -/
theorem C21_witness :
    prop_kind.forward_scoring ≠ prop_kind.forward_training ∧
    (pooling_forward.compute sample_engine sample_api
      (utils.computation_cache.empty computation 1024) sample_src [1, 3, 4, 4]
      (data_handle.buffer 30) [2, 2] [2, 2] [0, 0] [0, 0] algorithm.pooling_max
      prop_kind.forward_scoring 0).result =
      Except.ok ⟨⟨⟨[1, 3, 4, 4], 1, 8⟩, data_handle.buffer 30⟩, none⟩ ∧
    ∃ (cache1 : utils.computation_cache computation) (comp : computation),
      pooling_forward.init sample_engine sample_api sample_src.desc
        (tensor.descriptor.of_dims [1, 3, 4, 4] sample_src.desc.data_type) [2, 2] [2, 2]
        [0, 0] [0, 0] algorithm.pooling_max prop_kind.forward_scoring 0 = Except.ok comp ∧
      (comp.connect_handle_for 0 sample_src).failure = none ∧
      ((comp.connect_handle_for 0 sample_src).plan.connect_handle_for 1
        ⟨⟨[1, 3, 4, 4], 1, 8⟩, data_handle.buffer 30⟩).failure = none ∧
      (pooling_forward.compute sample_engine sample_api
        (utils.computation_cache.empty computation 1024) sample_src [1, 3, 4, 4]
        (data_handle.buffer 30) [2, 2] [2, 2] [0, 0] [0, 0] algorithm.pooling_max
        prop_kind.forward_scoring 0).cache =
        utils.computation_cache.release cache1
          (pooling_forward.key sample_src [1, 3, 4, 4] [2, 2] [2, 2] [0, 0] [0, 0]
            algorithm.pooling_max prop_kind.forward_scoring 0)
          ((comp.connect_handle_for 0 sample_src).plan.connect_handle_for 1
            ⟨⟨[1, 3, 4, 4], 1, 8⟩, data_handle.buffer 30⟩).plan ∧
      comp.inouts_[0]? = some ⟨0, sample_src.desc⟩ ∧
      comp.inouts_[1]? = some ⟨1, ⟨[1, 3, 4, 4], 1, 8⟩⟩ ∧
      ((comp.connect_handle_for 0 sample_src).plan.connect_handle_for 1
        ⟨⟨[1, 3, 4, 4], 1, 8⟩, data_handle.buffer 30⟩).plan.get_data_handle
          ⟨0, sample_src.desc⟩ = sample_src.handle ∧
      ((comp.connect_handle_for 0 sample_src).plan.connect_handle_for 1
        ⟨⟨[1, 3, 4, 4], 1, 8⟩, data_handle.buffer 30⟩).plan.get_data_handle
          ⟨1, ⟨[1, 3, 4, 4], 1, 8⟩⟩ = data_handle.buffer 30 :=
  ⟨by decide, rfl,
    Exists.elim
      (C21_inference_pooling_binds_source_and_result sample_engine sample_api
        (utils.computation_cache.empty computation 1024) sample_src [1, 3, 4, 4]
        (data_handle.buffer 30) [2, 2] [2, 2] [0, 0] [0, 0] algorithm.pooling_max
        prop_kind.forward_scoring 0 _ (by decide) rfl).2.2.2
      (fun cache1 h1 => Exists.elim h1
        (fun comp h2 =>
          have hinit := fetch_or_create_miss _ cache1 _ _ comp rfl h2.1
          have hslots := h2.2.2.2.2.2.2 _ _ _ _ _ _ _ _ _ comp [] hinit rfl
          ⟨cache1, comp, hinit, h2.2.1, h2.2.2.1, h2.2.2.2.2.1, hslots.1, hslots.2.1,
            hslots.2.2.1, hslots.2.2.2.1⟩))⟩

/-! ## The plans either overload of the convolution facade leaves in the cache -/

end ideep
